import Mathlib

/-! # nallely-websocket (C connector): frame codec, send queue and connection callback

A shallow embedding of `libs/C/nallely-websocket.c`.

Conventions of the embedding:

* a byte (`uint8_t`, `char`) is a `Fin 256`; a `double` is carried by its 64-bit
  pattern (`uint64_t`, a `Fin (2^64)`), which is what the `union { double d; uint64_t u; }`
  of the source reads and writes;
* a block of memory is the list of its bytes; a `const char *` is the list of bytes that
  start at the pointer, the terminating NUL being implied at the end of the list;
* `size_t` quantities are natural numbers (none of the sizes computed here can wrap);
* the byte order of the host is a parameter (`HostOrder`), because the source moves the
  value through memory with `memcpy`.
-/

namespace Nallely

/-! ## Machine types -/

abbrev uint8_t := Fin 256

abbrev uint64_t := Fin 18446744073709551616

/-- In-memory byte order of the machine that runs the connector. -/
inductive HostOrder where
  | little
  | big
  deriving DecidableEq, Repr

/-- The 8 bytes of a 64-bit word, least significant byte first. -/
def le_bytes (u : uint64_t) : List uint8_t :=
  [Fin.ofNat u.val, Fin.ofNat (u.val / 256), Fin.ofNat (u.val / 65536),
   Fin.ofNat (u.val / 16777216), Fin.ofNat (u.val / 4294967296),
   Fin.ofNat (u.val / 1099511627776), Fin.ofNat (u.val / 281474976710656),
   Fin.ofNat (u.val / 72057594037927936)]

/-- The 8 bytes of a 64-bit word, most significant byte first. -/
def be_bytes (u : uint64_t) : List uint8_t :=
  [Fin.ofNat (u.val / 72057594037927936), Fin.ofNat (u.val / 281474976710656),
   Fin.ofNat (u.val / 1099511627776), Fin.ofNat (u.val / 4294967296),
   Fin.ofNat (u.val / 16777216), Fin.ofNat (u.val / 65536),
   Fin.ofNat (u.val / 256), Fin.ofNat u.val]

/-- Byte `i` of a block, as a number (0 past the end of the block). -/
def byte_at (bs : List uint8_t) (i : Nat) : Nat := (bs.getD i 0).val

/-- The 64-bit word whose bytes, least significant first, are `bs`. -/
def of_le_bytes (bs : List uint8_t) : uint64_t :=
  Fin.ofNat (byte_at bs 0 + byte_at bs 1 * 256 + byte_at bs 2 * 65536
    + byte_at bs 3 * 16777216 + byte_at bs 4 * 4294967296
    + byte_at bs 5 * 1099511627776 + byte_at bs 6 * 281474976710656
    + byte_at bs 7 * 72057594037927936)

/-- The 64-bit word whose bytes, most significant first, are `bs`. -/
def of_be_bytes (bs : List uint8_t) : uint64_t :=
  Fin.ofNat (byte_at bs 7 + byte_at bs 6 * 256 + byte_at bs 5 * 65536
    + byte_at bs 4 * 16777216 + byte_at bs 3 * 4294967296
    + byte_at bs 2 * 1099511627776 + byte_at bs 1 * 281474976710656
    + byte_at bs 0 * 72057594037927936)

/-- The object representation of a `uint64_t` in the memory of the host
(what `memcpy(dst, &x, 8)` copies). -/
def store64 : HostOrder → uint64_t → List uint8_t
  | HostOrder.little, u => le_bytes u
  | HostOrder.big, u => be_bytes u

/-- The `uint64_t` whose object representation on the host is `bs`
(what `memcpy(&x, src, 8)` leaves in `x`). -/
def load64 : HostOrder → List uint8_t → uint64_t
  | HostOrder.little, bs => of_le_bytes bs
  | HostOrder.big, bs => of_be_bytes bs

/-- The compiler builtin `__builtin_bswap64`: the word with the order of its 8 bytes reversed. -/
def __builtin_bswap64 (u : uint64_t) : uint64_t := of_le_bytes (be_bytes u)

/-! ## libc helpers -/

/-- The C `strlen`: number of bytes before the first NUL. -/
def strlen (s : List uint8_t) : Nat := (s.takeWhile (fun c => decide (c ≠ 0))).length

/-- The C string held by a character array: its bytes up to the first NUL. -/
def c_string (s : List uint8_t) : List uint8_t := s.takeWhile (fun c => decide (c ≠ 0))

/-- The C `memcpy(dst + off, src, n)`: bytes `off .. off + n - 1` of `dst` become the
first `n` bytes of `src`. -/
def memcpy (dst : List uint8_t) (off : Nat) (src : List uint8_t) (n : Nat) : List uint8_t :=
  dst.take off ++ src.take n ++ dst.drop (off + n)

/-! ## Frame codec -/

/-- The struct `nly_message_t` of the header: `char name[256]; double value;`. -/
structure nly_message_t where
  name : List uint8_t
  value : uint64_t
  deriving DecidableEq, Repr

/-- The function `nly_frame_encode(buf, bufsz, name, value)`: the return value and the
contents of `buf` afterwards. -/
def nly_frame_encode (host : HostOrder) (buf : List uint8_t) (bufsz : Nat)
    (name : List uint8_t) (value : uint64_t) : Int × List uint8_t :=
  let name_len := strlen name
  if name_len > 255 then (-1, buf) else
  let total := 1 + name_len + 8
  if bufsz < total then (-1, buf) else
  let buf1 := buf.set 0 (Fin.ofNat name_len)
  let buf2 := memcpy buf1 1 name name_len
  let be := __builtin_bswap64 value
  let buf3 := memcpy buf2 (1 + name_len) (store64 host be) 8
  ((total : Int), buf3)

/-- The function `nly_frame_decode(data, len, out)`: the return value and the contents of
`*out` afterwards. -/
def nly_frame_decode (host : HostOrder) (data : List uint8_t) (len : Nat)
    (out : nly_message_t) : Int × nly_message_t :=
  if len < 1 then (-1, out) else
  let name_len := byte_at data 0
  if len < 1 + name_len + 8 then (-1, out) else
  let name1 := memcpy out.name 0 (data.drop 1) name_len
  let name2 := name1.set name_len 0
  let be := load64 host ((data.drop (1 + name_len)).take 8)
  let u := __builtin_bswap64 be
  (0, { name := name2, value := u })

/-! ## Send queue

The queue is a singly linked list of heap nodes with a head and a tail pointer. The heap of
nodes is the list `mem`: a node pointer is an index into it, and `malloc` hands out the next
free index. `free` is not modelled (a freed node is simply never referenced again). Every
operation runs with the mutex held, so each one is a single atomic step of the model. -/

/-- The struct `nly_queue_entry`: the frame buffer (`LWS_PRE` bytes of headroom, then the
payload), the payload length, and the `next` pointer. -/
structure nly_queue_entry_t where
  frame : List uint8_t
  frame_len : Nat
  next : Option Nat
  deriving DecidableEq, Repr

/-- The struct `nly_queue`: node heap, `head` and `tail`. -/
structure nly_queue_t where
  mem : List nly_queue_entry_t
  head : Option Nat
  tail : Option Nat
  deriving DecidableEq, Repr

/-- The function `nly_queue_init` on a zeroed struct. -/
def nly_queue_init : nly_queue_t := { mem := [], head := none, tail := none }

/-- The assignment `p->next = e` on the node heap. -/
def set_next (mem : List nly_queue_entry_t) (p : Nat) (e : Option Nat) :
    List nly_queue_entry_t :=
  mem.modify (fun n => { n with next := e }) p

/-- The function `nly_queue_push(q, frame, payload_len)`; `node_ok` tells whether the
`malloc` of the node succeeds. -/
def nly_queue_push (q : nly_queue_t) (node_ok : Bool) (frame : List uint8_t)
    (payload_len : Nat) : nly_queue_t :=
  if !node_ok then q else
  let e := q.mem.length
  let mem1 := q.mem ++ [{ frame := frame, frame_len := payload_len, next := none }]
  match q.tail with
  | some t => { mem := set_next mem1 t (some e), head := q.head, tail := some e }
  | none => { mem := mem1, head := some e, tail := some e }

/-- The function `nly_queue_pop(q)`: the queue afterwards and the returned node pointer
(`none` for NULL). -/
def nly_queue_pop (q : nly_queue_t) : nly_queue_t × Option Nat :=
  match q.head with
  | none => (q, none)
  | some e =>
    let nxt := (q.mem[e]?).bind (fun n => n.next)
    let q1 : nly_queue_t := { q with head := nxt }
    let q2 : nly_queue_t := if nxt.isNone then { q1 with tail := none } else q1
    (q2, some e)

/-- The function `nly_queue_empty(q)`. -/
def nly_queue_empty (q : nly_queue_t) : Bool := q.head.isNone

/-- The node pointers met when following `next` from `p`, for at most `fuel` steps. -/
def queue_walk (mem : List nly_queue_entry_t) : Nat → Option Nat → List Nat
  | 0, _ => []
  | _ + 1, none => []
  | fuel + 1, some a => a :: queue_walk mem fuel ((mem[a]?).bind (fun n => n.next))

/-- The node pointers of the queue, from head to tail. -/
def queue_addrs (q : nly_queue_t) : List Nat := queue_walk q.mem q.mem.length q.head

/-- The frame and payload length a node pointer refers to (`e->frame`, `e->frame_len`). -/
def entry_at (mem : List nly_queue_entry_t) (e : Nat) : List uint8_t × Nat :=
  match mem[e]? with
  | some n => (n.frame, n.frame_len)
  | none => ([], 0)

/-- The entries held by the queue, from head to tail. -/
def queue_entries (q : nly_queue_t) : List (List uint8_t × Nat) :=
  (queue_addrs q).map (entry_at q.mem)

/-- Whether `addrs` is the chain of nodes that starts at pointer `p` and ends with a NULL
`next`. -/
def linked (mem : List nly_queue_entry_t) : Option Nat → List Nat → Bool
  | p, [] => p.isNone
  | p, a :: rest =>
    (p == some a) && (match mem[a]? with
      | some n => linked mem n.next rest
      | none => false)

/-- Representation invariant of the queue: `head` starts a NULL-terminated chain `addrs` of
distinct nodes and `tail` is its last node (NULL when the chain is empty). -/
def queue_repr (q : nly_queue_t) (addrs : List Nat) : Prop :=
  linked q.mem q.head addrs = true ∧ q.tail = addrs.getLast? ∧ addrs.Nodup

instance (q : nly_queue_t) (addrs : List Nat) : Decidable (queue_repr q addrs) := by
  unfold queue_repr
  infer_instance

/-- The queue is well formed: the invariant holds of the chain that starts at `head`. -/
def queue_wf (q : nly_queue_t) : Prop := queue_repr q (queue_addrs q)

instance (q : nly_queue_t) : Decidable (queue_wf q) := by
  unfold queue_wf
  infer_instance

/-- Pushing a list of entries, first to last (all node allocations succeed). -/
def push_all (q : nly_queue_t) (es : List (List uint8_t × Nat)) : nly_queue_t :=
  es.foldl (fun acc e => nly_queue_push acc true e.1 e.2) q

/-- Calling `nly_queue_pop` `n` times: the queue afterwards and, per call, what the returned
pointer refers to (`none` for a NULL return). -/
def pop_n : Nat → nly_queue_t → nly_queue_t × List (Option (List uint8_t × Nat))
  | 0, q => (q, [])
  | n + 1, q =>
    let r := nly_queue_pop q
    let rest := pop_n n r.1
    (rest.1, (r.2.map (entry_at r.1.mem)) :: rest.2)

/-! ## Platform and allocator

What the source takes from libwebsockets and libc is a parameter of the embedding: the macro
`LWS_PRE`, the byte order of the host, the conversion `%g` of `printf` and `strtod`. The
outcome of every checked allocation is an argument of the function that allocates. -/

/-- The platform the connector is built for. -/
structure platform where
  host : HostOrder
  LWS_PRE : Nat
  fmt_g : uint64_t → List uint8_t
  strtod : List uint8_t → uint64_t

/-- Outcome of one allocation: `none` when it fails, otherwise the arbitrary initial contents
of the fresh bytes, by offset. -/
abbrev alloc_t := Option (Nat → uint8_t)

/-- The C `malloc(n)`. -/
def malloc (a : alloc_t) (n : Nat) : Option (List uint8_t) :=
  a.map (fun g => (List.range n).map g)

/-- The C `realloc(old, n)`: the old contents up to the smaller size, then fresh bytes. -/
def realloc (a : alloc_t) (old : List uint8_t) (n : Nat) : Option (List uint8_t) :=
  a.map (fun g => old.take n ++ (List.range (n - old.length)).map g)

/-- Bytes of an ASCII string literal. -/
def str (s : String) : List uint8_t := s.toList.map (fun c => Fin.ofNat c.toNat)

/-- The C `snprintf(buf + off, size, ...)` once the format is expanded to `s`: at most
`size - 1` bytes of `s` are written, then a NUL; the full length of `s` is returned. -/
def snprintf (buf : List uint8_t) (off : Nat) (size : Nat) (s : List uint8_t) :
    List uint8_t × Nat :=
  if size = 0 then (buf, s.length) else
  let n := min s.length (size - 1)
  (memcpy buf off (s.take n ++ [0]) (n + 1), s.length)

/-- The subtraction `cap - off` in `size_t` (64 bits, wrapping). -/
def size_sub (cap off : Nat) : Nat := (cap + 18446744073709551616 - off) % 18446744073709551616

/-! ## Connector state -/

/-- The struct `nly_param_t` of the header. -/
structure nly_param_t where
  name : List uint8_t
  min : uint64_t
  max : uint64_t
  deriving DecidableEq, Repr

inductive nly_conn_phase where
  | NLY_PHASE_REGISTER
  | NLY_PHASE_RUNNING
  deriving DecidableEq, Repr

/-- The struct `nly_service`. Strings are held as C strings; `ctx` and `wsi` are handles of
libwebsockets (`none` for NULL); a callback slot holds the function pointer (`none` for
NULL) and its user data; `rx_buf` is the allocated block (empty for NULL). The thread handle
is left out. -/
structure nly_service_t where
  name : List uint8_t
  host : List uint8_t
  port : Int
  path : List uint8_t
  reg_json : List uint8_t
  reg_json_len : Nat
  params : List nly_param_t
  param_count : Nat
  running : Int
  conn_alive : Int
  phase : nly_conn_phase
  ctx : Option Nat
  wsi : Option Nat
  queue : nly_queue_t
  rx_buf : List uint8_t
  rx_len : Nat
  rx_cap : Nat
  rx_is_binary : Int
  on_open : Option Nat
  ud_open : Nat
  on_close : Option Nat
  ud_close : Nat
  on_error : Option Nat
  ud_error : Nat
  on_message : Option Nat
  ud_message : Nat
  deriving DecidableEq, Repr

inductive lws_write_protocol where
  | LWS_WRITE_TEXT
  | LWS_WRITE_BINARY
  deriving DecidableEq, Repr

/-- What a function of the connector does to the outside, in order: calls into
libwebsockets and calls of the user callbacks. `lws_write` carries the `len` bytes at the
pointer it is given; `on_message` carries the C string in `msg->name` and `msg->value`. -/
inductive effect where
  | lws_write (wsi : Nat) (payload : List uint8_t) (protocol : lws_write_protocol)
  | lws_callback_on_writable (wsi : Nat)
  | lws_cancel_service (ctx : Nat)
  | on_open (fn ud : Nat)
  | on_close (fn ud : Nat)
  | on_error (fn : Nat) (msg : List uint8_t) (ud : Nat)
  | on_message (fn : Nat) (name : List uint8_t) (value : uint64_t) (ud : Nat)
  deriving DecidableEq, Repr

/-- Invocation of a callback slot: nothing when the slot is NULL. -/
def call_slot (slot : Option Nat) (e : Nat → effect) : List effect :=
  match slot with
  | some fn => [e fn]
  | none => []

/-! ## Registration payload -/

/-- The expansion of the format of one parameter entry of `build_registration_json`. -/
def registration_entry (P : platform) (p : nly_param_t) : List uint8_t :=
  str "\x7b\"name\":\"" ++ c_string p.name ++ str "\",\"range\":[" ++ P.fmt_g p.min
    ++ str "," ++ P.fmt_g p.max ++ str "]\x7d"

/-- One turn of the loop of `build_registration_json` on `params[i]`, from the buffer and
the offset `off`. -/
def registration_step (P : platform) (cap : Nat) (st : List uint8_t × Nat)
    (ip : Nat × nly_param_t) : List uint8_t × Nat :=
  let st1 : List uint8_t × Nat :=
    if ip.1 > 0 then
      let r := snprintf st.1 st.2 (size_sub cap st.2) (str ",")
      (r.1, st.2 + r.2)
    else st
  let r := snprintf st1.1 st1.2 (size_sub cap st1.2) (registration_entry P ip.2)
  (r.1, st1.2 + r.2)

/-- The function `build_registration_json(params, count, out_len)`: `none` when `malloc`
fails, otherwise the buffer and `*out_len`. -/
def build_registration_json (P : platform) (a : alloc_t) (params : List nly_param_t)
    (count : Nat) : Option (List uint8_t × Nat) :=
  let cap := 64 + count * 128
  match malloc a cap with
  | none => none
  | some buf =>
    let r0 := snprintf buf 0 cap (str "\x7b\"kind\":\"external\",\"parameters\":[")
    let st := (params.take count).enum.foldl (registration_step P cap) (r0.1, r0.2)
    let r := snprintf st.1 st.2 (size_sub cap st.2) (str "]\x7d")
    some (r.1, st.2 + r.2)

/-! ## Receive buffer -/

/-- The function `rx_reset`. -/
def rx_reset (svc : nly_service_t) : nly_service_t := { svc with rx_len := 0 }

/-- The function `rx_append(svc, data, len)`; `a` is the outcome of the `realloc` it may
call. -/
def rx_append (svc : nly_service_t) (a : alloc_t) (data : List uint8_t) (len : Nat) :
    Int × nly_service_t :=
  let need := svc.rx_len + len
  let grown : Option nly_service_t :=
    if need > svc.rx_cap then
      let newcap := if need * 2 < 512 then 512 else need * 2
      match realloc a svc.rx_buf newcap with
      | none => none
      | some tmp => some { svc with rx_buf := tmp, rx_cap := newcap }
    else some svc
  match grown with
  | none => (-1, svc)
  | some svc1 =>
    (0, { svc1 with rx_buf := memcpy svc1.rx_buf svc1.rx_len data len,
                    rx_len := svc1.rx_len + len })

/-! ## Incoming messages -/

/-- Whether `needle` is found at the very start of `s`. -/
def starts_with : List uint8_t → List uint8_t → Bool
  | _, [] => true
  | [], _ :: _ => false
  | a :: s, b :: n => (a == b) && starts_with s n

/-- Offset of the first occurrence of `needle` in `s`, counted from `off`. -/
def strstr_from (needle : List uint8_t) : List uint8_t → Nat → Option Nat
  | [], off => if needle = [] then some off else none
  | a :: s, off =>
    if starts_with (a :: s) needle then some off else strstr_from needle s (off + 1)

/-- The C `strstr(hay, needle)`, as an offset into `hay` (`none` for NULL). -/
def strstr (hay needle : List uint8_t) : Option Nat := strstr_from needle (c_string hay) 0

/-- The C `strchr(s, c)` for a character `c` other than NUL, as an offset into `s`. -/
def strchr (s : List uint8_t) (c : uint8_t) : Option Nat :=
  let cs := c_string s
  let i := cs.indexOf c
  if i < cs.length then some i else none

/-- The C `strrchr(s, c)` for a character `c` other than NUL, as an offset into `s`. -/
def strrchr (s : List uint8_t) (c : uint8_t) : Option Nat :=
  let cs := c_string s
  let i := cs.reverse.indexOf c
  if i < cs.length then some (cs.length - 1 - i) else none

/-- The local `nly_message_t msg` of `handle_complete_message` before it is filled. -/
def msg_uninit : nly_message_t := { name := List.replicate 256 0, value := 0 }

/-- The function `handle_complete_message(svc)`. -/
def handle_complete_message (P : platform) (svc : nly_service_t) :
    nly_service_t × List effect :=
  if svc.rx_is_binary ≠ 0 then
    let r := nly_frame_decode P.host svc.rx_buf svc.rx_len msg_uninit
    if r.1 = 0 then
      (svc, call_slot svc.on_message
        (fun fn => effect.on_message fn (c_string r.2.name) r.2.value svc.ud_message))
    else (svc, [])
  else
    let svc1 := { svc with rx_buf := svc.rx_buf.set svc.rx_len 0 }
    let json := svc1.rx_buf
    match strstr json (str "\"on\""), strstr json (str "\"value\"") with
    | some on_key, some val_key =>
      match strchr (json.drop (on_key + 4)) 34 with
      | none => (svc1, [])
      | some q1 =>
        let p := on_key + 4 + q1 + 1
        match strchr (json.drop p) 34 with
        | none => (svc1, [])
        | some nlen =>
          if nlen < 256 then
            let name1 := (memcpy msg_uninit.name 0 (json.drop p) nlen).set nlen 0
            match strchr (json.drop (val_key + 7)) 58 with
            | none => (svc1, [])
            | some c1 =>
              let value := P.strtod (c_string (json.drop (val_key + 7 + c1 + 1)))
              (svc1, call_slot svc1.on_message
                (fun fn => effect.on_message fn (c_string name1) value svc1.ud_message))
          else (svc1, [])
    | _, _ => (svc1, [])

/-! ## The libwebsockets callback -/

inductive lws_callback_reasons where
  | LWS_CALLBACK_CLIENT_ESTABLISHED
  | LWS_CALLBACK_CLIENT_WRITEABLE
  | LWS_CALLBACK_CLIENT_RECEIVE
  | LWS_CALLBACK_CLIENT_CONNECTION_ERROR
  | LWS_CALLBACK_CLOSED
  | other
  deriving DecidableEq, Repr

/-- What libwebsockets reports about the fragment being received:
`lws_frame_is_binary`, `lws_is_first_fragment`, `lws_is_final_fragment`. -/
structure lws_fragment where
  is_binary : Bool
  is_first : Bool
  is_final : Bool
  deriving DecidableEq, Repr

/-- The function `nly_lws_callback(wsi, reason, user, in, len)` for the connector `svc` of
the context: return value, connector afterwards, effects. `inp` is `in` (`none` for NULL),
`frag` what libwebsockets says of the current fragment, `a` the outcome of the one
allocation the call may make. -/
def nly_lws_callback (P : platform) (svc : nly_service_t) (wsi : Nat)
    (reason : lws_callback_reasons) (inp : Option (List uint8_t)) (len : Nat)
    (frag : lws_fragment) (a : alloc_t) : Int × nly_service_t × List effect :=
  match reason with
  | lws_callback_reasons.LWS_CALLBACK_CLIENT_ESTABLISHED =>
    (0, { svc with wsi := some wsi, conn_alive := 1,
                   phase := nly_conn_phase.NLY_PHASE_REGISTER },
      [effect.lws_callback_on_writable wsi])
  | lws_callback_reasons.LWS_CALLBACK_CLIENT_WRITEABLE =>
    if svc.phase = nly_conn_phase.NLY_PHASE_REGISTER then
      let plen := svc.reg_json_len
      match malloc a (P.LWS_PRE + plen) with
      | none => (-1, svc, [])
      | some buf0 =>
        let buf := memcpy buf0 P.LWS_PRE svc.reg_json plen
        let w := effect.lws_write wsi ((buf.drop P.LWS_PRE).take plen)
          lws_write_protocol.LWS_WRITE_TEXT
        let svc1 := { svc with phase := nly_conn_phase.NLY_PHASE_RUNNING }
        let opened := call_slot svc1.on_open (fun fn => effect.on_open fn svc1.ud_open)
        let more := if !nly_queue_empty svc1.queue
          then [effect.lws_callback_on_writable wsi] else []
        (0, svc1, [w] ++ opened ++ more)
    else
      let r := nly_queue_pop svc.queue
      let svc1 := { svc with queue := r.1 }
      match r.2 with
      | some e =>
        let ent := entry_at r.1.mem e
        let w := effect.lws_write wsi ((ent.1.drop P.LWS_PRE).take ent.2)
          lws_write_protocol.LWS_WRITE_BINARY
        let more := if !nly_queue_empty svc1.queue
          then [effect.lws_callback_on_writable wsi] else []
        (0, svc1, [w] ++ more)
      | none => (0, svc1, [])
  | lws_callback_reasons.LWS_CALLBACK_CLIENT_RECEIVE =>
    let svc1 :=
      if frag.is_binary then { svc with rx_is_binary := 1 }
      else if frag.is_first then { svc with rx_is_binary := 0 }
      else svc
    let svc2 := (rx_append svc1 a (inp.getD []) len).2
    if frag.is_final then
      let r := handle_complete_message P svc2
      (0, rx_reset r.1, r.2)
    else (0, svc2, [])
  | lws_callback_reasons.LWS_CALLBACK_CLIENT_CONNECTION_ERROR =>
    let err := match inp with
      | some m => c_string m
      | none => str "connection error"
    (-1, { svc with wsi := none, conn_alive := 0 },
      call_slot svc.on_error (fun fn => effect.on_error fn err svc.ud_error))
  | lws_callback_reasons.LWS_CALLBACK_CLOSED =>
    (-1, { svc with wsi := none, conn_alive := 0 },
      call_slot svc.on_close (fun fn => effect.on_close fn svc.ud_close))
  | lws_callback_reasons.other => (0, svc, [])

/-! ## Public API -/

/-- The C `isspace` in the "C" locale. -/
def isspace (c : uint8_t) : Bool := c.val = 32 || (9 ≤ c.val && c.val ≤ 13)

/-- The C `isdigit`. -/
def isdigit (c : uint8_t) : Bool := 48 ≤ c.val && c.val ≤ 57

/-- The C `strtol(s, NULL, 10)` with a 64-bit `long`: white space is skipped, then an optional
sign and the decimal digits that follow are read; a number outside the range of `long` is
replaced by `LONG_MIN` or `LONG_MAX`. -/
def strtol (s : List uint8_t) : Int :=
  let s1 := (c_string s).dropWhile isspace
  let neg := s1.head? = some 45
  let s2 := if s1.head? = some 45 ∨ s1.head? = some 43 then s1.drop 1 else s1
  let v : Int := (s2.takeWhile isdigit).foldl (fun acc d => acc * 10 + ((d.val : Int) - 48)) 0
  let r : Int := if neg then -v else v
  if r < -9223372036854775808 then -9223372036854775808
  else if 9223372036854775807 < r then 9223372036854775807 else r

/-- The conversion of a `long` to a 32-bit `int`: the low 32 bits, in two's complement. -/
def int_of_long (v : Int) : Int := (v + 2147483648) % 4294967296 - 2147483648

/-- The C `atoi(s)`, which the C library defines as `(int) strtol(s, NULL, 10)`: the result
is a 32-bit `int`, the low 32 bits of the number read when it does not fit. -/
def atoi (s : List uint8_t) : Int := int_of_long (strtol s)

/-- The connector right after `calloc(1, sizeof(*svc))`: every field zero. -/
def nly_service_calloc : nly_service_t :=
  { name := [], host := [], port := 0, path := [], reg_json := [], reg_json_len := 0,
    params := [], param_count := 0, running := 0, conn_alive := 0,
    phase := nly_conn_phase.NLY_PHASE_REGISTER, ctx := none, wsi := none,
    queue := { mem := [], head := none, tail := none },
    rx_buf := [], rx_len := 0, rx_cap := 0, rx_is_binary := 0,
    on_open := none, ud_open := 0, on_close := none, ud_close := 0,
    on_error := none, ud_error := 0, on_message := none, ud_message := 0 }

/-- The function `nly_service_create(name, address, params, param_count)`: `none` when the
`calloc` of the connector fails. `a` is the outcome of the `malloc` of the registration
buffer; the unchecked allocations of the source are taken to succeed. -/
def nly_service_create (P : platform) (calloc_ok : Bool) (a : alloc_t) (name : List uint8_t)
    (address : Option (List uint8_t)) (params : List nly_param_t) (param_count : Nat) :
    Option nly_service_t :=
  if !calloc_ok then none else
  let svc := nly_service_calloc
  let hp : List uint8_t × Int :=
    match address with
    | some addr =>
      match strrchr addr 58 with
      | some colon => ((c_string addr).take colon, atoi (addr.drop (colon + 1)))
      | none => (c_string addr, 6789)
    | none => (str "localhost", 6789)
  let path_len := 1 + strlen name + (str "/autoconfig").length + 1
  let path := (snprintf (List.replicate path_len 0) 0 path_len
    (str "/" ++ c_string name ++ str "/autoconfig")).1
  let copied := (params.take param_count).map
    (fun p => ({ name := c_string p.name, min := p.min, max := p.max } : nly_param_t))
  let reg := build_registration_json P a params param_count
  some { svc with
    name := c_string name, host := hp.1, port := hp.2, path := path,
    param_count := param_count, params := copied,
    reg_json := (reg.map Prod.fst).getD svc.reg_json,
    reg_json_len := (reg.map Prod.snd).getD svc.reg_json_len,
    queue := nly_queue_init }

/-- The function `nly_service_on_open`. -/
def nly_service_on_open (svc : nly_service_t) (cb : Option Nat) (ud : Nat) : nly_service_t :=
  { svc with on_open := cb, ud_open := ud }

/-- The function `nly_service_on_close`. -/
def nly_service_on_close (svc : nly_service_t) (cb : Option Nat) (ud : Nat) : nly_service_t :=
  { svc with on_close := cb, ud_close := ud }

/-- The function `nly_service_on_error`. -/
def nly_service_on_error (svc : nly_service_t) (cb : Option Nat) (ud : Nat) : nly_service_t :=
  { svc with on_error := cb, ud_error := ud }

/-- The function `nly_service_on_message`. -/
def nly_service_on_message (svc : nly_service_t) (cb : Option Nat) (ud : Nat) :
    nly_service_t :=
  { svc with on_message := cb, ud_message := ud }

/-- The function `nly_service_start(svc)`; `thread_ok` tells whether `pthread_create`
succeeds. -/
def nly_service_start (svc : nly_service_t) (thread_ok : Bool) : Int × nly_service_t :=
  let svc1 := { svc with running := 1 }
  if !thread_ok then (-1, svc1) else (0, svc1)

/-- The function `nly_service_send(svc, parameter, value)`: return value, connector
afterwards, effects. `a` is the outcome of the `malloc` of the frame buffer, `node_ok` that
of the `malloc` of the queue node. -/
def nly_service_send (P : platform) (svc : nly_service_t) (parameter : List uint8_t)
    (value : uint64_t) (a : alloc_t) (node_ok : Bool) : Int × nly_service_t × List effect :=
  let name_len := strlen parameter
  let payload := 1 + name_len + 8
  match malloc a (P.LWS_PRE + payload) with
  | none => (-1, svc, [])
  | some buf =>
    let r := nly_frame_encode P.host (buf.drop P.LWS_PRE) payload parameter value
    let buf1 := buf.take P.LWS_PRE ++ r.2
    if r.1 < 0 then (-1, svc, []) else
    let svc1 := { svc with queue := nly_queue_push svc.queue node_ok buf1 r.1.toNat }
    let woken := match svc.ctx with
      | some c => [effect.lws_cancel_service c]
      | none => []
    (0, svc1, woken)

/-! ## Connection thread -/

/-- One connection attempt of `nly_thread_func`, from the top of the `while (svc->running)`
body to the entry of the event loop: `ctx` is what `lws_create_context` returns and `w` what
`lws_client_connect_via_info` returns. The flag tells whether the event loop is entered. -/
def nly_thread_func_connect (svc : nly_service_t) (ctx w : Option Nat) :
    nly_service_t × List effect × Bool :=
  match ctx with
  | none =>
    ({ svc with ctx := none },
      call_slot svc.on_error
        (fun fn => effect.on_error fn (str "lws_create_context failed") svc.ud_error), false)
  | some c =>
    match w with
    | none =>
      ({ svc with ctx := none },
        call_slot svc.on_error
          (fun fn => effect.on_error fn (str "lws_client_connect failed") svc.ud_error), false)
    | some _ => ({ rx_reset { svc with ctx := some c } with conn_alive := 1 }, [], true)

/-- The statements of the event loop of `nly_thread_func` that follow a return of
`lws_service`: a write opportunity is asked for when sends are pending. -/
def nly_thread_func_poll (svc : nly_service_t) : List effect :=
  match svc.wsi with
  | some w =>
    if svc.phase = nly_conn_phase.NLY_PHASE_RUNNING ∧ !nly_queue_empty svc.queue
    then [effect.lws_callback_on_writable w] else []
  | none => []

/-- The teardown of `nly_thread_func` once the event loop is left. -/
def nly_thread_func_teardown (svc : nly_service_t) : nly_service_t :=
  { svc with ctx := none, wsi := none }

/-! ## Runs of the connector -/

/-- One step taken on a connector: a call of the libwebsockets callback, a call of
`nly_service_send` or `nly_service_start` by a user thread, or a stretch of the connection
thread. The queue is the only state two threads share, and it is only touched with the
mutex held, so steps are atomic. -/
inductive step where
  | callback (wsi : Nat) (reason : lws_callback_reasons) (inp : Option (List uint8_t))
      (len : Nat) (frag : lws_fragment) (a : alloc_t)
  | send (parameter : List uint8_t) (value : uint64_t) (a : alloc_t) (node_ok : Bool)
  | start (thread_ok : Bool)
  | connect (ctx w : Option Nat)
  | poll
  | teardown

/-- The connector after a step, and the effects of the step. -/
def do_step (P : platform) (svc : nly_service_t) : step → nly_service_t × List effect
  | step.callback wsi reason inp len frag a =>
    (nly_lws_callback P svc wsi reason inp len frag a).2
  | step.send parameter value a node_ok => (nly_service_send P svc parameter value a node_ok).2
  | step.start thread_ok => ((nly_service_start svc thread_ok).2, [])
  | step.connect ctx w =>
    ((nly_thread_func_connect svc ctx w).1, (nly_thread_func_connect svc ctx w).2.1)
  | step.poll => (svc, nly_thread_func_poll svc)
  | step.teardown => (nly_thread_func_teardown svc, [])

/-- The connector after a list of steps, and the effects of each step. -/
def run (P : platform) : nly_service_t → List step → nly_service_t × List (List effect)
  | svc, [] => (svc, [])
  | svc, s :: rest =>
    let r := do_step P svc s
    let rr := run P r.1 rest
    (rr.1, r.2 :: rr.2)

/-- The frames written to the transport by a list of effects, in order. -/
def writes_of : List effect → List (List uint8_t × lws_write_protocol)
  | [] => []
  | effect.lws_write _ payload protocol :: rest => (payload, protocol) :: writes_of rest
  | _ :: rest => writes_of rest

/-- A sample platform: little-endian host, 16 bytes of headroom, a `%g` that prints 0.0 as
"0" and 127.0 as "127", a `strtod` that is not looked at. -/
def sample_platform : platform :=
  { host := HostOrder.little, LWS_PRE := 16,
    fmt_g := fun v => if v = 0 then str "0" else if v = 4638637247447433216 then str "127"
      else str "?",
    strtod := fun _ => 0 }

/-! ## Samples, receive runs and delivery -/


/-- A sample connector: error callback 1 and close callback 2 registered on a zeroed
connector, then the established event for the transport handle 7. -/
def sample_established : nly_service_t :=
  (nly_lws_callback sample_platform
    (nly_service_on_close (nly_service_on_error nly_service_calloc (some 1) 0) (some 2) 0)
    7 lws_callback_reasons.LWS_CALLBACK_CLIENT_ESTABLISHED none 0 ⟨false, false, false⟩
    none).2.1

/-- One call on the receive buffer: `rx_append(svc, data, len)` with `len` the length of
`data` and a `realloc` that succeeds and leaves `g` in the fresh bytes, or `rx_reset(svc)`. -/
inductive rx_op where
  | append (g : Nat → uint8_t) (data : List uint8_t)
  | reset

/-- The connector after a list of calls on the receive buffer. -/
def rx_run : nly_service_t → List rx_op → nly_service_t
  | svc, [] => svc
  | svc, rx_op.append g data :: rest =>
    rx_run (rx_append svc (some g) data data.length).2 rest
  | svc, rx_op.reset :: rest => rx_run (rx_reset svc) rest

/-- The callback invocations `handle_complete_message` makes for a binary message whose
bytes are `m`, on a connector with the message slot `on_message` and user data `ud`. -/
def dispatch_binary (P : platform) (on_message : Option Nat) (ud : Nat) (m : List uint8_t) :
    List effect :=
  if (nly_frame_decode P.host m m.length msg_uninit).1 = 0 then
    call_slot on_message (fun fn => effect.on_message fn
      (c_string (nly_frame_decode P.host m m.length msg_uninit).2.name)
      (nly_frame_decode P.host m m.length msg_uninit).2.value ud)
  else []

/-- The payloads of the binary frames among the writes of a list of effects, in order. -/
def binary_writes (effs : List effect) : List (List uint8_t) :=
  (writes_of effs).filterMap
    (fun w => if w.2 = lws_write_protocol.LWS_WRITE_BINARY then some w.1 else none)

/-- The bytes a write opportunity hands to the transport for a queue entry (frame buffer,
payload length): the payload that follows the `LWS_PRE` bytes of headroom. -/
def entry_payload (P : platform) (e : List uint8_t × Nat) : List uint8_t :=
  (e.1.drop P.LWS_PRE).take e.2

/-- The frame a step puts in the queue: the step is a send call that returns 0 and whose
queue node was allocated, and the frame is what `nly_frame_encode` writes for (name, value)
into a buffer of `1 + len(name) + 8` bytes. Other steps queue nothing. -/
def sent_frame (P : platform) (svc : nly_service_t) : step → List (List uint8_t)
  | step.send parameter value a node_ok =>
    if (nly_service_send P svc parameter value a node_ok).1 = 0 ∧ node_ok = true then
      [(nly_frame_encode P.host (List.replicate (1 + strlen parameter + 8) 0)
        (1 + strlen parameter + 8) parameter value).2]
    else []
  | _ => []

/-- The frames put in the queue by the send calls of a run, in call order. -/
def sent_frames (P : platform) : nly_service_t → List step → List (List uint8_t)
  | _, [] => []
  | svc, s :: rest => sent_frame P svc s ++ sent_frames P (do_step P svc s).1 rest

/-- The frame encoded by a step, when the step is a send call that returns 0, which is what
its caller sees of it: what `nly_frame_encode` writes for (name, value) into a buffer of
`1 + len(name) + 8` bytes. Other steps encode nothing. -/
def accepted_frame (P : platform) (svc : nly_service_t) : step → List (List uint8_t)
  | step.send parameter value a node_ok =>
    if (nly_service_send P svc parameter value a node_ok).1 = 0 then
      [(nly_frame_encode P.host (List.replicate (1 + strlen parameter + 8) 0)
        (1 + strlen parameter + 8) parameter value).2]
    else []
  | _ => []

/-- The frames encoded by the send calls of a run that return 0, in call order. -/
def accepted_frames (P : platform) : nly_service_t → List step → List (List uint8_t)
  | _, [] => []
  | svc, s :: rest => accepted_frame P svc s ++ accepted_frames P (do_step P svc s).1 rest

/-- The receive events of the middle fragments of a message, neither first nor final: each
has its own binary flag, its bytes and the outcome of the `realloc` it may need. -/
def middle_fragments (wsi : Nat) (mids : List (Bool × List uint8_t × alloc_t)) : List step :=
  mids.map (fun m => step.callback wsi lws_callback_reasons.LWS_CALLBACK_CLIENT_RECEIVE
    (some m.2.1) m.2.1.length ⟨m.1, false, false⟩ m.2.2)

/-! # Theorems -/

/-! ## Facts about words and bytes -/

theorem of_le_bytes_le_bytes (u : uint64_t) : of_le_bytes (le_bytes u) = u := by
  apply Fin.ext
  have h := u.isLt
  simp only [of_le_bytes, le_bytes, byte_at, List.getD_cons_zero, List.getD_cons_succ,
    Fin.ofNat, Fin.val_mk]
  omega

theorem of_be_bytes_be_bytes (u : uint64_t) : of_be_bytes (be_bytes u) = u := by
  apply Fin.ext
  have h := u.isLt
  simp only [of_be_bytes, be_bytes, byte_at, List.getD_cons_zero, List.getD_cons_succ,
    Fin.ofNat, Fin.val_mk]
  omega

theorem be_bytes_of_le_bytes (b0 b1 b2 b3 b4 b5 b6 b7 : uint8_t) :
    be_bytes (of_le_bytes [b0, b1, b2, b3, b4, b5, b6, b7])
      = [b7, b6, b5, b4, b3, b2, b1, b0] := by
  have h0 := b0.isLt; have h1 := b1.isLt; have h2 := b2.isLt; have h3 := b3.isLt
  have h4 := b4.isLt; have h5 := b5.isLt; have h6 := b6.isLt; have h7 := b7.isLt
  simp only [of_le_bytes, be_bytes, byte_at, List.getD_cons_zero, List.getD_cons_succ,
    Fin.ofNat, Fin.val_mk]
  refine congrArg₂ _ (Fin.ext ?_) (congrArg₂ _ (Fin.ext ?_) (congrArg₂ _ (Fin.ext ?_)
    (congrArg₂ _ (Fin.ext ?_) (congrArg₂ _ (Fin.ext ?_) (congrArg₂ _ (Fin.ext ?_)
    (congrArg₂ _ (Fin.ext ?_) (congrArg₂ _ (Fin.ext ?_) rfl)))))))
  all_goals (simp only [Fin.val_mk]; omega)

theorem bswap64_bswap64 (u : uint64_t) : __builtin_bswap64 (__builtin_bswap64 u) = u := by
  unfold __builtin_bswap64
  conv_lhs => rw [show be_bytes u = [Fin.ofNat (u.val / 72057594037927936),
    Fin.ofNat (u.val / 281474976710656), Fin.ofNat (u.val / 1099511627776),
    Fin.ofNat (u.val / 4294967296), Fin.ofNat (u.val / 16777216), Fin.ofNat (u.val / 65536),
    Fin.ofNat (u.val / 256), Fin.ofNat u.val] from rfl]
  rw [be_bytes_of_le_bytes]
  exact of_le_bytes_le_bytes u

theorem load64_store64 (host : HostOrder) (u : uint64_t) : load64 host (store64 host u) = u := by
  cases host
  · exact of_le_bytes_le_bytes u
  · exact of_be_bytes_be_bytes u

theorem store64_length (host : HostOrder) (u : uint64_t) : (store64 host u).length = 8 := by
  cases host <;> rfl

theorem le_bytes_of_le_bytes (b0 b1 b2 b3 b4 b5 b6 b7 : uint8_t) :
    le_bytes (of_le_bytes [b0, b1, b2, b3, b4, b5, b6, b7])
      = [b0, b1, b2, b3, b4, b5, b6, b7] := by
  have h0 := b0.isLt; have h1 := b1.isLt; have h2 := b2.isLt; have h3 := b3.isLt
  have h4 := b4.isLt; have h5 := b5.isLt; have h6 := b6.isLt; have h7 := b7.isLt
  simp only [of_le_bytes, le_bytes, byte_at, List.getD_cons_zero, List.getD_cons_succ,
    Fin.ofNat, Fin.val_mk]
  refine congrArg₂ _ (Fin.ext ?_) (congrArg₂ _ (Fin.ext ?_) (congrArg₂ _ (Fin.ext ?_)
    (congrArg₂ _ (Fin.ext ?_) (congrArg₂ _ (Fin.ext ?_) (congrArg₂ _ (Fin.ext ?_)
    (congrArg₂ _ (Fin.ext ?_) (congrArg₂ _ (Fin.ext ?_) rfl)))))))
  all_goals (simp only [Fin.val_mk]; omega)

/-- On a little-endian host the bytes stored for the swapped word are the big-endian
bytes of the word. -/
theorem store64_little_bswap64 (u : uint64_t) :
    store64 HostOrder.little (__builtin_bswap64 u) = be_bytes u := by
  show le_bytes (of_le_bytes (be_bytes u)) = be_bytes u
  conv_lhs => rw [show be_bytes u = [Fin.ofNat (u.val / 72057594037927936),
    Fin.ofNat (u.val / 281474976710656), Fin.ofNat (u.val / 1099511627776),
    Fin.ofNat (u.val / 4294967296), Fin.ofNat (u.val / 16777216), Fin.ofNat (u.val / 65536),
    Fin.ofNat (u.val / 256), Fin.ofNat u.val] from rfl]
  rw [le_bytes_of_le_bytes]
  rfl
/-! ## Facts about `strlen`, `memcpy` and the codec -/

theorem take_length_takeWhile {α : Type} (p : α → Bool) (l : List α) :
    l.take (l.takeWhile p).length = l.takeWhile p := by
  induction l with
  | nil => rfl
  | cons a t ih =>
    cases h : p a
    · simp [List.takeWhile_cons, h]
    · simp [List.takeWhile_cons, h, ih]

theorem take_strlen (s : List uint8_t) : s.take (strlen s) = c_string s :=
  take_length_takeWhile _ s

theorem strlen_le (s : List uint8_t) : strlen s ≤ s.length := by
  unfold strlen
  exact (List.takeWhile_sublist _).length_le

theorem c_string_length (s : List uint8_t) : (c_string s).length = strlen s := rfl

theorem c_string_of_no_nul (s : List uint8_t) (h : ∀ c ∈ s, c ≠ 0) : c_string s = s := by
  unfold c_string
  rw [List.takeWhile_eq_self_iff]
  intro c hc
  simpa using h c hc

theorem strlen_of_no_nul (s : List uint8_t) (h : ∀ c ∈ s, c ≠ 0) : strlen s = s.length := by
  rw [← c_string_length, c_string_of_no_nul s h]

theorem c_string_append_nul (s t : List uint8_t) (h : ∀ c ∈ s, c ≠ 0) :
    c_string (s ++ 0 :: t) = s := by
  unfold c_string
  induction s with
  | nil => simp [List.takeWhile_cons]
  | cons a u ih =>
    have ha : a ≠ 0 := h a (List.mem_cons_self _ _)
    simp only [List.cons_append, List.takeWhile_cons, ha, ne_eq, not_false_eq_true,
      decide_True, if_true]
    rw [ih (fun c hc => h c (List.mem_cons_of_mem _ hc))]

theorem c_string_no_nul (s : List uint8_t) : ∀ c ∈ c_string s, c ≠ 0 := by
  intro c hc
  have := List.mem_takeWhile_imp hc
  simpa using this

theorem memcpy_length (dst src : List uint8_t) (off n : Nat)
    (h1 : n ≤ src.length) (h2 : off + n ≤ dst.length) :
    (memcpy dst off src n).length = dst.length := by
  simp only [memcpy, List.length_append, List.length_take, List.length_drop]
  omega

/-- Shape of the buffer after a successful `nly_frame_encode`. -/
theorem nly_frame_encode_ok (host : HostOrder) (buf : List uint8_t) (bufsz : Nat)
    (name : List uint8_t) (value : uint64_t)
    (hlen : strlen name ≤ 255) (hsz : 1 + strlen name + 8 ≤ bufsz) (hbuf : bufsz ≤ buf.length) :
    nly_frame_encode host buf bufsz name value =
      (((1 + strlen name + 8 : Nat) : Int),
        Fin.ofNat (strlen name) :: (c_string name ++ (store64 host (__builtin_bswap64 value)
          ++ buf.drop (1 + strlen name + 8)))) := by
  unfold nly_frame_encode
  have h1 : ¬ strlen name > 255 := by omega
  have h2 : ¬ bufsz < 1 + strlen name + 8 := by omega
  simp only [h1, h2, if_false]
  refine Prod.ext rfl ?_
  cases buf with
  | nil => simp at hbuf; omega
  | cons b0 rest =>
    have hs := store64_length host (__builtin_bswap64 value)
    have hc := c_string_length name
    have hrest : strlen name + 8 ≤ rest.length := by simp at hbuf; omega
    rw [← take_strlen] at hc ⊢
    simp only [List.set_cons_zero, memcpy]
    generalize strlen name = n at *
    generalize List.take n name = c at *
    generalize store64 host (__builtin_bswap64 value) = vb at *
    subst hc
    have e8 : List.take 8 vb = vb := by rw [← hs, List.take_length]
    simp only [List.take_succ_cons, List.take_zero, List.take_length,
      Nat.add_comm 1, List.drop_succ_cons, List.cons_append, List.nil_append,
      List.take_left, List.drop_left, List.append_assoc, e8, List.drop_zero]
    congr 2
    rw [List.drop_append_eq_append_drop]
    rw [List.drop_of_length_le (Nat.le_add_right _ _), Nat.add_sub_cancel_left, List.drop_drop,
      List.nil_append]

/-- Shape of the message after a successful `nly_frame_decode`. -/
theorem nly_frame_decode_ok (host : HostOrder) (data : List uint8_t) (len : Nat)
    (out : nly_message_t) (h1 : 1 ≤ len) (h2 : 1 + byte_at data 0 + 8 ≤ len) :
    nly_frame_decode host data len out =
      (0, { name := (memcpy out.name 0 (data.drop 1) (byte_at data 0)).set (byte_at data 0) 0,
            value := __builtin_bswap64
              (load64 host ((data.drop (1 + byte_at data 0)).take 8)) }) := by
  unfold nly_frame_decode
  have g1 : ¬ len < 1 := by omega
  have g2 : ¬ len < 1 + byte_at data 0 + 8 := by omega
  simp only [g1, g2, if_false]

theorem nly_frame_decode_fail (host : HostOrder) (data : List uint8_t) (len : Nat)
    (out : nly_message_t) (h : len < 1 ∨ len < 1 + byte_at data 0 + 8) :
    nly_frame_decode host data len out = (-1, out) := by
  unfold nly_frame_decode
  by_cases g1 : len < 1
  · simp only [g1, if_true]
  · have g2 : len < 1 + byte_at data 0 + 8 := by omega
    simp only [g1, g2, if_true, if_false]

/-- Decoding a frame laid out as length byte, name, 8 value bytes (and anything after). -/
theorem nly_frame_decode_frame (host : HostOrder) (nm vb rest : List uint8_t) (len : Nat)
    (out : nly_message_t) (hn : nm.length ≤ 255) (hv : vb.length = 8)
    (hl : 1 + nm.length + 8 ≤ len) (hout : out.name.length = 256) :
    nly_frame_decode host (Fin.ofNat nm.length :: (nm ++ (vb ++ rest))) len out =
      (0, { name := nm ++ 0 :: out.name.drop (nm.length + 1),
            value := __builtin_bswap64 (load64 host vb) }) := by
  have hb : byte_at (Fin.ofNat nm.length :: (nm ++ (vb ++ rest))) 0 = nm.length := by
    simp only [byte_at, List.getD_cons_zero, Fin.ofNat, Fin.val_mk]
    omega
  rw [nly_frame_decode_ok host _ len out (by omega) (by rw [hb]; exact hl), hb]
  have e8 : List.take 8 (vb ++ rest) = vb := by rw [← hv, List.take_left]
  simp only [memcpy, List.take_zero, List.nil_append, Nat.zero_add, List.drop_succ_cons,
    List.drop_zero, List.take_left, Nat.add_comm 1, List.drop_left, e8]
  congr 2
  rw [List.set_append_right _ _ (by simp)]
  simp only [Nat.sub_self]
  cases h : List.drop nm.length out.name with
  | nil =>
    have := congrArg List.length h
    simp at this
    omega
  | cons a t =>
    have : List.drop (nm.length + 1) out.name = t := by
      rw [← List.drop_drop, h]
      rfl
    simp [this]
/-! ## Claims about the frame codec -/

/-- C1 (round trip): for every name of at most 255 bytes without an embedded NUL and every
64-bit value pattern, on either host byte order, `nly_frame_encode` into a buffer of at least
`1 + len(name) + 8` bytes succeeds, and `nly_frame_decode` of the produced bytes succeeds and
yields the same name (as the C string held by `out->name`) and the same 64 value bits. -/
theorem frame_roundtrip (host : HostOrder) (buf : List uint8_t) (bufsz : Nat)
    (name : List uint8_t) (value : uint64_t) (out : nly_message_t)
    (hnul : ∀ c ∈ name, c ≠ 0) (hlen : name.length ≤ 255)
    (hsz : 1 + name.length + 8 ≤ bufsz) (hbuf : bufsz ≤ buf.length)
    (hout : out.name.length = 256) :
    (nly_frame_encode host buf bufsz name value).1 = ((1 + name.length + 8 : Nat) : Int) ∧
    (nly_frame_decode host (nly_frame_encode host buf bufsz name value).2
      (nly_frame_encode host buf bufsz name value).1.toNat out).1 = 0 ∧
    c_string (nly_frame_decode host (nly_frame_encode host buf bufsz name value).2
      (nly_frame_encode host buf bufsz name value).1.toNat out).2.name = name ∧
    (nly_frame_decode host (nly_frame_encode host buf bufsz name value).2
      (nly_frame_encode host buf bufsz name value).1.toNat out).2.value = value := by
  have hs : strlen name = name.length := strlen_of_no_nul name hnul
  have hc : c_string name = name := c_string_of_no_nul name hnul
  rw [nly_frame_encode_ok host buf bufsz name value (by omega) (by omega) hbuf, hs, hc]
  simp only [Int.toNat_ofNat]
  rw [nly_frame_decode_frame host name _ _ _ out hlen (store64_length _ _) (Nat.le_refl _) hout]
  refine ⟨trivial, rfl, ?_, ?_⟩
  · exact c_string_append_nul name _ hnul
  · simp only [load64_store64, bswap64_bswap64]

/-- Witness of C1: the name "x" with a NaN payload, little-endian host, 12-byte buffer. -/
theorem frame_roundtrip_witness :
    c_string (nly_frame_decode HostOrder.little
      (nly_frame_encode HostOrder.little (List.replicate 12 0) 12 [120] 9221120237041090561).2
      (nly_frame_encode HostOrder.little (List.replicate 12 0) 12 [120]
        9221120237041090561).1.toNat ⟨List.replicate 256 0, 0⟩).2.name = [120] ∧
    (nly_frame_decode HostOrder.little
      (nly_frame_encode HostOrder.little (List.replicate 12 0) 12 [120] 9221120237041090561).2
      (nly_frame_encode HostOrder.little (List.replicate 12 0) 12 [120]
        9221120237041090561).1.toNat ⟨List.replicate 256 0, 0⟩).2.value = 9221120237041090561 :=
  (frame_roundtrip HostOrder.little (List.replicate 12 0) 12 [120] 9221120237041090561
    ⟨List.replicate 256 0, 0⟩ (by simp) (by simp) (by simp) (by simp)
    (List.length_replicate _ _)).2.2

/-- C2 (layout): when `strlen(name) = n <= 255` and the buffer holds at least `1 + n + 8`
bytes, `nly_frame_encode` (little-endian host) returns `1 + n + 8`; byte 0 is `n`, bytes
`1..n` are the name bytes, the next 8 bytes are the value pattern most significant byte first,
and the rest of the buffer is untouched. -/
theorem frame_encode_layout (buf : List uint8_t) (bufsz : Nat) (name : List uint8_t)
    (value : uint64_t) (hlen : strlen name ≤ 255) (hsz : 1 + strlen name + 8 ≤ bufsz)
    (hbuf : bufsz ≤ buf.length) :
    (nly_frame_encode HostOrder.little buf bufsz name value).1
      = ((1 + strlen name + 8 : Nat) : Int) ∧
    byte_at (nly_frame_encode HostOrder.little buf bufsz name value).2 0 = strlen name ∧
    ((nly_frame_encode HostOrder.little buf bufsz name value).2.drop 1).take (strlen name)
      = name.take (strlen name) ∧
    ((nly_frame_encode HostOrder.little buf bufsz name value).2.drop (1 + strlen name)).take 8
      = [Fin.ofNat (value.val / 2 ^ 56), Fin.ofNat (value.val / 2 ^ 48),
         Fin.ofNat (value.val / 2 ^ 40), Fin.ofNat (value.val / 2 ^ 32),
         Fin.ofNat (value.val / 2 ^ 24), Fin.ofNat (value.val / 2 ^ 16),
         Fin.ofNat (value.val / 2 ^ 8), Fin.ofNat value.val] ∧
    (nly_frame_encode HostOrder.little buf bufsz name value).2.drop (1 + strlen name + 8)
      = buf.drop (1 + strlen name + 8) ∧
    (nly_frame_encode HostOrder.little buf bufsz name value).2.length = buf.length := by
  rw [nly_frame_encode_ok HostOrder.little buf bufsz name value hlen hsz hbuf,
    store64_little_bswap64, take_strlen]
  have hc := c_string_length name
  have hb : (be_bytes value).length = 8 := rfl
  refine ⟨rfl, ?_, ?_, ?_, ?_, ?_⟩
  · simp only [byte_at, List.getD_cons_zero, Fin.ofNat, Fin.val_mk]
    omega
  · simp only [List.drop_succ_cons, List.drop_zero]
    rw [← hc, List.take_left]
  · simp only [Nat.add_comm 1, List.drop_succ_cons]
    rw [← hc, List.drop_left, ← hb, List.take_left]
    norm_num [be_bytes]
  · simp only [Nat.add_comm 1 (strlen name), Nat.add_right_comm _ 1 8, List.drop_succ_cons]
    rw [← List.append_assoc, List.drop_left' (by simp [hc, hb])]
  · simp only [List.length_cons, List.length_append, List.length_drop, hc, hb]
    omega

/-- Witness of C2: the name "x" and the value 42.0 in a 12-byte buffer. -/
theorem frame_encode_layout_witness :
    (nly_frame_encode HostOrder.little (List.replicate 12 0) 12 [120] 4631107791820423168).2
      = [1, 120, 64, 69, 0, 0, 0, 0, 0, 0, 0, 0] ∧
    ((nly_frame_encode HostOrder.little (List.replicate 12 0) 12 [120]
      4631107791820423168).2.drop (1 + strlen [120])).take 8
      = [Fin.ofNat ((4631107791820423168 : uint64_t).val / 2 ^ 56),
         Fin.ofNat ((4631107791820423168 : uint64_t).val / 2 ^ 48),
         Fin.ofNat ((4631107791820423168 : uint64_t).val / 2 ^ 40),
         Fin.ofNat ((4631107791820423168 : uint64_t).val / 2 ^ 32),
         Fin.ofNat ((4631107791820423168 : uint64_t).val / 2 ^ 24),
         Fin.ofNat ((4631107791820423168 : uint64_t).val / 2 ^ 16),
         Fin.ofNat ((4631107791820423168 : uint64_t).val / 2 ^ 8),
         Fin.ofNat (4631107791820423168 : uint64_t).val] :=
  ⟨by rfl, (frame_encode_layout (List.replicate 12 0) 12 [120] 4631107791820423168
    (Nat.le_of_ble_eq_true rfl) (Nat.le_of_ble_eq_true rfl) (Nat.le_of_ble_eq_true rfl)).2.2.2.1⟩

/-- C3 (failure of the encoder): `nly_frame_encode` returns -1 exactly when the name is longer
than 255 bytes or the buffer size is smaller than `1 + len(name) + 8`; it fails for a 256-byte
name whatever the buffer size, returns 264 for a 255-byte name and a 264-byte buffer, and fails
whenever the buffer size is exactly `len(name) + 8`. A failed call leaves the buffer as it
was. -/
theorem frame_encode_fails_iff (host : HostOrder) (buf : List uint8_t) (bufsz : Nat)
    (name : List uint8_t) (value : uint64_t) :
    ((nly_frame_encode host buf bufsz name value).1 = -1 ↔
      (255 < strlen name ∨ bufsz < 1 + strlen name + 8)) ∧
    (strlen name = 256 → (nly_frame_encode host buf bufsz name value).1 = -1) ∧
    (strlen name = 255 → bufsz = 264 → (nly_frame_encode host buf bufsz name value).1 = 264) ∧
    (bufsz = strlen name + 8 → (nly_frame_encode host buf bufsz name value).1 = -1) ∧
    ((nly_frame_encode host buf bufsz name value).1 = -1 →
      (nly_frame_encode host buf bufsz name value).2 = buf) := by
  by_cases h1 : strlen name > 255
  · have e : nly_frame_encode host buf bufsz name value = (-1, buf) := by
      unfold nly_frame_encode
      exact if_pos h1
    rw [e]
    refine ⟨⟨fun _ => Or.inl h1, fun _ => rfl⟩, fun _ => rfl, ?_, fun _ => rfl, fun _ => rfl⟩
    intro h; omega
  · by_cases h2 : bufsz < 1 + strlen name + 8
    · have e : nly_frame_encode host buf bufsz name value = (-1, buf) := by
        unfold nly_frame_encode
        simp only [if_neg h1, if_pos h2]
      rw [e]
      refine ⟨⟨fun _ => Or.inr h2, fun _ => rfl⟩, fun _ => rfl, ?_, fun _ => rfl, fun _ => rfl⟩
      intro h h'; omega
    · have e : (nly_frame_encode host buf bufsz name value).1
          = ((1 + strlen name + 8 : Nat) : Int) := by
        unfold nly_frame_encode
        simp only [if_neg h1, if_neg h2]
      rw [e]
      refine ⟨⟨?_, ?_⟩, ?_, ?_, ?_, ?_⟩
      · intro h; omega
      · intro h; omega
      · intro h; omega
      · intro h h'; rw [h]; rfl
      · intro h; omega
      · intro h; omega
/-- Every block that passes the length checks of the decoder is laid out as a length byte,
that many name bytes, 8 value bytes and a remainder. -/
theorem frame_split (data : List uint8_t) (h : 1 + byte_at data 0 + 8 ≤ data.length) :
    data = Fin.ofNat ((data.drop 1).take (byte_at data 0)).length ::
      ((data.drop 1).take (byte_at data 0) ++ ((data.drop (1 + byte_at data 0)).take 8
        ++ data.drop (1 + byte_at data 0 + 8))) ∧
    ((data.drop 1).take (byte_at data 0)).length = byte_at data 0 ∧
    ((data.drop (1 + byte_at data 0)).take 8).length = 8 := by
  cases data with
  | nil => simp at h
  | cons d0 tl =>
    have hb : byte_at (d0 :: tl) 0 = d0.val := rfl
    rw [hb] at h ⊢
    have htl : d0.val + 8 ≤ tl.length := by simp at h; omega
    have hl : (List.take d0.val tl).length = d0.val := by
      rw [List.length_take]; omega
    refine ⟨?_, by simpa using hl, ?_⟩
    · simp only [List.drop_succ_cons, List.drop_zero, Nat.add_comm 1 d0.val,
        Nat.add_right_comm d0.val 1 8]
      rw [hl]
      congr 1
      · apply Fin.ext
        simp only [Fin.ofNat, Fin.val_mk]
        have := d0.isLt
        omega
      · rw [← List.drop_drop, List.take_append_drop, List.take_append_drop]
    · simp only [Nat.add_comm 1 d0.val, List.drop_succ_cons, List.length_take,
        List.length_drop]
      omega

theorem bswap64_of_le_bytes (vb : List uint8_t) (h : vb.length = 8) :
    __builtin_bswap64 (of_le_bytes vb) = of_be_bytes vb := by
  match vb, h with
  | [b0, b1, b2, b3, b4, b5, b6, b7], _ =>
    unfold __builtin_bswap64
    rw [be_bytes_of_le_bytes]
    rfl

theorem of_be_bytes_val (vb : List uint8_t) :
    (of_be_bytes vb).val = byte_at vb 0 * 2 ^ 56 + byte_at vb 1 * 2 ^ 48 + byte_at vb 2 * 2 ^ 40
      + byte_at vb 3 * 2 ^ 32 + byte_at vb 4 * 2 ^ 24 + byte_at vb 5 * 2 ^ 16
      + byte_at vb 6 * 2 ^ 8 + byte_at vb 7 := by
  have h0 : byte_at vb 0 < 256 := (vb.getD 0 0).isLt
  have h1 : byte_at vb 1 < 256 := (vb.getD 1 0).isLt
  have h2 : byte_at vb 2 < 256 := (vb.getD 2 0).isLt
  have h3 : byte_at vb 3 < 256 := (vb.getD 3 0).isLt
  have h4 : byte_at vb 4 < 256 := (vb.getD 4 0).isLt
  have h5 : byte_at vb 5 < 256 := (vb.getD 5 0).isLt
  have h6 : byte_at vb 6 < 256 := (vb.getD 6 0).isLt
  have h7 : byte_at vb 7 < 256 := (vb.getD 7 0).isLt
  simp only [of_be_bytes, Fin.ofNat, Fin.val_mk]
  norm_num
  omega

theorem byte_at_take_drop (data : List uint8_t) (off i : Nat) (hi : i < 8) :
    byte_at ((data.drop off).take 8) i = byte_at data (off + i) := by
  simp only [byte_at, List.getD_eq_getElem?_getD, List.getElem?_take, List.getElem?_drop, hi,
    if_true]
/-- C4 (decoder): for every input block, `nly_frame_decode` (little-endian host) returns 0
or -1; it returns 0 exactly when the input is non-empty and at least `1 + data[0] + 8` bytes
long, hence never with fewer than 9 bytes; on success the first `data[0]` bytes of `out->name`
are bytes `1..data[0]` of the input followed by a NUL, the value is the next 8 bytes read most
significant byte first (no pattern is rejected), and bytes after those are ignored; on failure
`*out` is untouched. -/
theorem frame_decode_spec (data : List uint8_t) (out : nly_message_t)
    (hout : out.name.length = 256) :
    ((nly_frame_decode HostOrder.little data data.length out).1 = 0 ∨
      (nly_frame_decode HostOrder.little data data.length out).1 = -1) ∧
    ((nly_frame_decode HostOrder.little data data.length out).1 = 0 ↔
      (data ≠ [] ∧ 1 + byte_at data 0 + 8 ≤ data.length)) ∧
    ((nly_frame_decode HostOrder.little data data.length out).1 = 0 → 9 ≤ data.length) ∧
    ((nly_frame_decode HostOrder.little data data.length out).1 = 0 →
      (nly_frame_decode HostOrder.little data data.length out).2.name.take (byte_at data 0)
        = (data.drop 1).take (byte_at data 0) ∧
      byte_at (nly_frame_decode HostOrder.little data data.length out).2.name (byte_at data 0)
        = 0 ∧
      (nly_frame_decode HostOrder.little data data.length out).2.name.length = 256 ∧
      (nly_frame_decode HostOrder.little data data.length out).2.value.val
        = byte_at data (1 + byte_at data 0) * 2 ^ 56
          + byte_at data (1 + byte_at data 0 + 1) * 2 ^ 48
          + byte_at data (1 + byte_at data 0 + 2) * 2 ^ 40
          + byte_at data (1 + byte_at data 0 + 3) * 2 ^ 32
          + byte_at data (1 + byte_at data 0 + 4) * 2 ^ 24
          + byte_at data (1 + byte_at data 0 + 5) * 2 ^ 16
          + byte_at data (1 + byte_at data 0 + 6) * 2 ^ 8
          + byte_at data (1 + byte_at data 0 + 7) ∧
      ∀ extra : List uint8_t,
        nly_frame_decode HostOrder.little (data ++ extra) (data ++ extra).length out
          = nly_frame_decode HostOrder.little data data.length out) ∧
    ((nly_frame_decode HostOrder.little data data.length out).1 = -1 →
      (nly_frame_decode HostOrder.little data data.length out).2 = out) := by
  by_cases hok : 1 ≤ data.length ∧ 1 + byte_at data 0 + 8 ≤ data.length
  · obtain ⟨hsplit, hn, hv⟩ := frame_split data hok.2
    have hn255 : ((data.drop 1).take (byte_at data 0)).length ≤ 255 := by
      rw [hn]; have := (data.getD 0 0).isLt; unfold byte_at; omega
    have hne : data ≠ [] := by
      intro h; rw [h] at hok; simp at hok
    have key : ∀ extra : List uint8_t,
        nly_frame_decode HostOrder.little (data ++ extra) (data ++ extra).length out
          = (0, { name := (data.drop 1).take (byte_at data 0)
                    ++ 0 :: out.name.drop (byte_at data 0 + 1),
                  value := of_be_bytes ((data.drop (1 + byte_at data 0)).take 8) }) := by
      intro extra
      have e1 : data ++ extra = Fin.ofNat ((data.drop 1).take (byte_at data 0)).length ::
          ((data.drop 1).take (byte_at data 0) ++ ((data.drop (1 + byte_at data 0)).take 8
            ++ (data.drop (1 + byte_at data 0 + 8) ++ extra))) := by
        conv_lhs => rw [hsplit]
        simp only [List.cons_append, List.append_assoc]
      have e2 := nly_frame_decode_frame HostOrder.little
        ((data.drop 1).take (byte_at data 0)) ((data.drop (1 + byte_at data 0)).take 8)
        (data.drop (1 + byte_at data 0 + 8) ++ extra) (data ++ extra).length out hn255 hv
        (by rw [hn, List.length_append]; omega) hout
      rw [← e1] at e2
      rw [e2, hn]
      show (0, _) = (0, _)
      rw [show load64 HostOrder.little = of_le_bytes from rfl, bswap64_of_le_bytes _ hv]
    have key0 := key []
    rw [List.append_nil] at key0
    rw [key0]
    have h9 : 9 ≤ data.length := by omega
    have hlt : byte_at data 0 < 256 := (data.getD 0 0).isLt
    have hle := hok.2
    clear key0 hsplit hok hn255
    generalize List.take (byte_at data 0) (List.drop 1 data) = nm at *
    refine ⟨Or.inl rfl, ⟨fun _ => ⟨hne, hle⟩, fun _ => rfl⟩, fun _ => h9, fun _ => ?_,
      fun h => ?_⟩
    · refine ⟨?_, ?_, ?_, ?_, fun extra => key extra⟩
      · show List.take _ (nm ++ _) = nm
        rw [← hn, List.take_left]
      · show byte_at (nm ++ _) _ = 0
        unfold byte_at at hn ⊢
        rw [← hn, List.getD_eq_getElem?_getD, List.getElem?_append_right (Nat.le_refl _)]
        simp
      · show (nm ++ _).length = 256
        simp only [List.length_append, List.length_cons, List.length_drop, hn, hout]
        omega
      · show (of_be_bytes _).val = _
        rw [of_be_bytes_val]
        simp only [byte_at_take_drop, Nat.add_zero, Nat.lt_add_one, Nat.reduceLT]
    · simp at h
  · have hfail := nly_frame_decode_fail HostOrder.little data data.length out (by omega)
    rw [hfail]
    refine ⟨Or.inr rfl, ⟨fun h => by simp at h, fun h => ?_⟩,
      fun h => by simp at h, fun h => by simp at h, fun _ => rfl⟩
    exfalso
    apply hok
    refine ⟨?_, h.2⟩
    cases data with
    | nil => exact absurd rfl h.1
    | cons a t => simp

/-- Witness of C4: the 10-byte frame of ("x", 42.0) followed by two stray bytes. -/
theorem frame_decode_spec_witness :
    (nly_frame_decode HostOrder.little [1, 120, 64, 69, 0, 0, 0, 0, 0, 0, 7, 7] 12
      ⟨List.replicate 256 0, 0⟩).1 = 0 ∨
    (nly_frame_decode HostOrder.little [1, 120, 64, 69, 0, 0, 0, 0, 0, 0, 7, 7] 12
      ⟨List.replicate 256 0, 0⟩).1 = -1 :=
  (frame_decode_spec [1, 120, 64, 69, 0, 0, 0, 0, 0, 0, 7, 7] ⟨List.replicate 256 0, 0⟩
    (List.length_replicate _ _)).1
/-- C5 (truncation): for every name of at most 255 bytes without a NUL, every value and every
`k < 1 + len(name) + 8` (zero included), `nly_frame_decode` fails on the first `k` bytes of
the encoded frame, whether the block handed over is cut at `k` or only `len` says `k`; and it
fails on every zero-length input. Failure leaves `*out` untouched. -/
theorem frame_decode_truncated (host : HostOrder) (buf : List uint8_t) (bufsz : Nat)
    (name : List uint8_t) (value : uint64_t) (out : nly_message_t) (k : Nat)
    (hnul : ∀ c ∈ name, c ≠ 0) (hlen : name.length ≤ 255)
    (hsz : 1 + name.length + 8 ≤ bufsz) (hbuf : bufsz ≤ buf.length)
    (hk : k < 1 + name.length + 8) :
    nly_frame_decode host ((nly_frame_encode host buf bufsz name value).2.take k) k out
      = (-1, out) ∧
    nly_frame_decode host (nly_frame_encode host buf bufsz name value).2 k out = (-1, out) ∧
    ∀ data : List uint8_t, nly_frame_decode host data 0 out = (-1, out) := by
  have hs : strlen name = name.length := strlen_of_no_nul name hnul
  rw [nly_frame_encode_ok host buf bufsz name value (by omega) (by omega) hbuf, hs]
  have hb : (Fin.ofNat name.length : uint8_t).val = name.length := by
    simp only [Fin.ofNat, Fin.val_mk]; omega
  refine ⟨?_, ?_, fun data => nly_frame_decode_fail host data 0 out (Or.inl (by omega))⟩
  · apply nly_frame_decode_fail
    cases k with
    | zero => exact Or.inl (by omega)
    | succ j =>
      right
      simp only [List.take_succ_cons, byte_at, List.getD_cons_zero, hb]
      omega
  · apply nly_frame_decode_fail
    right
    simp only [byte_at, List.getD_cons_zero, hb]
    omega

/-- Witness of C5: the frame of ("x", 42.0) cut after 9 of its 10 bytes. -/
theorem frame_decode_truncated_witness :
    nly_frame_decode HostOrder.little
      ((nly_frame_encode HostOrder.little (List.replicate 12 0) 12 [120]
        4631107791820423168).2.take 9) 9 ⟨List.replicate 256 0, 0⟩
      = (-1, ⟨List.replicate 256 0, 0⟩) :=
  (frame_decode_truncated HostOrder.little (List.replicate 12 0) 12 [120] 4631107791820423168
    ⟨List.replicate 256 0, 0⟩ 9 (by simp) (by simp) (by simp) (by simp) (by simp)).1
/-! ## Facts about the send queue -/

theorem linked_nil_iff (mem : List nly_queue_entry_t) (p : Option Nat) :
    linked mem p [] = true ↔ p = none := by
  cases p <;> simp [linked]

theorem linked_cons_iff (mem : List nly_queue_entry_t) (p : Option Nat) (a : Nat)
    (rest : List Nat) :
    linked mem p (a :: rest) = true ↔
      p = some a ∧ ∃ n, mem[a]? = some n ∧ linked mem n.next rest = true := by
  rw [show linked mem p (a :: rest) = ((p == some a) && (match mem[a]? with
    | some n => linked mem n.next rest
    | none => false)) from rfl]
  cases h : mem[a]? with
  | none => simp
  | some n => simp

theorem linked_lt (mem : List nly_queue_entry_t) (addrs : List Nat) :
    ∀ p, linked mem p addrs = true → ∀ a ∈ addrs, a < mem.length := by
  induction addrs with
  | nil => intro p _ a ha; cases ha
  | cons b rest ih =>
    intro p h a ha
    obtain ⟨_, n, hn, hrest⟩ := (linked_cons_iff mem p b rest).1 h
    rcases List.mem_cons.1 ha with rfl | ha
    · by_contra hlt
      rw [List.getElem?_eq_none (by omega)] at hn
      cases hn
    · exact ih _ hrest a ha

theorem queue_walk_of_linked (mem : List nly_queue_entry_t) (addrs : List Nat) :
    ∀ p fuel, linked mem p addrs = true → addrs.length ≤ fuel →
      queue_walk mem fuel p = addrs := by
  induction addrs with
  | nil =>
    intro p fuel h _
    rw [(linked_nil_iff mem p).1 h]
    cases fuel <;> rfl
  | cons b rest ih =>
    intro p fuel h hf
    obtain ⟨hp, n, hn, hrest⟩ := (linked_cons_iff mem p b rest).1 h
    cases fuel with
    | zero => simp at hf
    | succ f =>
      rw [hp]
      simp only [queue_walk, hn]
      show b :: queue_walk mem f n.next = b :: rest
      rw [ih _ f hrest (by simpa using hf)]

theorem nodup_length_le (l : List Nat) (n : Nat) (hd : l.Nodup) (hl : ∀ a ∈ l, a < n) :
    l.length ≤ n := by
  have h1 : l.toFinset ⊆ Finset.range n := by
    intro a ha
    exact Finset.mem_range.2 (hl a (List.mem_toFinset.1 ha))
  have h2 := Finset.card_le_card h1
  rwa [List.toFinset_card_of_nodup hd, Finset.card_range] at h2

theorem queue_addrs_of_repr (q : nly_queue_t) (addrs : List Nat) (h : queue_repr q addrs) :
    queue_addrs q = addrs :=
  queue_walk_of_linked q.mem addrs q.head q.mem.length h.1
    (nodup_length_le addrs q.mem.length h.2.2 (linked_lt q.mem addrs q.head h.1))

theorem queue_wf_of_repr (q : nly_queue_t) (addrs : List Nat) (h : queue_repr q addrs) :
    queue_wf q := by
  unfold queue_wf
  rw [queue_addrs_of_repr q addrs h]
  exact h

theorem queue_wf_init : queue_wf nly_queue_init := by decide
theorem set_next_getElem? (mem : List nly_queue_entry_t) (t a : Nat) (v : Option Nat) :
    (set_next mem t v)[a]? =
      (mem[a]?).map (fun n => if t = a then { n with next := v } else n) := by
  unfold set_next
  rw [List.getElem?_modify]
  rfl

theorem entry_at_set_next (mem : List nly_queue_entry_t) (t a : Nat) (v : Option Nat) :
    entry_at (set_next mem t v) a = entry_at mem a := by
  unfold entry_at
  rw [set_next_getElem?]
  cases h : mem[a]? with
  | none => rfl
  | some n => by_cases ht : t = a <;> simp [ht]

theorem entry_at_append_left (mem : List nly_queue_entry_t) (x : nly_queue_entry_t) (a : Nat)
    (h : a < mem.length) : entry_at (mem ++ [x]) a = entry_at mem a := by
  unfold entry_at
  rw [List.getElem?_append_left h]

theorem entry_at_append_new (mem : List nly_queue_entry_t) (x : nly_queue_entry_t) :
    entry_at (mem ++ [x]) mem.length = (x.frame, x.frame_len) := by
  unfold entry_at
  rw [List.getElem?_append_right (Nat.le_refl _)]
  simp

/-- Linking a fresh node behind the last node of a chain extends the chain by that node. -/
theorem linked_push (mem : List nly_queue_entry_t) (x : nly_queue_entry_t) (t : Nat)
    (hx : x.next = none) (init : List Nat) :
    ∀ p, linked mem p (init ++ [t]) = true → t ∉ init →
      linked (set_next (mem ++ [x]) t (some mem.length)) p (init ++ [t] ++ [mem.length])
        = true := by
  induction init with
  | nil =>
    intro p h _
    obtain ⟨hp, n, hn, hrest⟩ := (linked_cons_iff mem p t []).1 h
    have ht : t < mem.length := linked_lt mem [t] p h t (List.mem_singleton.2 rfl)
    have hne : t ≠ mem.length := by omega
    refine (linked_cons_iff _ _ _ _).2 ⟨hp, { n with next := some mem.length }, ?_, ?_⟩
    · rw [set_next_getElem?, List.getElem?_append_left ht, hn]
      simp
    · refine (linked_cons_iff _ _ _ _).2 ⟨rfl, x, ?_, ?_⟩
      · rw [set_next_getElem?, List.getElem?_append_right (Nat.le_refl _)]
        simp [hne]
      · rw [hx]; rfl
  | cons b rest ih =>
    intro p h hnot
    obtain ⟨hp, n, hn, hrest⟩ := (linked_cons_iff mem p b (rest ++ [t])).1 h
    have hb : b < mem.length :=
      linked_lt mem _ p h b (List.mem_cons_self _ _)
    have hbt : t ≠ b := fun e => hnot (e ▸ List.mem_cons_self _ _)
    refine (linked_cons_iff _ _ _ _).2 ⟨hp, n, ?_, ?_⟩
    · rw [set_next_getElem?, List.getElem?_append_left hb, hn]
      simp [hbt]
    · exact ih _ hrest (fun hm => hnot (List.mem_cons_of_mem _ hm))

/-- A successful push appends the fresh node to the chain of the queue. -/
theorem queue_repr_push (q : nly_queue_t) (addrs : List Nat) (frame : List uint8_t)
    (len : Nat) (h : queue_repr q addrs) :
    queue_repr (nly_queue_push q true frame len) (addrs ++ [q.mem.length]) := by
  obtain ⟨hl, ht, hd⟩ := h
  have hlt := linked_lt q.mem addrs q.head hl
  have hfresh : q.mem.length ∉ addrs := fun hm => Nat.lt_irrefl _ (hlt _ hm)
  have hd2 : (addrs ++ [q.mem.length]).Nodup := by
    rw [List.nodup_append]
    refine ⟨hd, List.nodup_singleton _, ?_⟩
    intro a ha hb
    rw [List.mem_singleton] at hb
    exact hfresh (hb ▸ ha)
  rcases List.eq_nil_or_concat addrs with hnil | ⟨init, t, hcat⟩
  · subst hnil
    have hh : q.head = none := (linked_nil_iff _ _).1 hl
    have htl : q.tail = none := ht
    unfold nly_queue_push
    simp only [Bool.not_true, Bool.false_eq_true, if_false, htl]
    refine ⟨?_, rfl, hd2⟩
    refine (linked_cons_iff _ _ _ _).2 ⟨rfl, ⟨frame, len, none⟩, ?_, rfl⟩
    show (q.mem ++ [_])[q.mem.length]? = _
    rw [List.getElem?_append_right (Nat.le_refl _)]
    simp
  · subst hcat
    rw [List.concat_eq_append] at *
    have htl : q.tail = some t := by rw [ht]; simp
    have hnot : t ∉ init := by
      intro hm
      rw [List.nodup_append] at hd
      exact hd.2.2 hm (List.mem_singleton.2 rfl)
    unfold nly_queue_push
    simp only [Bool.not_true, Bool.false_eq_true, if_false, htl]
    refine ⟨?_, by simp, hd2⟩
    exact linked_push q.mem ⟨frame, len, none⟩ t rfl init q.head hl hnot

theorem nly_queue_pop_some (q : nly_queue_t) (e : Nat) (n : nly_queue_entry_t)
    (hp : q.head = some e) (hn : q.mem[e]? = some n) :
    nly_queue_pop q =
      (if n.next.isNone then { mem := q.mem, head := n.next, tail := none }
        else { mem := q.mem, head := n.next, tail := q.tail }, some e) := by
  unfold nly_queue_pop
  rw [hp]
  simp only [hn]
  rfl

theorem queue_repr_pop_cons (q : nly_queue_t) (a : Nat) (rest : List Nat)
    (h : queue_repr q (a :: rest)) :
    (nly_queue_pop q).2 = some a ∧ (nly_queue_pop q).1.mem = q.mem ∧
      queue_repr (nly_queue_pop q).1 rest := by
  obtain ⟨hl, ht, hd⟩ := h
  obtain ⟨hp, n, hn, hrest⟩ := (linked_cons_iff _ _ _ _).1 hl
  rw [nly_queue_pop_some q a n hp hn]
  cases rest with
  | nil =>
    have hnx : n.next = none := (linked_nil_iff _ _).1 hrest
    rw [hnx]
    exact ⟨rfl, rfl, rfl, rfl, List.nodup_nil⟩
  | cons b r =>
    obtain ⟨hnx, _⟩ := (linked_cons_iff _ _ _ _).1 hrest
    have e : (if n.next.isNone then ({ mem := q.mem, head := n.next, tail := none } : nly_queue_t)
        else { mem := q.mem, head := n.next, tail := q.tail })
        = { mem := q.mem, head := n.next, tail := q.tail } := by
      rw [hnx]; rfl
    rw [e]
    refine ⟨rfl, rfl, hrest, ?_, (List.nodup_cons.1 hd).2⟩
    show q.tail = _
    rw [ht]; simp [List.getLast?_cons_cons]

theorem queue_repr_pop_nil (q : nly_queue_t) (h : queue_repr q []) :
    nly_queue_pop q = (q, none) := by
  have hh : q.head = none := (linked_nil_iff _ _).1 h.1
  unfold nly_queue_pop
  simp only [hh]
theorem entry_at_push_mem (q : nly_queue_t) (frame : List uint8_t) (len a : Nat) :
    entry_at (nly_queue_push q true frame len).mem a
      = entry_at (q.mem ++ [⟨frame, len, none⟩]) a := by
  unfold nly_queue_push
  cases q.tail with
  | none => rfl
  | some t => exact entry_at_set_next _ _ _ _

/-- Refinement, push: a successful push keeps the queue well formed and appends the entry
to the list of entries; a push whose node allocation fails leaves the queue as it was. -/
theorem queue_push_entries (q : nly_queue_t) (frame : List uint8_t) (len : Nat)
    (h : queue_wf q) :
    queue_wf (nly_queue_push q true frame len) ∧
    queue_entries (nly_queue_push q true frame len) = queue_entries q ++ [(frame, len)] ∧
    nly_queue_push q false frame len = q := by
  have hr := queue_repr_push q (queue_addrs q) frame len h
  refine ⟨queue_wf_of_repr _ _ hr, ?_, rfl⟩
  unfold queue_entries
  rw [queue_addrs_of_repr _ _ hr, List.map_append, List.map_singleton, entry_at_push_mem,
    entry_at_append_new]
  congr 1
  apply List.map_congr_left
  intro a ha
  rw [entry_at_push_mem]
  exact entry_at_append_left _ _ _ (linked_lt q.mem _ q.head h.1 a ha)

/-- Refinement, pop of a non-empty queue: the returned pointer refers to the first entry and
the remaining entries stay, in order. -/
theorem queue_pop_entries_cons (q : nly_queue_t) (x : List uint8_t × Nat)
    (xs : List (List uint8_t × Nat)) (h : queue_wf q) (he : queue_entries q = x :: xs) :
    (nly_queue_pop q).2.map (entry_at (nly_queue_pop q).1.mem) = some x ∧
    queue_wf (nly_queue_pop q).1 ∧ queue_entries (nly_queue_pop q).1 = xs := by
  unfold queue_entries at he
  cases hq : queue_addrs q with
  | nil => rw [hq] at he; cases he
  | cons a rest =>
    rw [hq] at he
    simp only [List.map_cons, List.cons.injEq] at he
    have hr : queue_repr q (a :: rest) := hq ▸ h
    obtain ⟨h2, hm, hr2⟩ := queue_repr_pop_cons q a rest hr
    refine ⟨?_, queue_wf_of_repr _ _ hr2, ?_⟩
    · rw [h2, hm, Option.map_some', he.1]
    · unfold queue_entries
      rw [queue_addrs_of_repr _ _ hr2, hm, he.2]

/-- Refinement, pop of an empty queue: NULL is returned and nothing changes. -/
theorem queue_pop_entries_nil (q : nly_queue_t) (h : queue_wf q) (he : queue_entries q = []) :
    nly_queue_pop q = (q, none) := by
  unfold queue_entries at he
  have hq : queue_addrs q = [] := List.map_eq_nil_iff.1 he
  exact queue_repr_pop_nil q (hq ▸ h)

theorem nly_queue_empty_iff (q : nly_queue_t) (h : queue_wf q) :
    nly_queue_empty q = true ↔ queue_entries q = [] := by
  unfold queue_entries nly_queue_empty
  rw [List.map_eq_nil_iff]
  have hl : linked q.mem q.head (queue_addrs q) = true := h.1
  cases hq : queue_addrs q with
  | nil =>
    rw [hq] at hl
    rw [(linked_nil_iff _ _).1 hl]
    simp
  | cons a rest =>
    rw [hq] at hl
    rw [((linked_cons_iff _ _ _ _).1 hl).1]
    simp

theorem push_all_entries (es : List (List uint8_t × Nat)) :
    ∀ q, queue_wf q → queue_wf (push_all q es) ∧
      queue_entries (push_all q es) = queue_entries q ++ es := by
  induction es with
  | nil => intro q h; exact ⟨h, (List.append_nil _).symm⟩
  | cons e rest ih =>
    intro q h
    obtain ⟨h1, h2, _⟩ := queue_push_entries q e.1 e.2 h
    obtain ⟨h3, h4⟩ := ih _ h1
    refine ⟨h3, ?_⟩
    show queue_entries (push_all (nly_queue_push q true e.1 e.2) rest) = _
    rw [h4, h2, List.append_assoc]
    rfl

theorem pop_n_entries (xs : List (List uint8_t × Nat)) :
    ∀ q, queue_wf q → queue_entries q = xs →
      (pop_n xs.length q).2 = xs.map some ∧ queue_wf (pop_n xs.length q).1 ∧
      queue_entries (pop_n xs.length q).1 = [] := by
  induction xs with
  | nil => intro q h he; exact ⟨rfl, h, he⟩
  | cons x rest ih =>
    intro q h he
    obtain ⟨h1, h2, h3⟩ := queue_pop_entries_cons q x rest h he
    obtain ⟨h4, h5, h6⟩ := ih _ h2 h3
    refine ⟨?_, h5, h6⟩
    show _ :: (pop_n rest.length (nly_queue_pop q).1).2 = _
    rw [h4, h1]
    rfl

theorem pop_n_empty (n : Nat) (q : nly_queue_t) (h : queue_wf q) (he : queue_entries q = []) :
    pop_n n q = (q, List.replicate n none) := by
  induction n with
  | zero => rfl
  | succ k ih =>
    show (_, _) = _
    rw [queue_pop_entries_nil q h he]
    simp only [Option.map_none']
    rw [ih]
    rfl

theorem pop_n_add (m : Nat) : ∀ (n : Nat) (q : nly_queue_t),
    pop_n (n + m) q = ((pop_n m (pop_n n q).1).1, (pop_n n q).2 ++ (pop_n m (pop_n n q).1).2) := by
  intro n
  induction n with
  | zero => intro q; simp [pop_n]
  | succ k ih =>
    intro q
    rw [Nat.add_right_comm]
    show (_, _) = _
    rw [ih]
    rfl
theorem zip_filter_producer (p : Nat) (ops : List (Nat × (List uint8_t × Nat))) :
    ((List.zip (ops.map Prod.fst) (ops.map (fun o => some o.2))).filter
      (fun x => decide (x.1 = p))).map Prod.snd
      = (ops.filter (fun o => decide (o.1 = p))).map (fun o => some o.2) := by
  induction ops with
  | nil => rfl
  | cons o rest ih =>
    simp only [List.map_cons, List.zip_cons_cons, List.filter_cons]
    by_cases h : o.1 = p
    · simp only [h, decide_True, if_true, List.map_cons, ih]
    · simp only [h, decide_False, Bool.false_eq_true, if_false, ih]

/-- C6 (FIFO): let `ops` be the pushes onto an empty queue in the order in which they take the
mutex, each tagged with its producer. Popping returns exactly the pushed entries in push
order (for E1, E2, E3: E1, E2, E3), every further pop returns NULL and `nly_queue_empty`
holds; hence the pops that carry the entries of one producer `p` are that producer's entries
in its own push order. -/
theorem queue_fifo (ops : List (Nat × (List uint8_t × Nat))) (extra : Nat) (p : Nat) :
    (pop_n (ops.length + extra) (push_all nly_queue_init (ops.map Prod.snd))).2
      = ops.map (fun o => some o.2) ++ List.replicate extra none ∧
    nly_queue_empty (pop_n ops.length (push_all nly_queue_init (ops.map Prod.snd))).1
      = true ∧
    ((List.zip (ops.map Prod.fst)
        (pop_n ops.length (push_all nly_queue_init (ops.map Prod.snd))).2).filter
      (fun x => decide (x.1 = p))).map Prod.snd
      = (ops.filter (fun o => decide (o.1 = p))).map (fun o => some o.2) := by
  obtain ⟨hwf, hes⟩ := push_all_entries (ops.map Prod.snd) nly_queue_init queue_wf_init
  have hes2 : queue_entries (push_all nly_queue_init (ops.map Prod.snd)) = ops.map Prod.snd := by
    rw [hes]; rfl
  have hpop := pop_n_entries (ops.map Prod.snd) _ hwf hes2
  rw [List.length_map] at hpop
  obtain ⟨h1, h2, h3⟩ := hpop
  have h1b : (pop_n ops.length (push_all nly_queue_init (ops.map Prod.snd))).2
      = ops.map (fun o => some o.2) := by
    rw [h1, List.map_map]; rfl
  refine ⟨?_, (nly_queue_empty_iff _ h2).2 h3, ?_⟩
  · rw [pop_n_add, h1b, pop_n_empty extra _ h2 h3]
  · rw [h1b]
    exact zip_filter_producer p ops
/-! ## Facts about `nly_service_send` -/

theorem malloc_some (g : Nat → uint8_t) (n : Nat) :
    malloc (some g) n = some ((List.range n).map g) := rfl

theorem malloc_take (g : Nat → uint8_t) (a b : Nat) :
    ((List.range (a + b)).map g).take a = (List.range a).map g := by
  rw [List.range_add, List.map_append]
  exact List.take_left' (by simp)

theorem malloc_drop_length (g : Nat → uint8_t) (a b : Nat) :
    (((List.range (a + b)).map g).drop a).length = b := by
  simp

/-- The frame buffer `nly_service_send` hands to the queue: `LWS_PRE` bytes of headroom as
`malloc` left them, then the length byte, the name and the 8 value bytes. -/
theorem nly_service_send_ok (P : platform) (svc : nly_service_t) (parameter : List uint8_t)
    (value : uint64_t) (g : Nat → uint8_t) (node_ok : Bool) (h : strlen parameter ≤ 255) :
    nly_service_send P svc parameter value (some g) node_ok =
      (0, { svc with queue := (nly_queue_push svc.queue node_ok
              ((List.range P.LWS_PRE).map g ++ Fin.ofNat (strlen parameter) ::
                (c_string parameter ++ store64 P.host (__builtin_bswap64 value)))
              (1 + strlen parameter + 8)) },
        match svc.ctx with
        | some c => [effect.lws_cancel_service c]
        | none => []) := by
  unfold nly_service_send
  simp only [malloc_some]
  have hl := malloc_drop_length g P.LWS_PRE (1 + strlen parameter + 8)
  have he := nly_frame_encode_ok P.host
    (((List.range (P.LWS_PRE + (1 + strlen parameter + 8))).map g).drop P.LWS_PRE)
    (1 + strlen parameter + 8) parameter value h (Nat.le_refl _) (by rw [hl])
  have hd : List.drop (1 + strlen parameter + 8)
      (((List.range (P.LWS_PRE + (1 + strlen parameter + 8))).map g).drop P.LWS_PRE) = [] :=
    List.drop_of_length_le (by rw [hl])
  rw [hd] at he
  simp only [he, malloc_take, List.append_nil, Int.toNat_ofNat]
  have hneg : ¬ ((1 + strlen parameter + 8 : Nat) : Int) < 0 := by omega
  rw [if_neg hneg]

/-- A name longer than 255 bytes makes `nly_service_send` fail before it touches the
connector, whatever the allocator does. -/
theorem nly_service_send_too_long (P : platform) (svc : nly_service_t)
    (parameter : List uint8_t) (value : uint64_t) (a : alloc_t) (node_ok : Bool)
    (h : 255 < strlen parameter) :
    nly_service_send P svc parameter value a node_ok = (-1, svc, []) := by
  have he : ∀ buf : List uint8_t, nly_frame_encode P.host buf (1 + strlen parameter + 8)
      parameter value = (-1, buf) := by
    intro buf
    unfold nly_frame_encode
    exact if_pos h
  unfold nly_service_send
  simp only [he]
  cases malloc a (P.LWS_PRE + (1 + strlen parameter + 8)) <;> rfl
/-! ## Facts about the callback -/

theorem memcpy_payload (g : Nat → uint8_t) (pre n : Nat) (src : List uint8_t)
    (h : n ≤ src.length) :
    ((memcpy ((List.range (pre + n)).map g) pre src n).drop pre).take n = src.take n := by
  unfold memcpy
  have h1 : (((List.range (pre + n)).map g).take pre).length = pre := by simp
  rw [List.append_assoc, List.drop_left' h1]
  exact List.take_left' (by rw [List.length_take]; omega)

/-- A write opportunity in the register phase writes the registration payload as one text
frame, calls the connect callback, moves to the running phase and asks for another write
opportunity when sends are queued. The queue is not touched. -/
theorem callback_writeable_register (P : platform) (svc : nly_service_t) (wsi : Nat)
    (inp : Option (List uint8_t)) (len : Nat) (frag : lws_fragment) (g : Nat → uint8_t)
    (hph : svc.phase = nly_conn_phase.NLY_PHASE_REGISTER)
    (hreg : svc.reg_json_len ≤ svc.reg_json.length) :
    nly_lws_callback P svc wsi lws_callback_reasons.LWS_CALLBACK_CLIENT_WRITEABLE inp len frag
        (some g) =
      (0, { svc with phase := nly_conn_phase.NLY_PHASE_RUNNING },
        [effect.lws_write wsi (svc.reg_json.take svc.reg_json_len)
          lws_write_protocol.LWS_WRITE_TEXT]
        ++ call_slot svc.on_open (fun fn => effect.on_open fn svc.ud_open)
        ++ (if !nly_queue_empty svc.queue then [effect.lws_callback_on_writable wsi] else [])) := by
  unfold nly_lws_callback
  simp only [hph, if_true, malloc_some, memcpy_payload g P.LWS_PRE _ _ hreg]

/-- A write opportunity in the running phase with a non-empty queue pops the first entry and
writes it as one binary frame; another write opportunity is asked for when entries remain. -/
theorem callback_writeable_running_cons (P : platform) (svc : nly_service_t) (wsi : Nat)
    (inp : Option (List uint8_t)) (len : Nat) (frag : lws_fragment) (a : alloc_t)
    (x : List uint8_t × Nat) (xs : List (List uint8_t × Nat))
    (hph : svc.phase = nly_conn_phase.NLY_PHASE_RUNNING) (hwf : queue_wf svc.queue)
    (he : queue_entries svc.queue = x :: xs) :
    nly_lws_callback P svc wsi lws_callback_reasons.LWS_CALLBACK_CLIENT_WRITEABLE inp len frag a =
      (0, { svc with queue := (nly_queue_pop svc.queue).1 },
        [effect.lws_write wsi ((x.1.drop P.LWS_PRE).take x.2)
          lws_write_protocol.LWS_WRITE_BINARY]
        ++ (if xs ≠ [] then [effect.lws_callback_on_writable wsi] else [])) ∧
    queue_wf (nly_queue_pop svc.queue).1 ∧ queue_entries (nly_queue_pop svc.queue).1 = xs := by
  obtain ⟨h1, h2, h3⟩ := queue_pop_entries_cons svc.queue x xs hwf he
  refine ⟨?_, h2, h3⟩
  have hemp : nly_queue_empty (nly_queue_pop svc.queue).1 = decide (xs = []) := by
    have := nly_queue_empty_iff _ h2
    rw [h3] at this
    cases hb : nly_queue_empty (nly_queue_pop svc.queue).1
    · by_cases hx : xs = []
      · rw [this.2 hx] at hb; cases hb
      · simp [hx]
    · simp [this.1 hb]
  unfold nly_lws_callback
  cases hp : (nly_queue_pop svc.queue).2 with
  | none => rw [hp] at h1; cases h1
  | some e =>
    rw [hp] at h1
    simp only [Option.map_some', Option.some.injEq] at h1
    simp only [hph, hp, h1, hemp]
    by_cases hx : xs = [] <;> simp [hx]

/-- A write opportunity in the running phase with an empty queue does nothing. -/
theorem callback_writeable_running_nil (P : platform) (svc : nly_service_t) (wsi : Nat)
    (inp : Option (List uint8_t)) (len : Nat) (frag : lws_fragment) (a : alloc_t)
    (hph : svc.phase = nly_conn_phase.NLY_PHASE_RUNNING) (hwf : queue_wf svc.queue)
    (he : queue_entries svc.queue = []) :
    nly_lws_callback P svc wsi lws_callback_reasons.LWS_CALLBACK_CLIENT_WRITEABLE inp len frag a =
      (0, svc, []) := by
  have hne : ¬ svc.phase = nly_conn_phase.NLY_PHASE_REGISTER := by rw [hph]; decide
  unfold nly_lws_callback
  simp only [if_neg hne, queue_pop_entries_nil svc.queue hwf he]
/-! ## Facts about the registration payload -/

theorem size_sub_of_le (cap off : Nat) (h : off ≤ cap) (hcap : cap < 18446744073709551616) :
    size_sub cap off = cap - off := by
  unfold size_sub
  omega

/-- A `snprintf` whose text fits the size it is given writes the whole text and a NUL behind
what the buffer holds up to the offset. -/
theorem snprintf_fits (buf T s : List uint8_t) (size : Nat) (hT : buf.take T.length = T)
    (hs : s.length < size) :
    (snprintf buf T.length size s).2 = s.length ∧
    (snprintf buf T.length size s).1.take (T.length + s.length) = T ++ s ∧
    (snprintf buf T.length size s).1.getD (T.length + s.length) 1 = 0 := by
  have h0 : ¬ size = 0 := by omega
  have hmin : min s.length (size - 1) = s.length := by omega
  unfold snprintf
  simp only [if_neg h0, hmin, memcpy, hT, List.take_length]
  have e1 : List.take (s.length + 1) (s ++ [0]) = s ++ [0] :=
    List.take_of_length_le (by simp)
  rw [e1]
  refine ⟨trivial, ?_, ?_⟩
  · rw [List.append_assoc, List.append_assoc, ← List.append_assoc T s,
      List.take_left' (by simp)]
  · rw [List.append_assoc, List.append_assoc, ← List.append_assoc T s,
      List.getD_eq_getElem?_getD, List.getElem?_append_right (by simp)]
    simp
/-- One turn of the loop of `build_registration_json` that fits the buffer appends a comma
(from the second entry on) and the entry to the text written so far. -/
theorem registration_step_fits (P : platform) (cap : Nat) (buf T : List uint8_t) (k : Nat)
    (p : nly_param_t) (hcap : cap < 18446744073709551616) (hT : buf.take T.length = T)
    (hfit : (T ++ (if k > 0 then str "," else []) ++ registration_entry P p).length < cap) :
    (registration_step P cap (buf, T.length) (k, p)).2
      = (T ++ (if k > 0 then str "," else []) ++ registration_entry P p).length ∧
    (registration_step P cap (buf, T.length) (k, p)).1.take
        (T ++ (if k > 0 then str "," else []) ++ registration_entry P p).length
      = T ++ (if k > 0 then str "," else []) ++ registration_entry P p := by
  unfold registration_step
  by_cases hk : k > 0
  · simp only [hk, if_true] at hfit ⊢
    simp only [List.length_append] at hfit
    have h1 := snprintf_fits buf T (str ",") (size_sub cap T.length) hT
      (by rw [size_sub_of_le _ _ (by omega) hcap]; omega)
    have hT1 : (snprintf buf T.length (size_sub cap T.length) (str ",")).1.take
        (T ++ str ",").length = T ++ str "," := by
      rw [List.length_append]; exact h1.2.1
    rw [h1.1, ← List.length_append]
    have h2 := snprintf_fits _ (T ++ str ",") (registration_entry P p)
      (size_sub cap (T ++ str ",").length) hT1
      (by rw [size_sub_of_le _ _ (by rw [List.length_append]; omega) hcap, List.length_append]
          omega)
    rw [h2.1, ← List.length_append]
    exact ⟨rfl, by rw [List.length_append (T ++ str ",")]; exact h2.2.1⟩
  · simp only [hk, if_false, List.append_nil] at hfit ⊢
    simp only [List.length_append] at hfit
    have h2 := snprintf_fits buf T (registration_entry P p) (size_sub cap T.length) hT
      (by rw [size_sub_of_le _ _ (by omega) hcap]; omega)
    rw [h2.1, ← List.length_append]
    exact ⟨rfl, by rw [List.length_append]; exact h2.2.1⟩

/-- The text the loop of `build_registration_json` adds for the entries `l`, the first of
which has index `k`. -/
theorem registration_fold_fits (P : platform) (cap : Nat)
    (hcap : cap < 18446744073709551616) (l : List nly_param_t) :
    ∀ (k : Nat) (buf T : List uint8_t), buf.take T.length = T →
      (T ++ ((l.enumFrom k).map (fun ip =>
        (if ip.1 > 0 then str "," else []) ++ registration_entry P ip.2)).flatten).length < cap →
      ((l.enumFrom k).foldl (registration_step P cap) (buf, T.length)).2
        = (T ++ ((l.enumFrom k).map (fun ip =>
            (if ip.1 > 0 then str "," else []) ++ registration_entry P ip.2)).flatten).length ∧
      ((l.enumFrom k).foldl (registration_step P cap) (buf, T.length)).1.take
          (T ++ ((l.enumFrom k).map (fun ip =>
            (if ip.1 > 0 then str "," else []) ++ registration_entry P ip.2)).flatten).length
        = T ++ ((l.enumFrom k).map (fun ip =>
            (if ip.1 > 0 then str "," else []) ++ registration_entry P ip.2)).flatten := by
  induction l with
  | nil =>
    intro k buf T hT _
    simp only [List.enumFrom_nil, List.map_nil, List.flatten_nil, List.append_nil,
      List.foldl_nil]
    exact ⟨trivial, hT⟩
  | cons p rest ih =>
    intro k buf T hT hfit
    simp only [List.enumFrom_cons, List.map_cons, List.flatten_cons, List.foldl_cons] at hfit ⊢
    rw [← List.append_assoc, ← List.append_assoc] at hfit ⊢
    have hstep := registration_step_fits P cap buf T k p hcap hT (by
      rw [List.length_append] at hfit; omega)
    have e : registration_step P cap (buf, T.length) (k, p)
        = ((registration_step P cap (buf, T.length) (k, p)).1,
            (T ++ (if k > 0 then str "," else []) ++ registration_entry P p).length) :=
      Prod.ext rfl hstep.1
    rw [e]
    exact ih (k + 1) _ _ hstep.2 hfit
/-- When the registration text fits the buffer `build_registration_json` allocates, the
function returns the length of the text and a buffer that starts with the text: the opening,
the entries of the first `count` parameters separated by commas, and the closing. -/
theorem build_registration_json_fits (P : platform) (g : Nat → uint8_t)
    (params : List nly_param_t) (count : Nat)
    (hcap : 64 + count * 128 < 18446744073709551616)
    (hfit : (str "\x7b\"kind\":\"external\",\"parameters\":[" ++
      (((params.take count).enum).map (fun ip =>
        (if ip.1 > 0 then str "," else []) ++ registration_entry P ip.2)).flatten
      ++ str "]\x7d").length < 64 + count * 128) :
    ∃ buf, build_registration_json P (some g) params count
        = some (buf, (str "\x7b\"kind\":\"external\",\"parameters\":[" ++
            (((params.take count).enum).map (fun ip =>
              (if ip.1 > 0 then str "," else []) ++ registration_entry P ip.2)).flatten
            ++ str "]\x7d").length) ∧
      buf.take (str "\x7b\"kind\":\"external\",\"parameters\":[" ++
          (((params.take count).enum).map (fun ip =>
            (if ip.1 > 0 then str "," else []) ++ registration_entry P ip.2)).flatten
          ++ str "]\x7d").length
        = str "\x7b\"kind\":\"external\",\"parameters\":[" ++
          (((params.take count).enum).map (fun ip =>
            (if ip.1 > 0 then str "," else []) ++ registration_entry P ip.2)).flatten
          ++ str "]\x7d" := by
  generalize hH : str "\x7b\"kind\":\"external\",\"parameters\":[" = H at *
  generalize hM : (((params.take count).enum).map (fun ip =>
        (if ip.1 > 0 then str "," else []) ++ registration_entry P ip.2)).flatten = M at *
  generalize hC : str "]\x7d" = C at *
  simp only [List.length_append] at hfit
  unfold build_registration_json
  simp only [malloc_some, hH, hC]
  have h0 := snprintf_fits ((List.range (64 + count * 128)).map g) [] H (64 + count * 128)
    rfl (by omega)
  simp only [List.length_nil, Nat.zero_add, List.nil_append] at h0
  rw [h0.1]
  have h1 := registration_fold_fits P (64 + count * 128) hcap (params.take count) 0 _ H h0.2.1
    (by rw [← List.enum, hM, List.length_append]; omega)
  rw [← List.enum, hM] at h1
  have e1 : ((params.take count).enum.foldl (registration_step P (64 + count * 128))
      ((snprintf ((List.range (64 + count * 128)).map g) 0 (64 + count * 128) H).1, H.length))
      = (((params.take count).enum.foldl (registration_step P (64 + count * 128))
          ((snprintf ((List.range (64 + count * 128)).map g) 0 (64 + count * 128) H).1,
            H.length)).1, (H ++ M).length) := Prod.ext rfl h1.1
  rw [e1]
  generalize ((params.take count).enum.foldl (registration_step P (64 + count * 128))
      ((snprintf ((List.range (64 + count * 128)).map g) 0 (64 + count * 128) H).1,
        H.length)).1 = B at *
  have h2 := snprintf_fits B (H ++ M) C (size_sub (64 + count * 128) (H ++ M).length) h1.2
    (by rw [size_sub_of_le _ _ (by rw [List.length_append]; omega) hcap, List.length_append]
        omega)
  refine ⟨(snprintf B (H ++ M).length (size_sub (64 + count * 128) (H ++ M).length) C).1,
    ?_, ?_⟩
  · show some (_, (H ++ M).length + _) = _
    rw [h2.1, List.length_append (H ++ M)]
  · rw [List.length_append (H ++ M)]
    exact h2.2.1
theorem run_cons (P : platform) (svc : nly_service_t) (s : step) (rest : List step) :
    run P svc (s :: rest) = ((run P (do_step P svc s).1 rest).1,
      (do_step P svc s).2 :: (run P (do_step P svc s).1 rest).2) := rfl

theorem run_append (P : platform) (l1 : List step) :
    ∀ (svc : nly_service_t) (l2 : List step),
      run P svc (l1 ++ l2) = ((run P (run P svc l1).1 l2).1,
        (run P svc l1).2 ++ (run P (run P svc l1).1 l2).2) := by
  induction l1 with
  | nil => intro svc l2; rfl
  | cons s rest ih =>
    intro svc l2
    rw [List.cons_append, run_cons, ih, run_cons]
    rfl

/-- Write opportunities in the running phase with an empty queue change nothing and do
nothing, however many there are. -/
theorem run_writeable_idle (P : platform) (svc : nly_service_t) (wsi : Nat)
    (inp : Option (List uint8_t)) (len : Nat) (frag : lws_fragment) (a : alloc_t)
    (hph : svc.phase = nly_conn_phase.NLY_PHASE_RUNNING) (hwf : queue_wf svc.queue)
    (he : queue_entries svc.queue = []) (n : Nat) :
    run P svc (List.replicate n
      (step.callback wsi lws_callback_reasons.LWS_CALLBACK_CLIENT_WRITEABLE inp len frag a))
      = (svc, List.replicate n []) := by
  induction n with
  | zero => rfl
  | succ k ih =>
    rw [List.replicate_succ, run_cons]
    simp only [do_step, callback_writeable_running_nil P svc wsi inp len frag a hph hwf he, ih]
    rfl

theorem scenario_text (P : platform) (h0 : P.fmt_g 0 = str "0")
    (h127 : P.fmt_g 4638637247447433216 = str "127") :
    str "\x7b\"kind\":\"external\",\"parameters\":[" ++
      (((([⟨str "x", 0, 4638637247447433216⟩] : List nly_param_t).take 1).enum).map (fun ip =>
        (if ip.1 > 0 then str "," else []) ++ registration_entry P ip.2)).flatten
      ++ str "]\x7d"
    = str "\x7b\"kind\":\"external\",\"parameters\":[\x7b\"name\":\"x\",\"range\":[0,127]\x7d]\x7d" := by
  simp only [List.take, List.enum, List.enumFrom, List.map, List.flatten, registration_entry,
    h0, h127]
  rfl
/-! ## Claims about `nly_service_send` -/

/-- C7 (send queues in every state): for every connector state whose queue is well formed
(never connected, connected in either phase, disconnected) and every parameter name of at
most 255 bytes, when both allocations succeed `nly_service_send` returns 0, changes no field
but the queue, and the queue afterwards holds the entries it held before followed by exactly
one new entry: `LWS_PRE` bytes of headroom and then the bytes `nly_frame_encode` writes for
(name, value) into a buffer of `1 + len(name) + 8` bytes, with payload length
`1 + len(name) + 8`. -/
theorem send_enqueues (P : platform) (svc : nly_service_t) (parameter : List uint8_t)
    (value : uint64_t) (g : Nat → uint8_t) (hwf : queue_wf svc.queue)
    (hlen : strlen parameter ≤ 255) :
    (nly_service_send P svc parameter value (some g) true).1 = 0 ∧
    queue_wf (nly_service_send P svc parameter value (some g) true).2.1.queue ∧
    queue_entries (nly_service_send P svc parameter value (some g) true).2.1.queue
      = queue_entries svc.queue ++
        [((List.range P.LWS_PRE).map g ++
            (nly_frame_encode P.host (List.replicate (1 + strlen parameter + 8) 0)
              (1 + strlen parameter + 8) parameter value).2,
          1 + strlen parameter + 8)] ∧
    (nly_frame_encode P.host (List.replicate (1 + strlen parameter + 8) 0)
        (1 + strlen parameter + 8) parameter value).2.length = 1 + strlen parameter + 8 ∧
    (nly_service_send P svc parameter value (some g) true).2.1
      = { svc with queue := (nly_service_send P svc parameter value (some g) true).2.1.queue } := by
  rw [nly_service_send_ok P svc parameter value g true hlen]
  have he := nly_frame_encode_ok P.host (List.replicate (1 + strlen parameter + 8) 0)
    (1 + strlen parameter + 8) parameter value hlen (Nat.le_refl _) (by simp)
  rw [List.drop_of_length_le (by simp), List.append_nil] at he
  rw [he]
  obtain ⟨h1, h2, _⟩ := queue_push_entries svc.queue
    ((List.range P.LWS_PRE).map g ++ Fin.ofNat (strlen parameter) ::
      (c_string parameter ++ store64 P.host (__builtin_bswap64 value)))
    (1 + strlen parameter + 8) hwf
  refine ⟨rfl, h1, h2, ?_, rfl⟩
  simp only [List.length_cons, List.length_append, c_string_length, store64_length]
  omega

/-- Witness of C7: the connector as `calloc` leaves it, the name "x" and the value 42.0. -/
theorem send_enqueues_witness :
    (nly_service_send ⟨HostOrder.little, 16, fun _ => [], fun _ => 0⟩ nly_service_calloc [120]
      4631107791820423168 (some (fun _ => 0)) true).1 = 0 :=
  (send_enqueues ⟨HostOrder.little, 16, fun _ => [], fun _ => 0⟩ nly_service_calloc [120]
    4631107791820423168 (fun _ => 0) (by decide) (Nat.le_of_ble_eq_true rfl)).1

/-- C8 (name too long): for every parameter name longer than 255 bytes `nly_service_send`
returns -1, whatever the allocator does, and the connector (queue and every other field) is
unchanged; nothing is done to the outside either. -/
theorem send_name_too_long (P : platform) (svc : nly_service_t) (parameter : List uint8_t)
    (value : uint64_t) (a : alloc_t) (node_ok : Bool) (h : 255 < strlen parameter) :
    (nly_service_send P svc parameter value a node_ok).1 = -1 ∧
    (nly_service_send P svc parameter value a node_ok).2.1 = svc ∧
    (nly_service_send P svc parameter value a node_ok).2.2 = [] := by
  rw [nly_service_send_too_long P svc parameter value a node_ok h]
  exact ⟨rfl, rfl, rfl⟩

/-- Witness of C8: a name of 256 bytes. -/
theorem send_name_too_long_witness :
    (nly_service_send ⟨HostOrder.little, 16, fun _ => [], fun _ => 0⟩ nly_service_calloc
      (List.replicate 256 120) 0 (some (fun _ => 0)) true).1 = -1 :=
  (send_name_too_long ⟨HostOrder.little, 16, fun _ => [], fun _ => 0⟩ nly_service_calloc
    (List.replicate 256 120) 0 (some (fun _ => 0)) true (by
      have h : strlen (List.replicate 256 120) = 256 := by
        rw [strlen_of_no_nul _ (fun c hc => by rw [List.eq_of_mem_replicate hc]; decide)]
        exact List.length_replicate _ _
      omega)).1

/-- C9, evaluated on the code: on a connector that has no transport handle and is not marked
alive (in particular one that never connected), `nly_service_send` with a name of at most 255
bytes and successful allocations returns 0, not -1, and queues the frame. -/
theorem send_not_connected_returns_zero (P : platform) (svc : nly_service_t)
    (parameter : List uint8_t) (value : uint64_t) (g : Nat → uint8_t)
    (_hwsi : svc.wsi = none) (_halive : svc.conn_alive = 0) (hlen : strlen parameter ≤ 255) :
    (nly_service_send P svc parameter value (some g) true).1 = 0 ∧
    (nly_service_send P svc parameter value (some g) true).2.1.queue
      = nly_queue_push svc.queue true
          ((List.range P.LWS_PRE).map g ++ Fin.ofNat (strlen parameter) ::
            (c_string parameter ++ store64 P.host (__builtin_bswap64 value)))
          (1 + strlen parameter + 8) := by
  rw [nly_service_send_ok P svc parameter value g true hlen]
  exact ⟨rfl, rfl⟩

/-- Witness of C9: the connector as `calloc` leaves it (never started, never connected). -/
theorem send_not_connected_returns_zero_witness :
    (nly_service_send ⟨HostOrder.little, 16, fun _ => [], fun _ => 0⟩ nly_service_calloc [120]
      4631107791820423168 (some (fun _ => 0)) true).1 = 0 :=
  (send_not_connected_returns_zero ⟨HostOrder.little, 16, fun _ => [], fun _ => 0⟩
    nly_service_calloc [120] 4631107791820423168 (fun _ => 0) rfl rfl
    (Nat.le_of_ble_eq_true rfl)).1
/-! ## End-to-end scenario -/

theorem writes_of_on_writable_if (c : Prop) [Decidable c] (w : Nat) :
    writes_of (if c then [effect.lws_callback_on_writable w] else []) = [] := by
  by_cases h : c <;> simp [h, writes_of]

/-- C10 (end to end): create a connector with the single parameter ("x", 0, 127), where `%g`
prints 0 as "0" and 127 as "127"; send ("x", 42.0) before any connection (it returns 0); then
start, connect, the established event and `n + 2` write opportunities, every allocation
succeeding. The start, the connection and the established event write nothing; the first
write opportunity writes exactly the registration payload as a text frame; the second writes
exactly one binary frame, the encoding of ("x", 42.0); every further one writes nothing. -/
theorem end_to_end (P : platform) (g1 g2 g3 : Nat → uint8_t) (nm : List uint8_t)
    (address : Option (List uint8_t)) (ctx w wsi : Nat) (frag : lws_fragment) (n : Nat)
    (h0 : P.fmt_g 0 = str "0") (h127 : P.fmt_g 4638637247447433216 = str "127") :
    ∃ svc0 svc1,
      nly_service_create P true (some g1) nm address [⟨str "x", 0, 4638637247447433216⟩] 1
        = some svc0 ∧
      nly_service_send P svc0 (str "x") 4631107791820423168 (some g2) true = (0, svc1, []) ∧
      (run P svc1 ([step.start true, step.connect (some ctx) (some w),
          step.callback wsi lws_callback_reasons.LWS_CALLBACK_CLIENT_ESTABLISHED none 0 frag
            (some g3)] ++
          List.replicate (n + 2)
            (step.callback wsi lws_callback_reasons.LWS_CALLBACK_CLIENT_WRITEABLE none 0 frag
              (some g3)))).2.map writes_of
        = [[], [], [],
            [(str "\x7b\"kind\":\"external\",\"parameters\":[\x7b\"name\":\"x\",\"range\":[0,127]\x7d]\x7d",
              lws_write_protocol.LWS_WRITE_TEXT)],
            [((nly_frame_encode P.host (List.replicate 10 0) 10 (str "x")
                4631107791820423168).2, lws_write_protocol.LWS_WRITE_BINARY)]]
          ++ List.replicate n [] := by
  obtain ⟨buf, hb, htake⟩ := build_registration_json_fits P g1
    [⟨str "x", 0, 4638637247447433216⟩] 1 (by decide)
    (by rw [scenario_text P h0 h127]; decide)
  rw [scenario_text P h0 h127] at hb htake
  have hx : strlen (str "x") = 1 := rfl
  have hcx : c_string (str "x") = str "x" := rfl
  have henc : (nly_frame_encode P.host (List.replicate 10 0) 10 (str "x")
      4631107791820423168).2
      = Fin.ofNat 1 :: (str "x" ++ store64 P.host (__builtin_bswap64 4631107791820423168)) := by
    have := nly_frame_encode_ok P.host (List.replicate 10 0) 10 (str "x") 4631107791820423168
      (by rw [hx]; decide) (by rw [hx]) (by simp)
    rw [this, hx, hcx]
    simp
  have hcreate : ∃ svc0 : nly_service_t,
      nly_service_create P true (some g1) nm address [⟨str "x", 0, 4638637247447433216⟩] 1
        = some svc0 ∧ svc0.reg_json = buf ∧
      svc0.reg_json_len = (str "\x7b\"kind\":\"external\",\"parameters\":[\x7b\"name\":\"x\",\"range\":[0,127]\x7d]\x7d").length ∧
      svc0.phase = nly_conn_phase.NLY_PHASE_REGISTER ∧ svc0.queue = nly_queue_init ∧
      svc0.on_open = none ∧ svc0.ctx = none := by
    unfold nly_service_create
    simp only [hb]
    exact ⟨_, rfl, rfl, rfl, rfl, rfl, rfl, rfl⟩
  obtain ⟨svc0, hc, hreg, hlen, hph0, hq0, hopen0, hctx0⟩ := hcreate
  have hsend := nly_service_send_ok P svc0 (str "x") 4631107791820423168 g2 true
    (by rw [hx]; decide)
  rw [hctx0, hq0, hx, hcx] at hsend
  obtain ⟨hwf1, hent1, _⟩ := queue_push_entries nly_queue_init
    ((List.range P.LWS_PRE).map g2 ++ Fin.ofNat 1 ::
      (str "x" ++ store64 P.host (__builtin_bswap64 4631107791820423168))) (1 + 1 + 8)
    queue_wf_init
  have hpay : ((((List.range P.LWS_PRE).map g2 ++ Fin.ofNat 1 ::
      (str "x" ++ store64 P.host (__builtin_bswap64 4631107791820423168))).drop
        P.LWS_PRE).take (1 + 1 + 8))
      = (nly_frame_encode P.host (List.replicate 10 0) 10 (str "x") 4631107791820423168).2 := by
    rw [henc, List.drop_left' (by simp)]
    exact List.take_of_length_le (by
      simp only [List.length_cons, List.length_append, store64_length]
      exact Nat.le_of_eq rfl)
  generalize (List.range P.LWS_PRE).map g2 ++ Fin.ofNat 1 ::
      (str "x" ++ store64 P.host (__builtin_bswap64 4631107791820423168)) = F at *
  obtain ⟨svc1, hs1, hph1, hreg1, hlen1, hq1, hopen1⟩ : ∃ s1 : nly_service_t,
      nly_service_send P svc0 (str "x") 4631107791820423168 (some g2) true = (0, s1, []) ∧
      s1.phase = nly_conn_phase.NLY_PHASE_REGISTER ∧ s1.reg_json = buf ∧
      s1.reg_json_len = (str "\x7b\"kind\":\"external\",\"parameters\":[\x7b\"name\":\"x\",\"range\":[0,127]\x7d]\x7d").length ∧
      s1.queue = nly_queue_push nly_queue_init true F (1 + 1 + 8) ∧ s1.on_open = none :=
    ⟨_, hsend, hph0, hreg, hlen, rfl, hopen0⟩
  refine ⟨svc0, svc1, hc, hs1, ?_⟩
  clear hs1 hsend hc hph0 hreg hlen hq0 hopen0 hctx0 hb
  rw [run_append, List.map_append]
  obtain ⟨svc4, h4, hph4, hreg4, hlen4, hq4, hopen4⟩ : ∃ s4 : nly_service_t,
      run P svc1 [step.start true, step.connect (some ctx) (some w),
          step.callback wsi lws_callback_reasons.LWS_CALLBACK_CLIENT_ESTABLISHED none 0 frag
            (some g3)] = (s4, [[], [], [effect.lws_callback_on_writable wsi]]) ∧
      s4.phase = nly_conn_phase.NLY_PHASE_REGISTER ∧ s4.reg_json = buf ∧
      s4.reg_json_len = (str "\x7b\"kind\":\"external\",\"parameters\":[\x7b\"name\":\"x\",\"range\":[0,127]\x7d]\x7d").length ∧
      s4.queue = nly_queue_push nly_queue_init true F (1 + 1 + 8) ∧ s4.on_open = none :=
    ⟨_, rfl, rfl, hreg1, hlen1, hq1, hopen1⟩
  rw [h4]
  have hle4 : svc4.reg_json_len ≤ svc4.reg_json.length := by
    have := congrArg List.length htake
    rw [List.length_take] at this
    rw [hreg4, hlen4]
    omega
  have hW1 := callback_writeable_register P svc4 wsi none 0 frag g3 hph4 hle4
  obtain ⟨hW2, hwf6, hent6⟩ := callback_writeable_running_cons P
    { svc4 with phase := nly_conn_phase.NLY_PHASE_RUNNING } wsi none 0 frag (some g3)
    (F, 1 + 1 + 8) [] rfl (by show queue_wf svc4.queue; rw [hq4]; exact hwf1)
    (by show queue_entries svc4.queue = _; rw [hq4, hent1]; rfl)
  have hidle := run_writeable_idle P
    { svc4 with phase := nly_conn_phase.NLY_PHASE_RUNNING,
                queue := (nly_queue_pop svc4.queue).1 } wsi none 0 frag (some g3)
    rfl hwf6 hent6 n
  show List.map writes_of [[], [], [effect.lws_callback_on_writable wsi]] ++
    List.map writes_of (run P svc4
      (step.callback wsi lws_callback_reasons.LWS_CALLBACK_CLIENT_WRITEABLE none 0 frag (some g3)
        :: step.callback wsi lws_callback_reasons.LWS_CALLBACK_CLIENT_WRITEABLE none 0 frag
          (some g3)
        :: List.replicate n (step.callback wsi
          lws_callback_reasons.LWS_CALLBACK_CLIENT_WRITEABLE none 0 frag (some g3)))).2 = _
  rw [run_cons, run_cons]
  simp only [do_step, hW1, hW2, hidle]
  simp only [hopen4, call_slot, List.map_cons, List.map_nil, writes_of, List.append_nil,
    List.cons_append, List.nil_append, List.map_replicate, writes_of_on_writable_if]
  rw [hreg4, hlen4, htake, hpay]

/-- Witness of C10: the sample platform, the neuron name "osc", no address, five write
opportunities. -/
theorem end_to_end_witness :
    ∃ svc0 svc1,
      nly_service_create sample_platform true (some (fun _ => 0)) (str "osc") none
        [⟨str "x", 0, 4638637247447433216⟩] 1 = some svc0 ∧
      nly_service_send sample_platform svc0 (str "x") 4631107791820423168 (some (fun _ => 0))
        true = (0, svc1, []) ∧
      (run sample_platform svc1 ([step.start true, step.connect (some 1) (some 2),
          step.callback 2 lws_callback_reasons.LWS_CALLBACK_CLIENT_ESTABLISHED none 0
            ⟨false, false, false⟩ (some (fun _ => 0))] ++
          List.replicate (3 + 2)
            (step.callback 2 lws_callback_reasons.LWS_CALLBACK_CLIENT_WRITEABLE none 0
              ⟨false, false, false⟩ (some (fun _ => 0))))).2.map writes_of
        = [[], [], [],
            [(str "\x7b\"kind\":\"external\",\"parameters\":[\x7b\"name\":\"x\",\"range\":[0,127]\x7d]\x7d",
              lws_write_protocol.LWS_WRITE_TEXT)],
            [((nly_frame_encode sample_platform.host (List.replicate 10 0) 10 (str "x")
                4631107791820423168).2, lws_write_protocol.LWS_WRITE_BINARY)]]
          ++ List.replicate 3 [] :=
  end_to_end sample_platform (fun _ => 0) (fun _ => 0) (fun _ => 0) (str "osc") none 1 2 2
    ⟨false, false, false⟩ 3 rfl rfl
/-! ## The queue stays well formed -/

theorem queue_wf_push (q : nly_queue_t) (node_ok : Bool) (frame : List uint8_t) (len : Nat)
    (h : queue_wf q) : queue_wf (nly_queue_push q node_ok frame len) := by
  cases node_ok
  · exact h
  · exact (queue_push_entries q frame len h).1

theorem queue_wf_pop (q : nly_queue_t) (h : queue_wf q) : queue_wf (nly_queue_pop q).1 := by
  cases he : queue_entries q with
  | nil => rw [queue_pop_entries_nil q h he]; exact h
  | cons x xs => exact (queue_pop_entries_cons q x xs h he).2.1

theorem rx_append_queue (svc : nly_service_t) (a : alloc_t) (data : List uint8_t) (len : Nat) :
    (rx_append svc a data len).2.queue = svc.queue := by
  unfold rx_append
  by_cases h : svc.rx_len + len > svc.rx_cap
  · simp only [h, if_true]
    cases realloc a svc.rx_buf (if (svc.rx_len + len) * 2 < 512 then 512
      else (svc.rx_len + len) * 2) <;> rfl
  · simp only [h, if_false]

theorem handle_complete_message_queue (P : platform) (svc : nly_service_t) :
    (handle_complete_message P svc).1.queue = svc.queue := by
  unfold handle_complete_message
  dsimp only
  repeat' split
  all_goals rfl

/-- Every step keeps the queue well formed. -/
theorem do_step_queue_wf (P : platform) (svc : nly_service_t) (s : step)
    (h : queue_wf svc.queue) : queue_wf (do_step P svc s).1.queue := by
  cases s with
  | callback wsi reason inp len frag a =>
    cases reason with
    | LWS_CALLBACK_CLIENT_ESTABLISHED => exact h
    | LWS_CALLBACK_CLIENT_WRITEABLE =>
      simp only [do_step, nly_lws_callback]
      split
      · split
        · exact h
        · exact h
      · split
        · exact queue_wf_pop _ h
        · exact queue_wf_pop _ h
    | LWS_CALLBACK_CLIENT_RECEIVE =>
      simp only [do_step, nly_lws_callback]
      split
      · show queue_wf (handle_complete_message P _).1.queue
        rw [handle_complete_message_queue, rx_append_queue]
        split
        · exact h
        · split <;> exact h
      · rw [rx_append_queue]
        split
        · exact h
        · split <;> exact h
    | LWS_CALLBACK_CLIENT_CONNECTION_ERROR => exact h
    | LWS_CALLBACK_CLOSED => exact h
    | other => exact h
  | send parameter value a node_ok =>
    simp only [do_step, nly_service_send]
    split
    · exact h
    · split
      · exact h
      · exact queue_wf_push _ _ _ _ h
  | start thread_ok =>
    simp only [do_step, nly_service_start]
    split <;> exact h
  | connect ctx w =>
    simp only [do_step, nly_thread_func_connect]
    cases ctx with
    | none => exact h
    | some c => cases w <;> exact h
  | poll => exact h
  | teardown => exact h

/-- A connector fresh from `nly_service_create` has a well-formed (empty) queue. -/
theorem nly_service_create_queue_wf (P : platform) (calloc_ok : Bool) (a : alloc_t)
    (name : List uint8_t) (address : Option (List uint8_t)) (params : List nly_param_t)
    (param_count : Nat) (svc : nly_service_t)
    (h : nly_service_create P calloc_ok a name address params param_count = some svc) :
    queue_wf svc.queue ∧ queue_entries svc.queue = [] := by
  unfold nly_service_create at h
  cases calloc_ok with
  | false => simp at h
  | true =>
    simp only [Bool.not_true, Bool.false_eq_true, if_false, Option.some.injEq] at h
    subst h
    exact ⟨queue_wf_init, rfl⟩

/-- Every run keeps the queue well formed. -/
theorem run_queue_wf (P : platform) (steps : List step) :
    ∀ svc : nly_service_t, queue_wf svc.queue → queue_wf (run P svc steps).1.queue := by
  induction steps with
  | nil => intro svc h; exact h
  | cons s rest ih =>
    intro svc h
    rw [run_cons]
    exact ih _ (do_step_queue_wf P svc s h)

/-! ## Host byte order -/

/-- On a big-endian host the bytes stored for the swapped word are the little-endian bytes
of the word. -/
theorem store64_big_bswap64 (u : uint64_t) :
    store64 HostOrder.big (__builtin_bswap64 u) = le_bytes u := by
  show be_bytes (of_le_bytes (be_bytes u)) = le_bytes u
  conv_lhs => rw [show be_bytes u = [Fin.ofNat (u.val / 72057594037927936),
    Fin.ofNat (u.val / 281474976710656), Fin.ofNat (u.val / 1099511627776),
    Fin.ofNat (u.val / 4294967296), Fin.ofNat (u.val / 16777216), Fin.ofNat (u.val / 65536),
    Fin.ofNat (u.val / 256), Fin.ofNat u.val] from rfl]
  rw [be_bytes_of_le_bytes]
  rfl

/-- C20, evaluated on the code: on a big-endian host `nly_frame_encode` writes the 8 value
bytes least significant byte first, not most significant byte first: the swap is
unconditional, so the wire order follows the host. -/
theorem frame_encode_big_endian_host (buf : List uint8_t) (bufsz : Nat) (name : List uint8_t)
    (value : uint64_t) (hlen : strlen name ≤ 255) (hsz : 1 + strlen name + 8 ≤ bufsz)
    (hbuf : bufsz ≤ buf.length) :
    ((nly_frame_encode HostOrder.big buf bufsz name value).2.drop (1 + strlen name)).take 8
      = [Fin.ofNat value.val, Fin.ofNat (value.val / 2 ^ 8), Fin.ofNat (value.val / 2 ^ 16),
         Fin.ofNat (value.val / 2 ^ 24), Fin.ofNat (value.val / 2 ^ 32),
         Fin.ofNat (value.val / 2 ^ 40), Fin.ofNat (value.val / 2 ^ 48),
         Fin.ofNat (value.val / 2 ^ 56)] := by
  rw [nly_frame_encode_ok HostOrder.big buf bufsz name value hlen hsz hbuf,
    store64_big_bswap64]
  have hc := c_string_length name
  have hb : (le_bytes value).length = 8 := rfl
  simp only [Nat.add_comm 1, List.drop_succ_cons]
  rw [← hc, List.drop_left, ← hb, List.take_left]
  norm_num [le_bytes]

/-- Witness of C20: ("x", 42.0) on a big-endian host is written as 00 00 00 00 00 00 45 40,
on a little-endian host as 40 45 00 00 00 00 00 00; and a big-endian host decodes the
latter, the documented wire form, as the value with pattern 0x4540. -/
theorem frame_encode_big_endian_host_witness :
    (nly_frame_encode HostOrder.big (List.replicate 10 0) 10 [120] 4631107791820423168).2
      = [1, 120, 0, 0, 0, 0, 0, 0, 69, 64] ∧
    (nly_frame_encode HostOrder.little (List.replicate 10 0) 10 [120] 4631107791820423168).2
      = [1, 120, 64, 69, 0, 0, 0, 0, 0, 0] ∧
    (nly_frame_decode HostOrder.big [1, 120, 64, 69, 0, 0, 0, 0, 0, 0] 10 msg_uninit).2.value
      = 17728 ∧
    ((nly_frame_encode HostOrder.big (List.replicate 10 0) 10 [120]
        4631107791820423168).2.drop (1 + strlen [120])).take 8
      = [Fin.ofNat (4631107791820423168 : uint64_t).val,
         Fin.ofNat ((4631107791820423168 : uint64_t).val / 2 ^ 8),
         Fin.ofNat ((4631107791820423168 : uint64_t).val / 2 ^ 16),
         Fin.ofNat ((4631107791820423168 : uint64_t).val / 2 ^ 24),
         Fin.ofNat ((4631107791820423168 : uint64_t).val / 2 ^ 32),
         Fin.ofNat ((4631107791820423168 : uint64_t).val / 2 ^ 40),
         Fin.ofNat ((4631107791820423168 : uint64_t).val / 2 ^ 48),
         Fin.ofNat ((4631107791820423168 : uint64_t).val / 2 ^ 56)] :=
  ⟨by rfl, by rfl, by rfl,
    frame_encode_big_endian_host (List.replicate 10 0) 10 [120] 4631107791820423168
      (Nat.le_of_ble_eq_true rfl) (Nat.le_of_ble_eq_true rfl) (Nat.le_of_ble_eq_true rfl)⟩
/-! ## Error and close events -/

theorem mem_call_slot (slot : Option Nat) (f : Nat → effect) (e : effect)
    (h : e ∈ call_slot slot f) : ∃ fn, slot = some fn ∧ e = f fn := by
  cases slot with
  | none => cases h
  | some fn =>
    refine ⟨fn, rfl, ?_⟩
    simpa [call_slot] using h

theorem mem_on_writable_if (c : Prop) [Decidable c] (w : Nat) (e : effect)
    (h : e ∈ (if c then [effect.lws_callback_on_writable w] else [])) :
    e = effect.lws_callback_on_writable w := by
  by_cases hc : c
  · rw [if_pos hc] at h
    simpa using h
  · rw [if_neg hc] at h
    cases h

/-- The only callback `handle_complete_message` invokes is the message callback. -/
theorem handle_complete_message_effects (P : platform) (svc : nly_service_t) (e : effect)
    (h : e ∈ (handle_complete_message P svc).2) :
    ∃ fn name value ud, e = effect.on_message fn name value ud := by
  revert h
  unfold handle_complete_message
  dsimp only
  repeat' split
  all_goals first
    | (intro h; cases h)
    | (intro h
       obtain ⟨fn, _, he⟩ := mem_call_slot _ _ _ h
       exact ⟨_, _, _, _, he⟩)

/-- The close callback is invoked by no step but a closed event, and then it is the
registered callback with its user data. -/
theorem on_close_only_closed (P : platform) (svc : nly_service_t) (s : step) (fn ud : Nat)
    (h : effect.on_close fn ud ∈ (do_step P svc s).2) :
    (∃ wsi inp len frag a,
      s = step.callback wsi lws_callback_reasons.LWS_CALLBACK_CLOSED inp len frag a) ∧
    svc.on_close = some fn ∧ svc.ud_close = ud := by
  cases s with
  | callback wsi reason inp len frag a =>
    cases reason with
    | LWS_CALLBACK_CLIENT_ESTABLISHED =>
      simp [do_step, nly_lws_callback] at h
    | LWS_CALLBACK_CLIENT_WRITEABLE =>
      exfalso
      revert h
      simp only [do_step, nly_lws_callback]
      cases svc.on_open <;> repeat' split
      all_goals simp [call_slot]
    | LWS_CALLBACK_CLIENT_RECEIVE =>
      exfalso
      revert h
      simp only [do_step, nly_lws_callback]
      split
      · intro h
        obtain ⟨_, _, _, _, he⟩ := handle_complete_message_effects P _ _ h
        cases he
      · intro h
        cases h
    | LWS_CALLBACK_CLIENT_CONNECTION_ERROR =>
      exfalso
      obtain ⟨_, _, he⟩ := mem_call_slot _ _ _ h
      cases he
    | LWS_CALLBACK_CLOSED =>
      obtain ⟨f, hf, he⟩ := mem_call_slot _ _ _ h
      cases he
      exact ⟨⟨wsi, inp, len, frag, a, rfl⟩, hf, rfl⟩
    | other => cases h
  | send parameter value a node_ok =>
    exfalso
    revert h
    simp only [do_step, nly_service_send]
    repeat' split
    all_goals first
      | (intro h; cases h; done)
      | (intro h; simp at h)
  | start thread_ok => cases h
  | connect ctx w =>
    exfalso
    cases ctx with
    | none =>
      obtain ⟨_, _, he⟩ := mem_call_slot _ _ _ h
      cases he
    | some c =>
      cases w with
      | none =>
        obtain ⟨_, _, he⟩ := mem_call_slot _ _ _ h
        cases he
      | some _ => cases h
  | poll =>
    exfalso
    revert h
    simp only [do_step, nly_thread_func_poll]
    split
    · intro h
      have := mem_on_writable_if _ _ _ h
      cases this
    · intro h
      cases h
  | teardown => cases h

/-- C15, counterexample: on a connector with both callbacks registered and a connection
established, the error event invokes the error callback only; the close callback is not
invoked. -/
theorem error_event_no_close :
    (nly_lws_callback sample_platform sample_established 7
      lws_callback_reasons.LWS_CALLBACK_CLIENT_CONNECTION_ERROR none 0 ⟨false, false, false⟩
      none).2.2 = [effect.on_error 1 (str "connection error") 0] ∧
    (nly_lws_callback sample_platform sample_established 7
      lws_callback_reasons.LWS_CALLBACK_CLIENT_CONNECTION_ERROR none 0 ⟨false, false, false⟩
      none).2.2 ≠ [effect.on_error 1 (str "connection error") 0, effect.on_close 2 0] ∧
    sample_established.conn_alive = 1 ∧ sample_established.wsi = some 7 := by
  refine ⟨by rfl, ?_, by rfl, by rfl⟩
  rw [show (nly_lws_callback sample_platform sample_established 7
      lws_callback_reasons.LWS_CALLBACK_CLIENT_CONNECTION_ERROR none 0 ⟨false, false, false⟩
      none).2.2 = [effect.on_error 1 (str "connection error") 0] from rfl]
  intro h
  have := congrArg List.length h
  simp at this

/-- C15, amended: the error event invokes the error callback exactly once when one is
registered (with the message of the transport, or "connection error" when there is none) and
nothing else, in particular not the close callback; it returns -1 and leaves the connector
with no transport handle and not alive, all other fields unchanged. The close callback is
invoked, exactly once when registered, by the closed event, which changes the connector in
the same way; and by nothing else: in every state, a step that invokes a close callback
(a transport event of any kind, a send call, a start call or a stretch of the connection
thread) is a closed event, and the callback and user data are the registered ones. -/
theorem error_event_effects (P : platform) (svc : nly_service_t) (wsi : Nat)
    (inp : Option (List uint8_t)) (len : Nat) (frag : lws_fragment) (a : alloc_t) :
    nly_lws_callback P svc wsi lws_callback_reasons.LWS_CALLBACK_CLIENT_CONNECTION_ERROR inp len
        frag a
      = (-1, { svc with wsi := none, conn_alive := 0 },
          match svc.on_error with
          | some fn => [effect.on_error fn
              (match inp with
                | some m => c_string m
                | none => str "connection error") svc.ud_error]
          | none => []) ∧
    (∀ fn ud, effect.on_close fn ud ∉
      (nly_lws_callback P svc wsi lws_callback_reasons.LWS_CALLBACK_CLIENT_CONNECTION_ERROR inp
        len frag a).2.2) ∧
    nly_lws_callback P svc wsi lws_callback_reasons.LWS_CALLBACK_CLOSED inp len frag a
      = (-1, { svc with wsi := none, conn_alive := 0 },
          match svc.on_close with
          | some fn => [effect.on_close fn svc.ud_close]
          | none => []) ∧
    (∀ (t : nly_service_t) (s : step) (fn ud : Nat),
      effect.on_close fn ud ∈ (do_step P t s).2 →
      (∃ w i l f al,
        s = step.callback w lws_callback_reasons.LWS_CALLBACK_CLOSED i l f al) ∧
      t.on_close = some fn ∧ t.ud_close = ud) := by
  refine ⟨?_, ?_, ?_, ?_⟩
  · unfold nly_lws_callback call_slot
    cases svc.on_error <;> rfl
  · intro fn ud
    unfold nly_lws_callback call_slot
    cases svc.on_error <;> simp
  · unfold nly_lws_callback call_slot
    cases svc.on_close <;> rfl
  · intro t s fn ud h
    exact on_close_only_closed P t s fn ud h
/-! ## Receive buffer -/

theorem memcpy_within (blk data : List uint8_t) (off len : Nat)
    (hfit : off + len ≤ blk.length) (hlen : len ≤ data.length) :
    (memcpy blk off data len).length = blk.length ∧
    (memcpy blk off data len).take (off + len) = blk.take off ++ data.take len := by
  unfold memcpy
  have h1 : (blk.take off ++ data.take len).length = off + len := by
    simp only [List.length_append, List.length_take]; omega
  refine ⟨?_, ?_⟩
  · simp only [List.length_append, List.length_take, List.length_drop]; omega
  · rw [List.take_left' h1]

theorem realloc_grow (g : Nat → uint8_t) (blk : List uint8_t) (nc off : Nat)
    (hnc : blk.length ≤ nc) (hoff : off ≤ blk.length) :
    (blk.take nc ++ (List.range (nc - blk.length)).map g).length = nc ∧
    (blk.take nc ++ (List.range (nc - blk.length)).map g).take off = blk.take off := by
  rw [List.take_of_length_le hnc]
  refine ⟨?_, ?_⟩
  · simp only [List.length_append, List.length_map, List.length_range]; omega
  · rw [List.take_append_of_le_length hoff]

/-- What one successful `rx_append` does to a buffer whose block has `rx_cap` bytes and
whose logical length is within the capacity. -/
theorem rx_append_ok (svc : nly_service_t) (g : Nat → uint8_t) (data : List uint8_t)
    (len : Nat) (hlen : len ≤ data.length) (hblk : svc.rx_buf.length = svc.rx_cap)
    (hle : svc.rx_len ≤ svc.rx_cap) :
    (rx_append svc (some g) data len).1 = 0 ∧
    (rx_append svc (some g) data len).2.rx_len = svc.rx_len + len ∧
    (rx_append svc (some g) data len).2.rx_buf.length
      = (rx_append svc (some g) data len).2.rx_cap ∧
    (rx_append svc (some g) data len).2.rx_len ≤ (rx_append svc (some g) data len).2.rx_cap ∧
    (rx_append svc (some g) data len).2.rx_buf.take (svc.rx_len + len)
      = svc.rx_buf.take svc.rx_len ++ data.take len ∧
    (rx_append svc (some g) data len).2.rx_cap
      = (if svc.rx_len + len > svc.rx_cap then max (2 * (svc.rx_len + len)) 512
         else svc.rx_cap) ∧
    (rx_append svc (some g) data len).2
      = { svc with rx_buf := (rx_append svc (some g) data len).2.rx_buf,
                   rx_len := (rx_append svc (some g) data len).2.rx_len,
                   rx_cap := (rx_append svc (some g) data len).2.rx_cap } := by
  unfold rx_append
  by_cases hgrow : svc.rx_len + len > svc.rx_cap
  · have hnc : (if (svc.rx_len + len) * 2 < 512 then 512 else (svc.rx_len + len) * 2)
        = max (2 * (svc.rx_len + len)) 512 := by split <;> omega
    simp only [hgrow, if_true, realloc, Option.map_some', hnc]
    have hr := realloc_grow g svc.rx_buf (max (2 * (svc.rx_len + len)) 512) svc.rx_len
      (by omega) (by omega)
    have hm := memcpy_within
      (svc.rx_buf.take (max (2 * (svc.rx_len + len)) 512)
        ++ (List.range (max (2 * (svc.rx_len + len)) 512 - svc.rx_buf.length)).map g)
      data svc.rx_len len (by rw [hr.1]; omega) hlen
    rw [hr.1, hr.2] at hm
    exact ⟨trivial, trivial, hm.1, by omega, hm.2, trivial, trivial⟩
  · simp only [hgrow, if_false]
    have hm := memcpy_within svc.rx_buf data svc.rx_len len (by omega) hlen
    exact ⟨trivial, trivial, by rw [hm.1]; exact hblk, by omega, hm.2, trivial, trivial⟩
theorem rx_run_invariant (ops : List rx_op) :
    ∀ svc : nly_service_t, svc.rx_buf.length = svc.rx_cap → svc.rx_len ≤ svc.rx_cap →
      (rx_run svc ops).rx_buf.length = (rx_run svc ops).rx_cap ∧
      (rx_run svc ops).rx_len ≤ (rx_run svc ops).rx_cap := by
  induction ops with
  | nil => intro svc h1 h2; exact ⟨h1, h2⟩
  | cons op rest ih =>
    intro svc h1 h2
    cases op with
    | append g data =>
      obtain ⟨_, _, h3, h4, _⟩ := rx_append_ok svc g data data.length (Nat.le_refl _) h1 h2
      exact ih _ h3 h4
    | reset => exact ih (rx_reset svc) h1 (Nat.zero_le _)

/-- C19 (receive buffer): let `s` be the connector reached from an empty receive buffer
(no block, length 0, capacity 0) by any sequence of `rx_append` and `rx_reset` calls, every
`realloc` succeeding. Then the logical length of `s` is within its capacity, which is the
size of its block; a further `rx_append` of `data` returns 0, adds the length of `data` to the
logical length, leaves the bytes buffered before as they were and puts `data` right behind
them; the capacity does not decrease, stays when the needed length fits and becomes
`max (2 * needed) 512` when it does not; `rx_reset` sets the length to zero and keeps the
capacity and the block. -/
theorem rx_buffer_invariant (svc0 s : nly_service_t) (ops : List rx_op) (g : Nat → uint8_t)
    (data : List uint8_t) (h1 : svc0.rx_buf = []) (h2 : svc0.rx_len = 0)
    (h3 : svc0.rx_cap = 0) (hs : s = rx_run svc0 ops) :
    s.rx_len ≤ s.rx_cap ∧ s.rx_buf.length = s.rx_cap ∧
    (rx_append s (some g) data data.length).1 = 0 ∧
    (rx_append s (some g) data data.length).2.rx_len = s.rx_len + data.length ∧
    (rx_append s (some g) data data.length).2.rx_len
      ≤ (rx_append s (some g) data data.length).2.rx_cap ∧
    (rx_append s (some g) data data.length).2.rx_buf.length
      = (rx_append s (some g) data data.length).2.rx_cap ∧
    (rx_append s (some g) data data.length).2.rx_buf.take s.rx_len = s.rx_buf.take s.rx_len ∧
    ((rx_append s (some g) data data.length).2.rx_buf.drop s.rx_len).take data.length
      = data ∧
    s.rx_cap ≤ (rx_append s (some g) data data.length).2.rx_cap ∧
    (s.rx_len + data.length ≤ s.rx_cap →
      (rx_append s (some g) data data.length).2.rx_cap = s.rx_cap) ∧
    (s.rx_cap < s.rx_len + data.length →
      (rx_append s (some g) data data.length).2.rx_cap
        = max (2 * (s.rx_len + data.length)) 512) ∧
    (rx_reset s).rx_len = 0 ∧ (rx_reset s).rx_cap = s.rx_cap ∧
    (rx_reset s).rx_buf = s.rx_buf := by
  obtain ⟨hblk, hle⟩ := rx_run_invariant ops svc0 (by rw [h1, h3]; rfl) (by rw [h2, h3])
  rw [← hs] at hblk hle
  obtain ⟨a1, a2, a3, a4, a5, a6, _⟩ :=
    rx_append_ok s g data data.length (Nat.le_refl _) hblk hle
  have hlt : (s.rx_buf.take s.rx_len).length = s.rx_len := by
    rw [List.length_take]; omega
  rw [List.take_length] at a5
  refine ⟨hle, hblk, a1, a2, a4, a3, ?_, ?_, ?_, ?_, ?_, rfl, rfl, rfl⟩
  · have := congrArg (List.take s.rx_len) a5
    rw [List.take_take, Nat.min_eq_left (Nat.le_add_right _ _), List.take_left' hlt] at this
    exact this
  · have := congrArg (List.drop s.rx_len) a5
    rw [List.drop_take, Nat.add_sub_cancel_left, List.drop_left' hlt] at this
    exact this
  · rw [a6]; split <;> omega
  · intro h; rw [a6, if_neg (by omega)]
  · intro h; rw [a6, if_pos (by omega)]

/-- Witness of C19: from the zeroed connector, append 3 bytes, reset, then append 2 bytes. -/
theorem rx_buffer_invariant_witness :
    (rx_append (rx_run nly_service_calloc [rx_op.append (fun _ => 0) [1, 2, 3], rx_op.reset])
      (some (fun _ => 7)) [4, 5] 2).2.rx_len = 0 + 2 ∧
    (rx_run nly_service_calloc [rx_op.append (fun _ => 0) [1, 2, 3], rx_op.reset]).rx_cap
      = 512 :=
  ⟨(rx_buffer_invariant nly_service_calloc
      (rx_run nly_service_calloc [rx_op.append (fun _ => 0) [1, 2, 3], rx_op.reset])
      [rx_op.append (fun _ => 0) [1, 2, 3], rx_op.reset] (fun _ => 7) [4, 5]
      rfl rfl rfl rfl).2.2.2.1, by rfl⟩
/-! ## Reassembly of binary messages -/

/-- The decoder looks at the first `len` bytes of the block only. -/
theorem nly_frame_decode_take (host : HostOrder) (data : List uint8_t) (len : Nat)
    (out : nly_message_t) :
    nly_frame_decode host (data.take len) len out = nly_frame_decode host data len out := by
  by_cases h1 : len < 1
  · rw [nly_frame_decode_fail host _ len out (Or.inl h1),
      nly_frame_decode_fail host _ len out (Or.inl h1)]
  · have hb : byte_at (data.take len) 0 = byte_at data 0 := by
      unfold byte_at
      rw [List.getD_eq_getElem?_getD, List.getD_eq_getElem?_getD, List.getElem?_take]
      simp only [show 0 < len by omega, if_true]
    by_cases h2 : len < 1 + byte_at data 0 + 8
    · rw [nly_frame_decode_fail host _ len out (Or.inr (by rw [hb]; exact h2)),
        nly_frame_decode_fail host _ len out (Or.inr h2)]
    · rw [nly_frame_decode_ok host _ len out (by omega) (by rw [hb]; omega),
        nly_frame_decode_ok host _ len out (by omega) (by omega), hb]
      have e1 : ((data.take len).drop 1).take (byte_at data 0)
          = (data.drop 1).take (byte_at data 0) := by
        rw [List.drop_take, List.take_take, Nat.min_eq_left (by omega)]
      have e2 : ((data.take len).drop (1 + byte_at data 0)).take 8
          = (data.drop (1 + byte_at data 0)).take 8 := by
        rw [List.drop_take, List.take_take, Nat.min_eq_left (by omega)]
      simp only [memcpy, e1, e2]
theorem handle_complete_message_binary (P : platform) (svc : nly_service_t)
    (hb : svc.rx_is_binary = 1) (hle : svc.rx_len ≤ svc.rx_buf.length) :
    handle_complete_message P svc
      = (svc, dispatch_binary P svc.on_message svc.ud_message (svc.rx_buf.take svc.rx_len)) := by
  have hne : svc.rx_is_binary ≠ 0 := by rw [hb]; decide
  have hl : (svc.rx_buf.take svc.rx_len).length = svc.rx_len := by
    rw [List.length_take]; omega
  unfold handle_complete_message dispatch_binary
  simp only [hne, ne_eq, not_false_eq_true, if_true, hl, nly_frame_decode_take]
  split <;> rfl

/-- A binary fragment is appended to the receive buffer; when it is the final one the
buffered bytes are dispatched as one binary message and the buffer is reset. -/
theorem receive_binary_fragment (P : platform) (svc : nly_service_t) (wsi : Nat)
    (f : List uint8_t) (g : Nat → uint8_t) (is_first is_final : Bool)
    (hblk : svc.rx_buf.length = svc.rx_cap) (hle : svc.rx_len ≤ svc.rx_cap) :
    (nly_lws_callback P svc wsi lws_callback_reasons.LWS_CALLBACK_CLIENT_RECEIVE (some f)
        f.length ⟨true, is_first, is_final⟩ (some g)).2.2
      = (if is_final then dispatch_binary P svc.on_message svc.ud_message
          (svc.rx_buf.take svc.rx_len ++ f) else []) ∧
    (nly_lws_callback P svc wsi lws_callback_reasons.LWS_CALLBACK_CLIENT_RECEIVE (some f)
        f.length ⟨true, is_first, is_final⟩ (some g)).2.1.rx_len
      = (if is_final then 0 else svc.rx_len + f.length) ∧
    (nly_lws_callback P svc wsi lws_callback_reasons.LWS_CALLBACK_CLIENT_RECEIVE (some f)
        f.length ⟨true, is_first, is_final⟩ (some g)).2.1.rx_buf.take (svc.rx_len + f.length)
      = svc.rx_buf.take svc.rx_len ++ f ∧
    (nly_lws_callback P svc wsi lws_callback_reasons.LWS_CALLBACK_CLIENT_RECEIVE (some f)
        f.length ⟨true, is_first, is_final⟩ (some g)).2.1.rx_buf.length
      = (nly_lws_callback P svc wsi lws_callback_reasons.LWS_CALLBACK_CLIENT_RECEIVE (some f)
        f.length ⟨true, is_first, is_final⟩ (some g)).2.1.rx_cap ∧
    svc.rx_len + f.length ≤ (nly_lws_callback P svc wsi
        lws_callback_reasons.LWS_CALLBACK_CLIENT_RECEIVE (some f)
        f.length ⟨true, is_first, is_final⟩ (some g)).2.1.rx_cap ∧
    (nly_lws_callback P svc wsi lws_callback_reasons.LWS_CALLBACK_CLIENT_RECEIVE (some f)
        f.length ⟨true, is_first, is_final⟩ (some g)).2.1.on_message = svc.on_message ∧
    (nly_lws_callback P svc wsi lws_callback_reasons.LWS_CALLBACK_CLIENT_RECEIVE (some f)
        f.length ⟨true, is_first, is_final⟩ (some g)).2.1.ud_message = svc.ud_message := by
  obtain ⟨a1, a2, a3, a4, a5, a6, a7⟩ := rx_append_ok { svc with rx_is_binary := 1 } g f
    f.length (Nat.le_refl _) hblk hle
  rw [List.take_length] at a5
  have hbin : (rx_append { svc with rx_is_binary := 1 } (some g) f f.length).2.rx_is_binary
      = 1 := by rw [a7]
  have hom : (rx_append { svc with rx_is_binary := 1 } (some g) f f.length).2.on_message
      = svc.on_message := by rw [a7]
  have hud : (rx_append { svc with rx_is_binary := 1 } (some g) f f.length).2.ud_message
      = svc.ud_message := by rw [a7]
  have hh := handle_complete_message_binary P
    (rx_append { svc with rx_is_binary := 1 } (some g) f f.length).2 hbin (by rw [a3]; exact a4)
  rw [a2] at hh
  simp only [] at a2 a5 hh
  rw [a5, hom, hud] at hh
  unfold nly_lws_callback
  cases is_final
  · simp only [Option.getD_some, if_true, Bool.false_eq_true, if_false]
    exact ⟨trivial, a2, a5, a3, by rw [← a2]; exact a4, hom, hud⟩
  · simp only [Option.getD_some, if_true, hh, rx_reset]
    exact ⟨trivial, trivial, a5, a3, by rw [← a2]; exact a4, hom, hud⟩
/-- C12 (reassembly): on a connector whose receive buffer is empty (logical length 0, block
of `rx_cap` bytes), deliver a binary message either as three fragments (first, middle, final,
each of any length, zero included, all flagged binary) or as one first-and-final fragment,
every `realloc` succeeding. The callback invocations of the two deliveries are the same:
none, or one call of the message callback with the name and value `nly_frame_decode` reads
from the whole message. In both cases the receive buffer length is zero afterwards. -/
theorem reassembly_binary (P : platform) (svc : nly_service_t) (wsi : Nat)
    (f1 f2 f3 : List uint8_t) (g1 g2 g3 g : Nat → uint8_t)
    (h0 : svc.rx_len = 0) (hblk : svc.rx_buf.length = svc.rx_cap) :
    (run P svc
      [step.callback wsi lws_callback_reasons.LWS_CALLBACK_CLIENT_RECEIVE (some f1) f1.length
        ⟨true, true, false⟩ (some g1),
       step.callback wsi lws_callback_reasons.LWS_CALLBACK_CLIENT_RECEIVE (some f2) f2.length
        ⟨true, false, false⟩ (some g2),
       step.callback wsi lws_callback_reasons.LWS_CALLBACK_CLIENT_RECEIVE (some f3) f3.length
        ⟨true, false, true⟩ (some g3)]).2
      = [[], [], dispatch_binary P svc.on_message svc.ud_message (f1 ++ f2 ++ f3)] ∧
    (run P svc
      [step.callback wsi lws_callback_reasons.LWS_CALLBACK_CLIENT_RECEIVE
        (some (f1 ++ f2 ++ f3)) (f1 ++ f2 ++ f3).length ⟨true, true, true⟩ (some g)]).2
      = [dispatch_binary P svc.on_message svc.ud_message (f1 ++ f2 ++ f3)] ∧
    (run P svc
      [step.callback wsi lws_callback_reasons.LWS_CALLBACK_CLIENT_RECEIVE (some f1) f1.length
        ⟨true, true, false⟩ (some g1),
       step.callback wsi lws_callback_reasons.LWS_CALLBACK_CLIENT_RECEIVE (some f2) f2.length
        ⟨true, false, false⟩ (some g2),
       step.callback wsi lws_callback_reasons.LWS_CALLBACK_CLIENT_RECEIVE (some f3) f3.length
        ⟨true, false, true⟩ (some g3)]).1.rx_len = 0 ∧
    (run P svc
      [step.callback wsi lws_callback_reasons.LWS_CALLBACK_CLIENT_RECEIVE
        (some (f1 ++ f2 ++ f3)) (f1 ++ f2 ++ f3).length ⟨true, true, true⟩ (some g)]).1.rx_len
      = 0 ∧
    (dispatch_binary P svc.on_message svc.ud_message (f1 ++ f2 ++ f3) = [] ∨
      ∃ fn, svc.on_message = some fn ∧
        (nly_frame_decode P.host (f1 ++ f2 ++ f3) (f1 ++ f2 ++ f3).length msg_uninit).1 = 0 ∧
        dispatch_binary P svc.on_message svc.ud_message (f1 ++ f2 ++ f3)
          = [effect.on_message fn
              (c_string (nly_frame_decode P.host (f1 ++ f2 ++ f3) (f1 ++ f2 ++ f3).length
                msg_uninit).2.name)
              (nly_frame_decode P.host (f1 ++ f2 ++ f3) (f1 ++ f2 ++ f3).length
                msg_uninit).2.value svc.ud_message]) := by
  have hle : svc.rx_len ≤ svc.rx_cap := by omega
  have ht0 : svc.rx_buf.take svc.rx_len = [] := by rw [h0]; rfl
  -- the single delivery
  obtain ⟨o1, o2, _⟩ := receive_binary_fragment P svc wsi (f1 ++ f2 ++ f3) g true true hblk hle
  rw [ht0, List.nil_append] at o1
  simp only [if_true] at o1 o2
  -- the three fragments
  obtain ⟨r1, hr1⟩ : ∃ r, r = nly_lws_callback P svc wsi
    lws_callback_reasons.LWS_CALLBACK_CLIENT_RECEIVE (some f1) f1.length ⟨true, true, false⟩
    (some g1) := ⟨_, rfl⟩
  obtain ⟨a1, a2, a3, a4, a5, a6, a7⟩ := receive_binary_fragment P svc wsi f1 g1 true false
    hblk hle
  rw [← hr1] at a1 a2 a3 a4 a5 a6 a7
  rw [ht0, List.nil_append, h0, Nat.zero_add] at a3
  simp only [Bool.false_eq_true, if_false, h0, Nat.zero_add] at a1 a2 a5
  obtain ⟨r2, hr2⟩ : ∃ r, r = nly_lws_callback P r1.2.1 wsi
    lws_callback_reasons.LWS_CALLBACK_CLIENT_RECEIVE (some f2) f2.length ⟨true, false, false⟩
    (some g2) := ⟨_, rfl⟩
  obtain ⟨b1, b2, b3, b4, b5, b6, b7⟩ := receive_binary_fragment P r1.2.1 wsi f2 g2 false false
    a4 (by rw [a2]; exact a5)
  rw [← hr2] at b1 b2 b3 b4 b5 b6 b7
  rw [a2] at b3 b5 b2
  rw [a3] at b3
  simp only [Bool.false_eq_true, if_false] at b1 b2
  obtain ⟨c1, c2, _⟩ := receive_binary_fragment P r2.2.1 wsi f3 g3 false true
    b4 (by rw [b2]; exact b5)
  rw [b2, b3, b6, b7, a6, a7] at c1
  simp only [if_true] at c1 c2
  refine ⟨?_, ?_, ?_, ?_, ?_⟩
  · simp only [run, do_step, ← hr1, ← hr2, a1, b1, c1]
  · simp only [run, do_step, o1]
  · simp only [run, do_step, ← hr1, ← hr2, c2]
  · simp only [run, do_step, o2]
  · by_cases hd : (nly_frame_decode P.host (f1 ++ f2 ++ f3) (f1 ++ f2 ++ f3).length
        msg_uninit).1 = 0
    · cases hm : svc.on_message with
      | none =>
        left
        unfold dispatch_binary
        rw [if_pos hd]
        rfl
      | some fn =>
        right
        refine ⟨fn, rfl, hd, ?_⟩
        unfold dispatch_binary
        rw [if_pos hd]
        rfl
    · left
      unfold dispatch_binary
      rw [if_neg hd]

/-- Witness of C12: the frame of ("x", 42.0) cut into 3 + 3 + 4 bytes, message callback 1
registered on a zeroed connector. -/
theorem reassembly_binary_witness :
    (run sample_platform (nly_service_on_message nly_service_calloc (some 1) 0)
      [step.callback 7 lws_callback_reasons.LWS_CALLBACK_CLIENT_RECEIVE (some [1, 120, 64])
        ([1, 120, 64] : List uint8_t).length ⟨true, true, false⟩ (some (fun _ => 0)),
       step.callback 7 lws_callback_reasons.LWS_CALLBACK_CLIENT_RECEIVE (some [69, 0, 0])
        ([69, 0, 0] : List uint8_t).length ⟨true, false, false⟩ (some (fun _ => 0)),
       step.callback 7 lws_callback_reasons.LWS_CALLBACK_CLIENT_RECEIVE (some [0, 0, 0, 0])
        ([0, 0, 0, 0] : List uint8_t).length ⟨true, false, true⟩ (some (fun _ => 0))]).2
      = [[], [], dispatch_binary sample_platform
          (nly_service_on_message nly_service_calloc (some 1) 0).on_message
          (nly_service_on_message nly_service_calloc (some 1) 0).ud_message
          ([1, 120, 64] ++ [69, 0, 0] ++ [0, 0, 0, 0])] ∧
    dispatch_binary sample_platform (some 1) 0 ([1, 120, 64] ++ [69, 0, 0] ++ [0, 0, 0, 0])
      = [effect.on_message 1 [120] 4631107791820423168 0] :=
  ⟨(reassembly_binary sample_platform (nly_service_on_message nly_service_calloc (some 1) 0) 7
      [1, 120, 64] [69, 0, 0] [0, 0, 0, 0] (fun _ => 0) (fun _ => 0) (fun _ => 0) (fun _ => 0)
      rfl rfl).1, by rfl⟩
/-! ## What a step leaves alone -/

theorem rx_append_frame (svc : nly_service_t) (a : alloc_t) (data : List uint8_t) (len : Nat) :
    ∃ b l c, (rx_append svc a data len).2 = { svc with rx_buf := b, rx_len := l, rx_cap := c } := by
  unfold rx_append
  by_cases h : svc.rx_len + len > svc.rx_cap
  · simp only [h, if_true]
    cases realloc a svc.rx_buf (if (svc.rx_len + len) * 2 < 512 then 512
      else (svc.rx_len + len) * 2) with
    | none => exact ⟨svc.rx_buf, svc.rx_len, svc.rx_cap, rfl⟩
    | some tmp => exact ⟨_, _, _, rfl⟩
  · simp only [h, if_false]
    exact ⟨_, _, _, rfl⟩

theorem handle_complete_message_frame (P : platform) (svc : nly_service_t) :
    (∃ b, (handle_complete_message P svc).1 = { svc with rx_buf := b }) ∧
    writes_of (handle_complete_message P svc).2 = [] := by
  have hw : ∀ (slot : Option Nat) (e : Nat → effect),
      (∀ fn, writes_of [e fn] = []) → writes_of (call_slot slot e) = [] := by
    intro slot e he
    cases slot with
    | none => rfl
    | some fn => exact he fn
  unfold handle_complete_message
  dsimp only
  repeat' split
  all_goals first
    | exact ⟨⟨svc.rx_buf, rfl⟩, rfl⟩
    | exact ⟨⟨_, rfl⟩, rfl⟩
    | exact ⟨⟨svc.rx_buf, rfl⟩, hw _ _ (fun _ => rfl)⟩
    | exact ⟨⟨_, rfl⟩, hw _ _ (fun _ => rfl)⟩

theorem writes_of_append (l1 l2 : List effect) :
    writes_of (l1 ++ l2) = writes_of l1 ++ writes_of l2 := by
  induction l1 with
  | nil => rfl
  | cons e rest ih =>
    cases e <;> simp [writes_of, ih]

theorem writes_of_call_slot (slot : Option Nat) (e : Nat → effect)
    (he : ∀ fn, writes_of [e fn] = []) : writes_of (call_slot slot e) = [] := by
  cases slot with
  | none => rfl
  | some fn => exact he fn

theorem memcpy_payload_take (g : Nat → uint8_t) (pre n : Nat) (src : List uint8_t) :
    ((memcpy ((List.range (pre + n)).map g) pre src n).drop pre).take n = src.take n := by
  unfold memcpy
  have h1 : (((List.range (pre + n)).map g).take pre).length = pre := by simp
  rw [List.append_assoc, List.drop_left' h1, List.drop_of_length_le (by simp),
    List.append_nil]
  exact List.take_of_length_le (by rw [List.length_take]; omega)
/-- A receive event changes the receive buffer fields only, and writes nothing. -/
theorem receive_frame (P : platform) (svc : nly_service_t) (wsi : Nat)
    (inp : Option (List uint8_t)) (len : Nat) (frag : lws_fragment) (a : alloc_t) :
    ∃ b l c bin, (nly_lws_callback P svc wsi lws_callback_reasons.LWS_CALLBACK_CLIENT_RECEIVE
        inp len frag a).2.1
        = { svc with rx_buf := b, rx_len := l, rx_cap := c, rx_is_binary := bin } ∧
      writes_of (nly_lws_callback P svc wsi lws_callback_reasons.LWS_CALLBACK_CLIENT_RECEIVE
        inp len frag a).2.2 = [] := by
  have h1 : ∃ bin, (if frag.is_binary = true then { svc with rx_is_binary := 1 }
      else if frag.is_first = true then { svc with rx_is_binary := 0 } else svc)
      = { svc with rx_is_binary := bin } := by
    split
    · exact ⟨1, rfl⟩
    · split
      · exact ⟨0, rfl⟩
      · exact ⟨svc.rx_is_binary, rfl⟩
  obtain ⟨bin, hbin⟩ := h1
  unfold nly_lws_callback
  simp only [hbin]
  obtain ⟨b, l, c, hr⟩ := rx_append_frame { svc with rx_is_binary := bin } a (inp.getD []) len
  obtain ⟨⟨b2, hh⟩, hw⟩ := handle_complete_message_frame P
    (rx_append { svc with rx_is_binary := bin } a (inp.getD []) len).2
  split
  · refine ⟨b2, 0, c, bin, ?_, hw⟩
    show rx_reset (handle_complete_message P _).1 = _
    rw [hh, hr]
    rfl
  · exact ⟨b, l, c, bin, hr, rfl⟩

/-- No step changes the registration payload or its length. -/
theorem do_step_reg (P : platform) (svc : nly_service_t) (s : step) :
    (do_step P svc s).1.reg_json = svc.reg_json ∧
    (do_step P svc s).1.reg_json_len = svc.reg_json_len := by
  cases s with
  | callback wsi reason inp len frag a =>
    cases reason with
    | LWS_CALLBACK_CLIENT_ESTABLISHED => exact ⟨rfl, rfl⟩
    | LWS_CALLBACK_CLIENT_WRITEABLE =>
      simp only [do_step, nly_lws_callback]
      split
      · split <;> exact ⟨rfl, rfl⟩
      · split <;> exact ⟨rfl, rfl⟩
    | LWS_CALLBACK_CLIENT_RECEIVE =>
      obtain ⟨b, l, c, bin, hr, _⟩ := receive_frame P svc wsi inp len frag a
      simp only [do_step, hr]
      exact ⟨trivial, trivial⟩
    | LWS_CALLBACK_CLIENT_CONNECTION_ERROR => exact ⟨rfl, rfl⟩
    | LWS_CALLBACK_CLOSED => exact ⟨rfl, rfl⟩
    | other => exact ⟨rfl, rfl⟩
  | send parameter value a node_ok =>
    simp only [do_step, nly_service_send]
    split
    · exact ⟨rfl, rfl⟩
    · split <;> exact ⟨rfl, rfl⟩
  | start thread_ok =>
    simp only [do_step, nly_service_start]
    split <;> exact ⟨rfl, rfl⟩
  | connect ctx w =>
    simp only [do_step, nly_thread_func_connect]
    cases ctx with
    | none => exact ⟨rfl, rfl⟩
    | some c => cases w <;> exact ⟨rfl, rfl⟩
  | poll => exact ⟨rfl, rfl⟩
  | teardown => exact ⟨rfl, rfl⟩

theorem run_reg (P : platform) (steps : List step) :
    ∀ svc : nly_service_t, (run P svc steps).1.reg_json = svc.reg_json ∧
      (run P svc steps).1.reg_json_len = svc.reg_json_len := by
  induction steps with
  | nil => intro svc; exact ⟨rfl, rfl⟩
  | cons s rest ih =>
    intro svc
    rw [run_cons]
    obtain ⟨h1, h2⟩ := ih (do_step P svc s).1
    obtain ⟨h3, h4⟩ := do_step_reg P svc s
    exact ⟨h1.trans h3, h2.trans h4⟩
/-! ## Registration comes first -/

/-- A step taken in the register phase either stays in the register phase, writes nothing and
pops nothing (the queue is as before or has one more entry pushed), or it is a write
opportunity whose allocation succeeds: it writes the registration payload as one text frame,
leaves the queue alone and moves to the running phase. -/
theorem do_step_register (P : platform) (svc : nly_service_t) (s : step)
    (hph : svc.phase = nly_conn_phase.NLY_PHASE_REGISTER) :
    ((do_step P svc s).1.phase = nly_conn_phase.NLY_PHASE_REGISTER ∧
      writes_of (do_step P svc s).2 = [] ∧
      ((do_step P svc s).1.queue = svc.queue ∨
        ∃ frame len, (do_step P svc s).1.queue = nly_queue_push svc.queue true frame len)) ∨
    ((do_step P svc s).1.phase = nly_conn_phase.NLY_PHASE_RUNNING ∧
      (∃ wsi inp len frag g, s = step.callback wsi
        lws_callback_reasons.LWS_CALLBACK_CLIENT_WRITEABLE inp len frag (some g)) ∧
      writes_of (do_step P svc s).2
        = [(svc.reg_json.take svc.reg_json_len, lws_write_protocol.LWS_WRITE_TEXT)] ∧
      (do_step P svc s).1.queue = svc.queue) := by
  cases s with
  | callback wsi reason inp len frag a =>
    cases reason with
    | LWS_CALLBACK_CLIENT_ESTABLISHED => exact Or.inl ⟨rfl, rfl, Or.inl rfl⟩
    | LWS_CALLBACK_CLIENT_WRITEABLE =>
      cases a with
      | none =>
        left
        simp only [do_step, nly_lws_callback, if_pos hph, malloc, Option.map_none']
        exact ⟨hph, rfl, Or.inl trivial⟩
      | some g =>
        right
        simp only [do_step, nly_lws_callback, if_pos hph, malloc_some, memcpy_payload_take]
        refine ⟨trivial, ⟨wsi, inp, len, frag, g, rfl⟩, ?_, trivial⟩
        rw [writes_of_append, writes_of_append, writes_of_on_writable_if]
        cases svc.on_open <;> rfl
    | LWS_CALLBACK_CLIENT_RECEIVE =>
      obtain ⟨b, l, c, bin, hr, hw⟩ := receive_frame P svc wsi inp len frag a
      left
      simp only [do_step, hr, hw]
      exact ⟨hph, trivial, Or.inl trivial⟩
    | LWS_CALLBACK_CLIENT_CONNECTION_ERROR =>
      exact Or.inl ⟨hph, writes_of_call_slot _ _ (fun _ => rfl), Or.inl rfl⟩
    | LWS_CALLBACK_CLOSED =>
      exact Or.inl ⟨hph, writes_of_call_slot _ _ (fun _ => rfl), Or.inl rfl⟩
    | other => exact Or.inl ⟨hph, rfl, Or.inl rfl⟩
  | send parameter value a node_ok =>
    left
    simp only [do_step, nly_service_send]
    split
    · exact ⟨hph, rfl, Or.inl rfl⟩
    · split
      · exact ⟨hph, rfl, Or.inl rfl⟩
      · refine ⟨hph, ?_, ?_⟩
        · cases svc.ctx <;> rfl
        · cases node_ok
          · exact Or.inl rfl
          · exact Or.inr ⟨_, _, rfl⟩
  | start thread_ok =>
    left
    simp only [do_step, nly_service_start]
    split <;> exact ⟨hph, rfl, Or.inl rfl⟩
  | connect ctx w =>
    left
    simp only [do_step, nly_thread_func_connect]
    cases ctx with
    | none => exact ⟨hph, writes_of_call_slot _ _ (fun _ => rfl), Or.inl rfl⟩
    | some c =>
      cases w with
      | none => exact ⟨hph, writes_of_call_slot _ _ (fun _ => rfl), Or.inl rfl⟩
      | some w => exact ⟨hph, rfl, Or.inl rfl⟩
  | poll =>
    left
    refine ⟨hph, ?_, Or.inl rfl⟩
    simp only [do_step, nly_thread_func_poll]
    cases svc.wsi with
    | none => rfl
    | some w => exact writes_of_on_writable_if _ _
  | teardown => exact Or.inl ⟨hph, rfl, Or.inl rfl⟩
theorem run_flatten_cons (P : platform) (svc : nly_service_t) (s : step) (rest : List step) :
    writes_of (run P svc (s :: rest)).2.flatten
      = writes_of (do_step P svc s).2 ++ writes_of (run P (do_step P svc s).1 rest).2.flatten := by
  rw [run_cons]
  show writes_of ((do_step P svc s).2 ++ _) = _
  rw [writes_of_append]

/-- From a connector in the register phase, a run either never leaves the phase, writing
nothing and popping nothing, or it splits at the write opportunity that writes the
registration payload: nothing is written or popped before that step, and the step writes
exactly the payload as one text frame and moves to the running phase. -/
theorem run_from_register (P : platform) (mid : List step) :
    ∀ t : nly_service_t, t.phase = nly_conn_phase.NLY_PHASE_REGISTER →
      (writes_of (run P t mid).2.flatten = [] ∧
        (run P t mid).1.phase = nly_conn_phase.NLY_PHASE_REGISTER ∧
        ∃ pushes, (run P t mid).1.queue = push_all t.queue pushes) ∨
      (∃ mid1 s mid2, mid = mid1 ++ s :: mid2 ∧
        writes_of (run P t mid1).2.flatten = [] ∧
        (run P t mid1).1.phase = nly_conn_phase.NLY_PHASE_REGISTER ∧
        (∃ pushes, (run P t mid1).1.queue = push_all t.queue pushes) ∧
        (∃ wsi inp len frag g, s = step.callback wsi
          lws_callback_reasons.LWS_CALLBACK_CLIENT_WRITEABLE inp len frag (some g)) ∧
        writes_of (do_step P (run P t mid1).1 s).2
          = [(t.reg_json.take t.reg_json_len, lws_write_protocol.LWS_WRITE_TEXT)] ∧
        (do_step P (run P t mid1).1 s).1.phase = nly_conn_phase.NLY_PHASE_RUNNING ∧
        (do_step P (run P t mid1).1 s).1.queue = (run P t mid1).1.queue) := by
  induction mid with
  | nil =>
    intro t ht
    exact Or.inl ⟨rfl, ht, [], rfl⟩
  | cons s rest ih =>
    intro t ht
    rcases do_step_register P t s ht with ⟨h1, h2, h3⟩ | ⟨h1, h2, h3, h4⟩
    · have hq : ∃ p0 : List (List uint8_t × Nat), (do_step P t s).1.queue = push_all t.queue p0 := by
        rcases h3 with h3 | ⟨frame, len, h3⟩
        · exact ⟨[], h3⟩
        · exact ⟨[(frame, len)], h3⟩
      obtain ⟨p0, hp0⟩ := hq
      obtain ⟨hr1, hr2⟩ := do_step_reg P t s
      have hpush : ∀ (q : nly_queue_t) (pushes : List (List uint8_t × Nat)),
          q = push_all (do_step P t s).1.queue pushes → q = push_all t.queue (p0 ++ pushes) := by
        intro q pushes hq
        rw [hq, hp0]
        unfold push_all
        rw [List.foldl_append]
      rcases ih (do_step P t s).1 h1 with ⟨g1, g2, pushes, g3⟩ |
        ⟨mid1, s', mid2, e, g1, g2, ⟨pushes, g3⟩, g4, g5, g6, g7⟩
      · left
        refine ⟨?_, ?_, p0 ++ pushes, ?_⟩
        · rw [run_flatten_cons, h2, g1]; rfl
        · rw [run_cons]; exact g2
        · rw [run_cons]; exact hpush _ _ g3
      · right
        refine ⟨s :: mid1, s', mid2, by rw [e]; rfl, ?_, ?_, ⟨p0 ++ pushes, ?_⟩, g4, ?_, ?_, ?_⟩
        · rw [run_flatten_cons, h2, g1]; rfl
        · rw [run_cons]; exact g2
        · rw [run_cons]; exact hpush _ _ g3
        · rw [run_cons, g5, hr1, hr2]
        · rw [run_cons]; exact g6
        · rw [run_cons]; exact g7
    · right
      exact ⟨[], s, rest, rfl, rfl, ht, ⟨[], rfl⟩, h2, h3, h1, h4⟩
/-- C11 (registration comes first): take any connector `svc` and any steps (transport events
of every kind, send calls, thread stretches, allocations failing or not). (1) Right after an
established event the phase is Register. (2) A step that moves the phase from Register to
Running is a write opportunity, and it writes exactly one frame: the registration payload of
`svc`, as text, leaving the queue alone. (3) After an established event, whatever steps `mid`
follow, either nothing is written and nothing popped (the queue only gains pushed entries)
and the phase is still Register, or `mid` splits at a write opportunity before which nothing
is written or popped and which writes the registration payload of `svc`, byte for byte, as
the first frame of the connection. -/
theorem registration_first (P : platform) (svc : nly_service_t) (pre mid steps : List step)
    (s : step) (wsi : Nat) (inp : Option (List uint8_t)) (len : Nat) (frag : lws_fragment)
    (a : alloc_t) :
    (run P svc (pre ++ [step.callback wsi lws_callback_reasons.LWS_CALLBACK_CLIENT_ESTABLISHED
      inp len frag a])).1.phase = nly_conn_phase.NLY_PHASE_REGISTER ∧
    ((run P svc steps).1.phase = nly_conn_phase.NLY_PHASE_REGISTER →
      (do_step P (run P svc steps).1 s).1.phase = nly_conn_phase.NLY_PHASE_RUNNING →
      (∃ wsi1 inp1 len1 frag1 g, s = step.callback wsi1
        lws_callback_reasons.LWS_CALLBACK_CLIENT_WRITEABLE inp1 len1 frag1 (some g)) ∧
      writes_of (do_step P (run P svc steps).1 s).2
        = [(svc.reg_json.take svc.reg_json_len, lws_write_protocol.LWS_WRITE_TEXT)] ∧
      (do_step P (run P svc steps).1 s).1.queue = (run P svc steps).1.queue) ∧
    ((writes_of (run P (run P svc (pre ++ [step.callback wsi
          lws_callback_reasons.LWS_CALLBACK_CLIENT_ESTABLISHED inp len frag a])).1 mid).2.flatten
        = [] ∧
      (run P (run P svc (pre ++ [step.callback wsi
          lws_callback_reasons.LWS_CALLBACK_CLIENT_ESTABLISHED inp len frag a])).1 mid).1.phase
        = nly_conn_phase.NLY_PHASE_REGISTER ∧
      ∃ pushes, (run P (run P svc (pre ++ [step.callback wsi
          lws_callback_reasons.LWS_CALLBACK_CLIENT_ESTABLISHED inp len frag a])).1 mid).1.queue
        = push_all (run P svc (pre ++ [step.callback wsi
          lws_callback_reasons.LWS_CALLBACK_CLIENT_ESTABLISHED inp len frag a])).1.queue pushes) ∨
    (∃ mid1 w mid2, mid = mid1 ++ w :: mid2 ∧
      writes_of (run P (run P svc (pre ++ [step.callback wsi
          lws_callback_reasons.LWS_CALLBACK_CLIENT_ESTABLISHED inp len frag a])).1 mid1).2.flatten
        = [] ∧
      (run P (run P svc (pre ++ [step.callback wsi
          lws_callback_reasons.LWS_CALLBACK_CLIENT_ESTABLISHED inp len frag a])).1 mid1).1.phase
        = nly_conn_phase.NLY_PHASE_REGISTER ∧
      (∃ pushes, (run P (run P svc (pre ++ [step.callback wsi
          lws_callback_reasons.LWS_CALLBACK_CLIENT_ESTABLISHED inp len frag a])).1 mid1).1.queue
        = push_all (run P svc (pre ++ [step.callback wsi
          lws_callback_reasons.LWS_CALLBACK_CLIENT_ESTABLISHED inp len frag a])).1.queue
            pushes) ∧
      (∃ wsi1 inp1 len1 frag1 g, w = step.callback wsi1
        lws_callback_reasons.LWS_CALLBACK_CLIENT_WRITEABLE inp1 len1 frag1 (some g)) ∧
      writes_of (do_step P (run P (run P svc (pre ++ [step.callback wsi
          lws_callback_reasons.LWS_CALLBACK_CLIENT_ESTABLISHED inp len frag a])).1 mid1).1 w).2
        = [(svc.reg_json.take svc.reg_json_len, lws_write_protocol.LWS_WRITE_TEXT)] ∧
      (do_step P (run P (run P svc (pre ++ [step.callback wsi
          lws_callback_reasons.LWS_CALLBACK_CLIENT_ESTABLISHED inp len frag a])).1 mid1).1
        w).1.phase = nly_conn_phase.NLY_PHASE_RUNNING ∧
      (do_step P (run P (run P svc (pre ++ [step.callback wsi
          lws_callback_reasons.LWS_CALLBACK_CLIENT_ESTABLISHED inp len frag a])).1 mid1).1
        w).1.queue
        = (run P (run P svc (pre ++ [step.callback wsi
          lws_callback_reasons.LWS_CALLBACK_CLIENT_ESTABLISHED inp len frag a])).1
            mid1).1.queue)) := by
  have hest : (run P svc (pre ++ [step.callback wsi
      lws_callback_reasons.LWS_CALLBACK_CLIENT_ESTABLISHED inp len frag a])).1.phase
      = nly_conn_phase.NLY_PHASE_REGISTER := by
    rw [run_append]
    rfl
  refine ⟨hest, ?_, ?_⟩
  · intro h1 h2
    obtain ⟨r1, r2⟩ := run_reg P steps svc
    rcases do_step_register P (run P svc steps).1 s h1 with ⟨g1, _, _⟩ | ⟨_, g2, g3, g4⟩
    · rw [g1] at h2; cases h2
    · rw [r1, r2] at g3
      exact ⟨g2, g3, g4⟩
  · obtain ⟨r1, r2⟩ := run_reg P (pre ++ [step.callback wsi
      lws_callback_reasons.LWS_CALLBACK_CLIENT_ESTABLISHED inp len frag a]) svc
    have := run_from_register P mid _ hest
    rw [r1, r2] at this
    exact this
/-! ## Delivery in call order -/

theorem binary_writes_of_no_writes (effs : List effect) (h : writes_of effs = []) :
    binary_writes effs = [] := by
  unfold binary_writes
  rw [h]
  rfl

/-- What a step does to the queue and to the transport, in terms of payloads: the binary
frames it writes, followed by the payloads left in the queue, are the payloads that were in
the queue followed by the frame the step encodes. -/
theorem do_step_delivery (P : platform) (svc : nly_service_t) (s : step)
    (hwf : queue_wf svc.queue) :
    binary_writes (do_step P svc s).2
        ++ (queue_entries (do_step P svc s).1.queue).map (entry_payload P)
      = (queue_entries svc.queue).map (entry_payload P) ++ sent_frame P svc s := by
  have quiet : ∀ r : nly_service_t × List effect, r.1.queue = svc.queue → writes_of r.2 = [] →
      binary_writes r.2 ++ (queue_entries r.1.queue).map (entry_payload P)
        = (queue_entries svc.queue).map (entry_payload P) ++ [] := by
    intro r h1 h2
    rw [binary_writes_of_no_writes _ h2, h1, List.append_nil, List.nil_append]
  cases s with
  | callback wsi reason inp len frag a =>
    cases reason with
    | LWS_CALLBACK_CLIENT_ESTABLISHED => exact quiet _ rfl rfl
    | LWS_CALLBACK_CLIENT_WRITEABLE =>
      by_cases hph : svc.phase = nly_conn_phase.NLY_PHASE_REGISTER
      · cases a with
        | none =>
          apply quiet
          · simp only [do_step, nly_lws_callback, if_pos hph, malloc, Option.map_none']
          · simp only [do_step, nly_lws_callback, if_pos hph, malloc, Option.map_none']
            rfl
        | some g =>
          have hq : (do_step P svc (step.callback wsi
              lws_callback_reasons.LWS_CALLBACK_CLIENT_WRITEABLE inp len frag (some g))).1.queue
              = svc.queue := by
            simp only [do_step, nly_lws_callback, if_pos hph, malloc_some]
          have hw : binary_writes (do_step P svc (step.callback wsi
              lws_callback_reasons.LWS_CALLBACK_CLIENT_WRITEABLE inp len frag (some g))).2
              = [] := by
            simp only [do_step, nly_lws_callback, if_pos hph, malloc_some, binary_writes]
            rw [writes_of_append, writes_of_append, writes_of_on_writable_if]
            cases svc.on_open <;> rfl
          rw [hq, hw]
          simp [sent_frame]
      · have hrun : svc.phase = nly_conn_phase.NLY_PHASE_RUNNING := by
          cases hp : svc.phase
          · exact absurd hp hph
          · rfl
        cases he : queue_entries svc.queue with
        | nil =>
          simp only [do_step, callback_writeable_running_nil P svc wsi inp len frag a hrun hwf he,
            he]
          rfl
        | cons x xs =>
          obtain ⟨h1, _, h3⟩ :=
            callback_writeable_running_cons P svc wsi inp len frag a x xs hrun hwf he
          simp only [do_step, h1, h3, binary_writes]
          rw [writes_of_append, writes_of_on_writable_if]
          simp [writes_of, sent_frame, entry_payload]
    | LWS_CALLBACK_CLIENT_RECEIVE =>
      obtain ⟨b, l, c, bin, hr, hw⟩ := receive_frame P svc wsi inp len frag a
      apply quiet
      · simp only [do_step, hr]
      · simp only [do_step, hw]
    | LWS_CALLBACK_CLIENT_CONNECTION_ERROR =>
      exact quiet _ rfl (writes_of_call_slot _ _ (fun _ => rfl))
    | LWS_CALLBACK_CLOSED =>
      exact quiet _ rfl (writes_of_call_slot _ _ (fun _ => rfl))
    | other => exact quiet _ rfl rfl
  | send parameter value a node_ok =>
    by_cases hlen : strlen parameter ≤ 255
    · cases a with
      | none =>
        have hs : nly_service_send P svc parameter value none node_ok = (-1, svc, []) := by
          simp only [nly_service_send, malloc, Option.map_none']
        simp only [do_step, sent_frame, hs]
        simp [binary_writes, writes_of]
      | some g =>
        have hs := nly_service_send_ok P svc parameter value g node_ok hlen
        have he := nly_frame_encode_ok P.host (List.replicate (1 + strlen parameter + 8) 0)
          (1 + strlen parameter + 8) parameter value hlen (Nat.le_refl _) (by simp)
        rw [List.drop_of_length_le (by simp), List.append_nil] at he
        obtain ⟨_, h2, h3⟩ := queue_push_entries svc.queue
          ((List.range P.LWS_PRE).map g ++ Fin.ofNat (strlen parameter) ::
            (c_string parameter ++ store64 P.host (__builtin_bswap64 value)))
          (1 + strlen parameter + 8) hwf
        have hb : binary_writes (nly_service_send P svc parameter value (some g) node_ok).2.2
            = [] := by
          rw [hs]
          cases svc.ctx <;> rfl
        rw [hs] at hb
        simp only [do_step, sent_frame, hs, hb, List.nil_append]
        cases node_ok with
        | false =>
          rw [h3]
          simp
        | true =>
          rw [h2, he]
          have hpl : entry_payload P ((List.range P.LWS_PRE).map g ++
              Fin.ofNat (strlen parameter) ::
                (c_string parameter ++ store64 P.host (__builtin_bswap64 value)),
              1 + strlen parameter + 8)
              = Fin.ofNat (strlen parameter) ::
                (c_string parameter ++ store64 P.host (__builtin_bswap64 value)) := by
            unfold entry_payload
            have h1 : ((List.range P.LWS_PRE).map g).length = P.LWS_PRE := by simp
            rw [List.drop_left' h1]
            apply List.take_of_length_le
            simp only [List.length_cons, List.length_append, c_string_length, store64_length]
            omega
          simp [hpl]
    · have hs := nly_service_send_too_long P svc parameter value a node_ok (by omega)
      simp only [do_step, sent_frame, hs]
      simp [binary_writes, writes_of]
  | start thread_ok =>
    apply quiet
    · simp only [do_step, nly_service_start]
      split <;> rfl
    · rfl
  | connect ctx w =>
    cases ctx with
    | none => exact quiet _ rfl (writes_of_call_slot _ _ (fun _ => rfl))
    | some c =>
      cases w with
      | none => exact quiet _ rfl (writes_of_call_slot _ _ (fun _ => rfl))
      | some _ => exact quiet _ rfl rfl
  | poll =>
    apply quiet
    · rfl
    · simp only [do_step, nly_thread_func_poll]
      split
      · exact writes_of_on_writable_if _ _
      · rfl
  | teardown => exact quiet _ rfl rfl

theorem binary_writes_append (l1 l2 : List effect) :
    binary_writes (l1 ++ l2) = binary_writes l1 ++ binary_writes l2 := by
  unfold binary_writes
  rw [writes_of_append, List.filterMap_append]

/-- The invariant of delivery along a run: the binary frames written, followed by the
payloads still queued, are the payloads queued at the start followed by the frames of the
successful sends. -/
theorem run_delivery (P : platform) (steps : List step) :
    ∀ svc : nly_service_t, queue_wf svc.queue →
      binary_writes (run P svc steps).2.flatten
          ++ (queue_entries (run P svc steps).1.queue).map (entry_payload P)
        = (queue_entries svc.queue).map (entry_payload P) ++ sent_frames P svc steps := by
  induction steps with
  | nil =>
    intro svc _
    simp [run, sent_frames, binary_writes, writes_of]
  | cons s rest ih =>
    intro svc hwf
    have h1 := do_step_delivery P svc s hwf
    have h2 := ih (do_step P svc s).1 (do_step_queue_wf P svc s hwf)
    rw [run_cons]
    show binary_writes ((do_step P svc s).2 ++ (run P (do_step P svc s).1 rest).2.flatten)
        ++ (queue_entries (run P (do_step P svc s).1 rest).1.queue).map (entry_payload P)
      = (queue_entries svc.queue).map (entry_payload P)
        ++ (sent_frame P svc s ++ sent_frames P (do_step P svc s).1 rest)
    rw [binary_writes_append, List.append_assoc, h2, ← List.append_assoc, h1,
      List.append_assoc]

/-- Delivery of the queued frames in call order: take a connector whose queue is well formed
and any steps (send calls, transport events of every kind, thread stretches, allocations
failing or not). (1) The binary frames written during the run, followed by the payloads still
queued at the end, are the payloads queued at the start followed by the frames that the send
calls put in the queue (those that return 0 with the queue node allocated), in call order; so
(2) from an empty queue the binary frames written are, in order, an initial segment of the
frames queued: none of these is written twice, skipped or reordered. (3) In the state reached, a
write opportunity in the Running phase does nothing when the queue is empty, and otherwise
removes the head entry only and writes exactly its payload as one binary frame. (4) Error,
closed and established events leave the queue unchanged. -/
theorem delivery_in_call_order (P : platform) (svc : nly_service_t) (steps : List step)
    (wsi : Nat) (inp : Option (List uint8_t)) (len : Nat) (frag : lws_fragment) (a : alloc_t)
    (hwf : queue_wf svc.queue) :
    binary_writes (run P svc steps).2.flatten
        ++ (queue_entries (run P svc steps).1.queue).map (entry_payload P)
      = (queue_entries svc.queue).map (entry_payload P) ++ sent_frames P svc steps ∧
    (queue_entries svc.queue = [] →
      ∃ rest, sent_frames P svc steps = binary_writes (run P svc steps).2.flatten ++ rest) ∧
    ((run P svc steps).1.phase = nly_conn_phase.NLY_PHASE_RUNNING →
      (queue_entries (run P svc steps).1.queue = [] →
        do_step P (run P svc steps).1 (step.callback wsi
          lws_callback_reasons.LWS_CALLBACK_CLIENT_WRITEABLE inp len frag a)
          = ((run P svc steps).1, [])) ∧
      (∀ x xs, queue_entries (run P svc steps).1.queue = x :: xs →
        writes_of (do_step P (run P svc steps).1 (step.callback wsi
          lws_callback_reasons.LWS_CALLBACK_CLIENT_WRITEABLE inp len frag a)).2
          = [(entry_payload P x, lws_write_protocol.LWS_WRITE_BINARY)] ∧
        queue_entries (do_step P (run P svc steps).1 (step.callback wsi
          lws_callback_reasons.LWS_CALLBACK_CLIENT_WRITEABLE inp len frag a)).1.queue = xs)) ∧
    (do_step P (run P svc steps).1 (step.callback wsi
      lws_callback_reasons.LWS_CALLBACK_CLIENT_CONNECTION_ERROR inp len frag a)).1.queue
      = (run P svc steps).1.queue ∧
    (do_step P (run P svc steps).1 (step.callback wsi
      lws_callback_reasons.LWS_CALLBACK_CLOSED inp len frag a)).1.queue
      = (run P svc steps).1.queue ∧
    (do_step P (run P svc steps).1 (step.callback wsi
      lws_callback_reasons.LWS_CALLBACK_CLIENT_ESTABLISHED inp len frag a)).1.queue
      = (run P svc steps).1.queue := by
  have hinv := run_delivery P steps svc hwf
  have hwf2 := run_queue_wf P steps svc hwf
  refine ⟨hinv, ?_, ?_, rfl, rfl, rfl⟩
  · intro h0
    rw [h0, List.map_nil, List.nil_append] at hinv
    exact ⟨_, hinv.symm⟩
  · intro hph
    refine ⟨?_, ?_⟩
    · intro he
      simp only [do_step,
        callback_writeable_running_nil P _ wsi inp len frag a hph hwf2 he]
    · intro x xs he
      obtain ⟨h1, _, h3⟩ :=
        callback_writeable_running_cons P _ wsi inp len frag a x xs hph hwf2 he
      simp only [do_step, h1, h3]
      rw [writes_of_append, writes_of_on_writable_if]
      exact ⟨rfl, trivial⟩

/-- An instance of the delivery of queued frames: from the connector as `calloc` leaves it,
two sends ("x", 42.0) and ("x", 0), the established event and three write opportunities. -/
theorem delivery_in_call_order_witness :
    ∃ rest, sent_frames sample_platform nly_service_calloc
        [step.send [120] 4631107791820423168 (some (fun _ => 0)) true,
          step.send [120] 0 (some (fun _ => 0)) true,
          step.callback 7 lws_callback_reasons.LWS_CALLBACK_CLIENT_ESTABLISHED none 0
            ⟨false, false, false⟩ none,
          step.callback 7 lws_callback_reasons.LWS_CALLBACK_CLIENT_WRITEABLE none 0
            ⟨false, false, false⟩ (some (fun _ => 0)),
          step.callback 7 lws_callback_reasons.LWS_CALLBACK_CLIENT_WRITEABLE none 0
            ⟨false, false, false⟩ none,
          step.callback 7 lws_callback_reasons.LWS_CALLBACK_CLIENT_WRITEABLE none 0
            ⟨false, false, false⟩ none]
      = binary_writes (run sample_platform nly_service_calloc
        [step.send [120] 4631107791820423168 (some (fun _ => 0)) true,
          step.send [120] 0 (some (fun _ => 0)) true,
          step.callback 7 lws_callback_reasons.LWS_CALLBACK_CLIENT_ESTABLISHED none 0
            ⟨false, false, false⟩ none,
          step.callback 7 lws_callback_reasons.LWS_CALLBACK_CLIENT_WRITEABLE none 0
            ⟨false, false, false⟩ (some (fun _ => 0)),
          step.callback 7 lws_callback_reasons.LWS_CALLBACK_CLIENT_WRITEABLE none 0
            ⟨false, false, false⟩ none,
          step.callback 7 lws_callback_reasons.LWS_CALLBACK_CLIENT_WRITEABLE none 0
            ⟨false, false, false⟩ none]).2.flatten ++ rest :=
  (delivery_in_call_order sample_platform nly_service_calloc _ 7 none 0 ⟨false, false, false⟩
    none (by decide)).2.1 rfl

/-! ## A send whose queue node cannot be allocated -/

/-- C18, evaluated on the code: a send whose frame is allocated and whose queue node is not
returns 0 like a send that queues its frame, and leaves the queue as it was: the frame is
freed and never written. Three sends "a", "b", "c" of the value 42.0 all return 0, the node
allocation of the second one failing; after the established event and the registration, the
write opportunities write the frames of "a" and "c" and then nothing: the frame of "b" is
skipped, and the frames written are not an initial segment of the frames of the sends that
returned 0. -/
theorem send_dropped_without_node :
    (∀ (P : platform) (svc : nly_service_t) (parameter : List uint8_t) (value : uint64_t)
        (g : Nat → uint8_t), strlen parameter ≤ 255 →
      (nly_service_send P svc parameter value (some g) false).1 = 0 ∧
      (nly_service_send P svc parameter value (some g) false).2.1 = svc) ∧
    accepted_frames sample_platform nly_service_calloc
      [step.send [97] 4631107791820423168 (some (fun _ => 0)) true,
       step.send [98] 4631107791820423168 (some (fun _ => 0)) false,
       step.send [99] 4631107791820423168 (some (fun _ => 0)) true,
       step.callback 7 lws_callback_reasons.LWS_CALLBACK_CLIENT_ESTABLISHED none 0
         ⟨false, false, false⟩ none,
       step.callback 7 lws_callback_reasons.LWS_CALLBACK_CLIENT_WRITEABLE none 0
         ⟨false, false, false⟩ (some (fun _ => 0)),
       step.callback 7 lws_callback_reasons.LWS_CALLBACK_CLIENT_WRITEABLE none 0
         ⟨false, false, false⟩ none,
       step.callback 7 lws_callback_reasons.LWS_CALLBACK_CLIENT_WRITEABLE none 0
         ⟨false, false, false⟩ none,
       step.callback 7 lws_callback_reasons.LWS_CALLBACK_CLIENT_WRITEABLE none 0
         ⟨false, false, false⟩ none]
      = [[1, 97, 64, 69, 0, 0, 0, 0, 0, 0], [1, 98, 64, 69, 0, 0, 0, 0, 0, 0],
         [1, 99, 64, 69, 0, 0, 0, 0, 0, 0]] ∧
    binary_writes (run sample_platform nly_service_calloc
      [step.send [97] 4631107791820423168 (some (fun _ => 0)) true,
       step.send [98] 4631107791820423168 (some (fun _ => 0)) false,
       step.send [99] 4631107791820423168 (some (fun _ => 0)) true,
       step.callback 7 lws_callback_reasons.LWS_CALLBACK_CLIENT_ESTABLISHED none 0
         ⟨false, false, false⟩ none,
       step.callback 7 lws_callback_reasons.LWS_CALLBACK_CLIENT_WRITEABLE none 0
         ⟨false, false, false⟩ (some (fun _ => 0)),
       step.callback 7 lws_callback_reasons.LWS_CALLBACK_CLIENT_WRITEABLE none 0
         ⟨false, false, false⟩ none,
       step.callback 7 lws_callback_reasons.LWS_CALLBACK_CLIENT_WRITEABLE none 0
         ⟨false, false, false⟩ none,
       step.callback 7 lws_callback_reasons.LWS_CALLBACK_CLIENT_WRITEABLE none 0
         ⟨false, false, false⟩ none]).2.flatten
      = [[1, 97, 64, 69, 0, 0, 0, 0, 0, 0], [1, 99, 64, 69, 0, 0, 0, 0, 0, 0]] ∧
    queue_entries (run sample_platform nly_service_calloc
      [step.send [97] 4631107791820423168 (some (fun _ => 0)) true,
       step.send [98] 4631107791820423168 (some (fun _ => 0)) false,
       step.send [99] 4631107791820423168 (some (fun _ => 0)) true,
       step.callback 7 lws_callback_reasons.LWS_CALLBACK_CLIENT_ESTABLISHED none 0
         ⟨false, false, false⟩ none,
       step.callback 7 lws_callback_reasons.LWS_CALLBACK_CLIENT_WRITEABLE none 0
         ⟨false, false, false⟩ (some (fun _ => 0)),
       step.callback 7 lws_callback_reasons.LWS_CALLBACK_CLIENT_WRITEABLE none 0
         ⟨false, false, false⟩ none,
       step.callback 7 lws_callback_reasons.LWS_CALLBACK_CLIENT_WRITEABLE none 0
         ⟨false, false, false⟩ none,
       step.callback 7 lws_callback_reasons.LWS_CALLBACK_CLIENT_WRITEABLE none 0
         ⟨false, false, false⟩ none]).1.queue = [] ∧
    ¬ ∃ rest : List (List uint8_t),
      [[1, 97, 64, 69, 0, 0, 0, 0, 0, 0], [1, 98, 64, 69, 0, 0, 0, 0, 0, 0],
         [1, 99, 64, 69, 0, 0, 0, 0, 0, 0]]
        = [[1, 97, 64, 69, 0, 0, 0, 0, 0, 0], [1, 99, 64, 69, 0, 0, 0, 0, 0, 0]] ++ rest := by
  refine ⟨?_, ?_, ?_, ?_, ?_⟩
  · intro P svc parameter value g hlen
    rw [nly_service_send_ok P svc parameter value g false hlen]
    exact ⟨rfl, rfl⟩
  · rfl
  · rfl
  · rfl
  · rintro ⟨rest, h⟩
    have h2 := (List.cons.inj (List.cons.inj h).2).1
    have h3 := (List.cons.inj (List.cons.inj h2).2).1
    revert h3
    decide

/-! ## Address and path of a new connector -/

theorem snprintf_exact (s : List uint8_t) (L : Nat) (hL : L = s.length + 1)
    (hs : ∀ c ∈ s, c ≠ 0) : c_string (snprintf (List.replicate L 0) 0 L s).1 = s := by
  have h0 : ¬ L = 0 := by omega
  have hmin : min s.length (L - 1) = s.length := by omega
  unfold snprintf memcpy
  rw [if_neg h0]
  simp only [hmin, List.take_zero, List.nil_append, List.take_length]
  rw [List.take_of_length_le (by simp), List.append_assoc]
  exact c_string_append_nul s _ hs

theorem create_path (name : List uint8_t) :
    c_string (snprintf (List.replicate (1 + strlen name + (str "/autoconfig").length + 1) 0) 0
      (1 + strlen name + (str "/autoconfig").length + 1)
      (str "/" ++ c_string name ++ str "/autoconfig")).1
      = str "/" ++ c_string name ++ str "/autoconfig" := by
  apply snprintf_exact
  · have h1 : (str "/").length = 1 := rfl
    simp only [List.length_append, c_string_length, h1]
  · intro c hc
    rw [List.mem_append, List.mem_append] at hc
    rcases hc with (hc | hc) | hc
    · have : c = 47 := by simpa [str] using hc
      rw [this]; exact fun h => by cases h
    · exact c_string_no_nul name c hc
    · intro h
      rw [h] at hc
      revert hc
      decide

theorem strrchr_none (s : List uint8_t) (c : uint8_t) (h : c ∉ c_string s) :
    strrchr s c = none := by
  unfold strrchr
  have hi : (c_string s).reverse.indexOf c = (c_string s).length := by
    rw [← List.length_reverse]
    exact List.indexOf_eq_length.mpr (by simpa using h)
  simp only [hi, lt_self_iff_false, if_false]

theorem strrchr_last (h t : List uint8_t) (c : uint8_t) (hh : ∀ x ∈ h, x ≠ 0)
    (hc : c ≠ 0) (ht : ∀ x ∈ t, x ≠ 0 ∧ x ≠ c) :
    c_string (h ++ c :: t) = h ++ c :: t ∧ strrchr (h ++ c :: t) c = some h.length := by
  have hcs : c_string (h ++ c :: t) = h ++ c :: t := by
    apply c_string_of_no_nul
    intro x hx
    rw [List.mem_append, List.mem_cons] at hx
    rcases hx with hx | hx | hx
    · exact hh x hx
    · rw [hx]; exact hc
    · exact (ht x hx).1
  refine ⟨hcs, ?_⟩
  unfold strrchr
  simp only [hcs]
  have hi : (h ++ c :: t).reverse.indexOf c = t.length := by
    rw [List.reverse_append, List.reverse_cons, List.append_assoc]
    have hn : c ∉ t.reverse := by
      intro hm
      exact (ht c (List.mem_reverse.mp hm)).2 rfl
    rw [List.indexOf_append_of_not_mem hn]
    simp
  rw [hi, if_pos (by simp only [List.length_append, List.length_cons]; omega)]
  congr 1
  simp only [List.length_append, List.length_cons]
  omega

theorem foldl_decimal (ds : List Nat) :
    ∀ acc : Int, ds.foldl (fun (acc : Int) (d : Nat) => acc * 10 + (d : Int)) acc
      = acc * 10 ^ ds.length + ((Nat.ofDigits 10 ds.reverse : Nat) : Int) := by
  induction ds with
  | nil => intro acc; simp
  | cons d rest ih =>
    intro acc
    rw [List.foldl_cons, ih, List.reverse_cons, Nat.ofDigits_append, List.length_reverse,
      List.length_cons, Nat.ofDigits_singleton]
    push_cast
    ring

/-- The C `strtol` on a string of decimal digits: the number they write, or `LONG_MAX` when
the number is larger. -/
theorem strtol_digits (ds : List Nat) (hd : ∀ d ∈ ds, d < 10) :
    strtol (ds.map (fun d => (Fin.ofNat (48 + d) : uint8_t)))
      = if 9223372036854775807 < ((Nat.ofDigits 10 ds.reverse : Nat) : Int)
        then 9223372036854775807 else ((Nat.ofDigits 10 ds.reverse : Nat) : Int) := by
  have hval : ∀ d, d < 10 → ((Fin.ofNat (48 + d) : uint8_t)).val = 48 + d := by
    intro d h
    show (48 + d) % 256 = 48 + d
    omega
  have hnn : ∀ c ∈ ds.map (fun d => (Fin.ofNat (48 + d) : uint8_t)), c ≠ 0 := by
    intro c hc
    obtain ⟨d, hdm, rfl⟩ := List.mem_map.mp hc
    intro h0
    have := hval d (hd d hdm)
    have h00 : ((0 : uint8_t)).val = 0 := rfl
    rw [h0, h00] at this
    omega
  have hdig : ∀ c ∈ ds.map (fun d => (Fin.ofNat (48 + d) : uint8_t)), isdigit c = true := by
    intro c hc
    obtain ⟨d, hdm, rfl⟩ := List.mem_map.mp hc
    have h1 := hval d (hd d hdm)
    have h2 := hd d hdm
    simp only [isdigit, h1, Bool.and_eq_true, decide_eq_true_eq]
    omega
  have hnonneg : ¬ ((Nat.ofDigits 10 ds.reverse : Nat) : Int) < -9223372036854775808 := by
    omega
  unfold strtol
  simp only [c_string_of_no_nul _ hnn]
  cases ds with
  | nil => rfl
  | cons d rest =>
    have h1 := hval d (hd d (List.mem_cons_self _ _))
    have h2 := hd d (List.mem_cons_self _ _)
    have hsp : isspace (Fin.ofNat (48 + d) : uint8_t) = false := by
      simp only [isspace, h1, Bool.or_eq_false_iff, Bool.and_eq_false_iff, decide_eq_false_iff_not]
      omega
    have h45 : ¬ (Fin.ofNat (48 + d) : uint8_t) = 45 := by
      intro h
      have h00 : ((45 : uint8_t)).val = 45 := rfl
      rw [h, h00] at h1
      omega
    have h43 : ¬ (Fin.ofNat (48 + d) : uint8_t) = 43 := by
      intro h
      have h00 : ((43 : uint8_t)).val = 43 := rfl
      rw [h, h00] at h1
      omega
    have htw : (List.map (fun d => (Fin.ofNat (48 + d) : uint8_t)) (d :: rest)).takeWhile isdigit
        = List.map (fun d => (Fin.ofNat (48 + d) : uint8_t)) (d :: rest) :=
      List.takeWhile_eq_self_iff.mpr hdig
    have hdw : (List.map (fun d => (Fin.ofNat (48 + d) : uint8_t)) (d :: rest)).dropWhile isspace
        = List.map (fun d => (Fin.ofNat (48 + d) : uint8_t)) (d :: rest) := by
      rw [List.map_cons, List.dropWhile_cons, hsp]
      rfl
    simp only [hdw]
    have hhead : (List.map (fun d => (Fin.ofNat (48 + d) : uint8_t)) (d :: rest)).head?
        = some (Fin.ofNat (48 + d)) := rfl
    simp only [hhead, Option.some.injEq, h45, h43, or_self, if_false, htw]
    rw [List.foldl_map]
    have hf : List.foldl (fun (x : Int) (y : Nat) =>
        x * 10 + (((Fin.ofNat (48 + y) : uint8_t).val : Int) - 48)) 0 (d :: rest)
        = List.foldl (fun (acc : Int) (d : Nat) => acc * 10 + (d : Int)) 0 (d :: rest) := by
      apply List.foldl_ext
      intro acc x hx
      rw [hval x (hd x hx)]
      push_cast
      ring
    rw [hf, foldl_decimal]
    simp only [zero_mul, zero_add]
    rw [if_neg hnonneg]

/-- The C `atoi` on a string of decimal digits: the number they write when it fits an `int`,
its low 32 bits in two's complement when it fits a `long`. -/
theorem atoi_digits (ds : List Nat) (hd : ∀ d ∈ ds, d < 10) :
    (Nat.ofDigits 10 ds.reverse < 9223372036854775808 →
      atoi (ds.map (fun d => (Fin.ofNat (48 + d) : uint8_t)))
        = int_of_long ((Nat.ofDigits 10 ds.reverse : Nat) : Int)) ∧
    (Nat.ofDigits 10 ds.reverse < 2147483648 →
      atoi (ds.map (fun d => (Fin.ofNat (48 + d) : uint8_t)))
        = ((Nat.ofDigits 10 ds.reverse : Nat) : Int)) := by
  have hs := strtol_digits ds hd
  constructor
  · intro h
    unfold atoi
    rw [hs, if_neg (by omega)]
  · intro h
    unfold atoi int_of_long
    rw [hs, if_neg (by omega)]
    omega

/-- C16, counterexample: the address "localhost:" has a colon and no port after it. The new
connector has host "localhost" and port 0 (what `atoi` gives for the empty string), not the
default 6789. -/
theorem create_port_omitted_after_colon :
    (nly_service_create sample_platform true (some (fun _ => 0)) (str "x")
        (some (str "localhost:")) [] 0).map (fun svc => (svc.host, svc.port))
      = some (str "localhost", 0) ∧
    (nly_service_create sample_platform true (some (fun _ => 0)) (str "x")
        (some (str "localhost:")) [] 0).map (fun svc => svc.port) ≠ some 6789 := by
  constructor
  · rfl
  · decide

/-- C16, amended (address and path of a new connector): when the `calloc` of the connector
succeeds, (1) with no address the host is "localhost" and the port 6789; (2) with an address
that has no ':' the host is the whole address and the port 6789; (3) with an address
`h ++ ":" ++ t` where `t` has no ':' the host is `h`, the text before the last ':', and the
port is `atoi t`, a 32-bit `int`; (4) in particular when `t` is a string of decimal digits,
empty or not, whose number fits an `int`, the port is that number, which is 0 for the empty
string; (5) when the number fits a `long` and not an `int` the port is its low 32 bits in
two's complement, 1215752191 for 99999999999; and in every case the path is
"/" ++ name ++ "/autoconfig". -/
theorem create_address_and_path (P : platform) (a : alloc_t) (name : List uint8_t)
    (params : List nly_param_t) (param_count : Nat) :
    (∃ svc, nly_service_create P true a name none params param_count = some svc ∧
      svc.host = str "localhost" ∧ svc.port = 6789 ∧
      c_string svc.path = str "/" ++ c_string name ++ str "/autoconfig") ∧
    (∀ addr : List uint8_t, (58 : uint8_t) ∉ c_string addr →
      ∃ svc, nly_service_create P true a name (some addr) params param_count = some svc ∧
        svc.host = c_string addr ∧ svc.port = 6789 ∧
        c_string svc.path = str "/" ++ c_string name ++ str "/autoconfig") ∧
    (∀ h t : List uint8_t, (∀ c ∈ h, c ≠ 0) → (∀ c ∈ t, c ≠ 0 ∧ c ≠ 58) →
      ∃ svc, nly_service_create P true a name (some (h ++ 58 :: t)) params param_count
          = some svc ∧
        svc.host = h ∧ svc.port = atoi t ∧
        c_string svc.path = str "/" ++ c_string name ++ str "/autoconfig") ∧
    (∀ (h : List uint8_t) (ds : List Nat), (∀ c ∈ h, c ≠ 0) → (∀ d ∈ ds, d < 10) →
      Nat.ofDigits 10 ds.reverse < 2147483648 →
      ∃ svc, nly_service_create P true a name
          (some (h ++ 58 :: ds.map (fun d => (Fin.ofNat (48 + d) : uint8_t)))) params param_count
          = some svc ∧
        svc.host = h ∧ svc.port = ((Nat.ofDigits 10 ds.reverse : Nat) : Int) ∧
        c_string svc.path = str "/" ++ c_string name ++ str "/autoconfig") ∧
    (∀ h : List uint8_t, (∀ c ∈ h, c ≠ 0) →
      ∃ svc, nly_service_create P true a name (some (h ++ [58])) params param_count
          = some svc ∧ svc.host = h ∧ svc.port = 0) ∧
    (∀ (h : List uint8_t) (ds : List Nat), (∀ c ∈ h, c ≠ 0) → (∀ d ∈ ds, d < 10) →
      Nat.ofDigits 10 ds.reverse < 9223372036854775808 →
      ∃ svc, nly_service_create P true a name
          (some (h ++ 58 :: ds.map (fun d => (Fin.ofNat (48 + d) : uint8_t)))) params param_count
          = some svc ∧
        svc.host = h ∧
        svc.port = ((Nat.ofDigits 10 ds.reverse : Nat) : Int)
          - 4294967296 * ((((Nat.ofDigits 10 ds.reverse : Nat) : Int) + 2147483648)
            / 4294967296) ∧
        -2147483648 ≤ svc.port ∧ svc.port ≤ 2147483647) ∧
    (∀ (h : List uint8_t), (∀ c ∈ h, c ≠ 0) →
      ∃ svc, nly_service_create P true a name
          (some (h ++ 58 :: [9, 9, 9, 9, 9, 9, 9, 9, 9, 9, 9].map
            (fun d => (Fin.ofNat (48 + d) : uint8_t)))) params param_count = some svc ∧
        svc.host = h ∧ svc.port = 1215752191) := by
  have h58 : (58 : uint8_t) ≠ 0 := by decide
  have case3 : ∀ h t : List uint8_t, (∀ c ∈ h, c ≠ 0) → (∀ c ∈ t, c ≠ 0 ∧ c ≠ 58) →
      ∃ svc, nly_service_create P true a name (some (h ++ 58 :: t)) params param_count
          = some svc ∧
        svc.host = h ∧ svc.port = atoi t ∧
        c_string svc.path = str "/" ++ c_string name ++ str "/autoconfig" := by
    intro h t hh ht
    obtain ⟨h1, h2⟩ := strrchr_last h t 58 hh h58 ht
    refine ⟨_, rfl, ?_, ?_, create_path name⟩
    · show (match strrchr (h ++ 58 :: t) 58 with
        | some colon => ((c_string (h ++ 58 :: t)).take colon,
            atoi ((h ++ 58 :: t).drop (colon + 1)))
        | none => (c_string (h ++ 58 :: t), (6789 : Int))).1 = h
      rw [h2, h1]
      simp
    · show (match strrchr (h ++ 58 :: t) 58 with
        | some colon => ((c_string (h ++ 58 :: t)).take colon,
            atoi ((h ++ 58 :: t).drop (colon + 1)))
        | none => (c_string (h ++ 58 :: t), (6789 : Int))).2 = atoi t
      rw [h2]
      simp
  have hval : ∀ d, d < 10 → ((Fin.ofNat (48 + d) : uint8_t)).val = 48 + d := by
    intro d h
    show (48 + d) % 256 = 48 + d
    omega
  have hdigits : ∀ ds : List Nat, (∀ d ∈ ds, d < 10) →
      ∀ c ∈ ds.map (fun d => (Fin.ofNat (48 + d) : uint8_t)), c ≠ 0 ∧ c ≠ 58 := by
    intro ds hd c hc
    obtain ⟨d, hdm, rfl⟩ := List.mem_map.mp hc
    have h1 := hval d (hd d hdm)
    have h2 := hd d hdm
    have h00 : ((0 : uint8_t)).val = 0 := rfl
    have h58v : ((58 : uint8_t)).val = 58 := rfl
    constructor
    · intro h0
      rw [h0, h00] at h1
      omega
    · intro h0
      rw [h0, h58v] at h1
      omega
  have case5 : ∀ (h : List uint8_t) (ds : List Nat), (∀ c ∈ h, c ≠ 0) → (∀ d ∈ ds, d < 10) →
      Nat.ofDigits 10 ds.reverse < 9223372036854775808 →
      ∃ svc, nly_service_create P true a name
          (some (h ++ 58 :: ds.map (fun d => (Fin.ofNat (48 + d) : uint8_t)))) params param_count
          = some svc ∧
        svc.host = h ∧
        svc.port = ((Nat.ofDigits 10 ds.reverse : Nat) : Int)
          - 4294967296 * ((((Nat.ofDigits 10 ds.reverse : Nat) : Int) + 2147483648)
            / 4294967296) ∧
        -2147483648 ≤ svc.port ∧ svc.port ≤ 2147483647 := by
    intro h ds hh hd hfit
    obtain ⟨svc, e1, e2, e3, _⟩ := case3 h _ hh (hdigits ds hd)
    have e5 : svc.port = int_of_long ((Nat.ofDigits 10 ds.reverse : Nat) : Int) := by
      rw [e3, (atoi_digits ds hd).1 hfit]
    unfold int_of_long at e5
    refine ⟨svc, e1, e2, ?_, ?_, ?_⟩ <;> omega
  refine ⟨⟨_, rfl, rfl, rfl, create_path name⟩, ?_, case3, ?_, ?_, case5, ?_⟩
  · intro addr hno
    have hn := strrchr_none addr 58 hno
    refine ⟨_, rfl, ?_, ?_, create_path name⟩
    · show (match strrchr addr 58 with
        | some colon => ((c_string addr).take colon, atoi (addr.drop (colon + 1)))
        | none => (c_string addr, (6789 : Int))).1 = c_string addr
      rw [hn]
    · show (match strrchr addr 58 with
        | some colon => ((c_string addr).take colon, atoi (addr.drop (colon + 1)))
        | none => (c_string addr, (6789 : Int))).2 = (6789 : Int)
      rw [hn]
  · intro h ds hh hd hfit
    obtain ⟨svc, e1, e2, e3, e4⟩ := case3 h _ hh (hdigits ds hd)
    exact ⟨svc, e1, e2, by rw [e3, (atoi_digits ds hd).2 hfit], e4⟩
  · intro h hh
    obtain ⟨svc, e1, e2, e3, _⟩ := case3 h [] hh (fun c hc => by cases hc)
    exact ⟨svc, e1, e2, by rw [e3]; rfl⟩
  · intro h hh
    obtain ⟨svc, e1, e2, e3, _, _⟩ := case5 h [9, 9, 9, 9, 9, 9, 9, 9, 9, 9, 9] hh
      (by simp) (by norm_num [Nat.ofDigits])
    refine ⟨svc, e1, e2, ?_⟩
    rw [e3]
    norm_num [Nat.ofDigits]

/-- C16, an instance: the address "127.0.0.1:8080" gives the host "127.0.0.1" and the port
8080. -/
theorem create_address_and_path_witness :
    ∃ svc, nly_service_create sample_platform true none (str "x")
        (some (str "127.0.0.1" ++ 58 :: [8, 0, 8, 0].map
          (fun d => (Fin.ofNat (48 + d) : uint8_t)))) [] 0 = some svc ∧
      svc.host = str "127.0.0.1" ∧ svc.port = ((Nat.ofDigits 10 [0, 8, 0, 8] : Nat) : Int) ∧
      c_string svc.path = str "/" ++ c_string (str "x") ++ str "/autoconfig" :=
  (create_address_and_path sample_platform none (str "x") [] 0).2.2.2.1 (str "127.0.0.1")
    [8, 0, 8, 0] (by simp [str]; decide) (by simp) (by norm_num [Nat.ofDigits])
/-! ## Registration payload with a long name -/

set_option maxRecDepth 100000 in
/-- C17, evaluated on the code: one parameter whose name is 200 bytes long, with range
[0, 0] printed as "0". The buffer allocated has 64 + 1 * 128 = 192 bytes while the text has
260. After the loop the offset is 258, beyond the buffer, so the size `cap - off` handed to
the last `snprintf` wraps around and its destination `buf + off` is out of bounds. The length
reported is 260, and the C string in the buffer is only the first 191 bytes of the text. -/
theorem registration_long_name_overflows :
    (str "\x7b\"kind\":\"external\",\"parameters\":[" ++
      registration_entry sample_platform { name := List.replicate 200 97, min := 0, max := 0 }
      ++ str "]\x7d").length = 260 ∧
    (((([{ name := List.replicate 200 97, min := 0, max := 0 }] : List nly_param_t).take 1).enum.foldl
      (registration_step sample_platform (64 + 1 * 128))
      ((snprintf ((List.range (64 + 1 * 128)).map (fun _ => (0 : uint8_t))) 0 (64 + 1 * 128)
          (str "\x7b\"kind\":\"external\",\"parameters\":[")).1,
        (snprintf ((List.range (64 + 1 * 128)).map (fun _ => (0 : uint8_t))) 0 (64 + 1 * 128)
          (str "\x7b\"kind\":\"external\",\"parameters\":[")).2)).2 = 258) ∧
    size_sub (64 + 1 * 128) 258 = 18446744073709551550 ∧
    (build_registration_json sample_platform (some (fun _ => 0))
      [{ name := List.replicate 200 97, min := 0, max := 0 }] 1).map Prod.snd = some 260 ∧
    (build_registration_json sample_platform (some (fun _ => 0))
      [{ name := List.replicate 200 97, min := 0, max := 0 }] 1).map (fun r => c_string r.1)
      = some ((str "\x7b\"kind\":\"external\",\"parameters\":[" ++
        registration_entry sample_platform { name := List.replicate 200 97, min := 0, max := 0 }
        ++ str "]\x7d").take 191) := by
  refine ⟨?_, ?_, ?_, ?_, ?_⟩
  · rfl
  · rfl
  · rfl
  · rfl
  · rfl
/-! ## Text messages -/

theorem starts_with_append (needle post : List uint8_t) :
    starts_with (needle ++ post) needle = true := by
  induction needle with
  | nil => cases post <;> rfl
  | cons a u ih => simp [starts_with, ih]

theorem starts_with_split (needle : List uint8_t) :
    ∀ s : List uint8_t, starts_with s needle = true → ∃ post, s = needle ++ post := by
  induction needle with
  | nil => intro s _; exact ⟨s, rfl⟩
  | cons b u ih =>
    intro s h
    cases s with
    | nil => simp [starts_with] at h
    | cons a t =>
      simp only [starts_with, Bool.and_eq_true, beq_iff_eq] at h
      obtain ⟨post, hp⟩ := ih t h.2
      exact ⟨post, by rw [h.1, hp]; rfl⟩

/-- The search `strstr` finds nothing in a string in which the needle does not occur. -/
theorem strstr_from_none (needle : List uint8_t) :
    ∀ (s : List uint8_t) (off : Nat), (¬ ∃ pre post, s = pre ++ needle ++ post) →
      strstr_from needle s off = none := by
  intro s
  induction s with
  | nil =>
    intro off h
    have hne : ¬ needle = [] := fun e => h ⟨[], [], by rw [e]; rfl⟩
    simp [strstr_from, hne]
  | cons a t ih =>
    intro off h
    have h1 : ¬ starts_with (a :: t) needle = true := by
      intro hs
      obtain ⟨post, hp⟩ := starts_with_split needle _ hs
      exact h ⟨[], post, by rw [hp]; rfl⟩
    have h2 : ¬ ∃ pre post, t = pre ++ needle ++ post := by
      rintro ⟨pre, post, hp⟩
      exact h ⟨a :: pre, post, by rw [hp]; rfl⟩
    rw [strstr_from, if_neg h1]
    exact ih (off + 1) h2

/-- The search `strstr` steps over characters that differ from the first one of the needle. -/
theorem strstr_from_skip (c0 : uint8_t) (nd : List uint8_t) (pre : List uint8_t) :
    ∀ (s : List uint8_t) (off : Nat), (∀ x ∈ pre, x ≠ c0) →
      strstr_from (c0 :: nd) (pre ++ s) off = strstr_from (c0 :: nd) s (off + pre.length) := by
  induction pre with
  | nil => intro s off _; rfl
  | cons a u ih =>
    intro s off h
    have ha : (a == c0) = false := by
      simpa using h a (List.mem_cons_self _ _)
    have h1 : ¬ starts_with (a :: (u ++ s)) (c0 :: nd) = true := by
      simp [starts_with, ha]
    rw [List.cons_append, strstr_from, if_neg h1,
      ih s (off + 1) (fun x hx => h x (List.mem_cons_of_mem _ hx)), List.length_cons]
    congr 1
    omega

/-- A quoted word at the start of a string: `name"...` starts with `w"` exactly when `name`
is `w`, for `name` and `w` free of double quotes. -/
theorem starts_with_quoted (name : List uint8_t) :
    ∀ (w rest : List uint8_t), (34 : uint8_t) ∉ name → (34 : uint8_t) ∉ w →
      starts_with (name ++ 34 :: rest) (w ++ [34]) = decide (name = w) := by
  induction name with
  | nil =>
    intro w rest _ hw
    cases w with
    | nil => cases rest <;> simp [starts_with]
    | cons b w1 =>
      have hb : ¬ (34 : uint8_t) = b := fun e => hw (by rw [e]; exact List.mem_cons_self _ _)
      simp [starts_with, hb]
  | cons a u ih =>
    intro w rest hn hw
    have ha : ¬ a = 34 := fun e => hn (by rw [← e]; exact List.mem_cons_self _ _)
    cases w with
    | nil => simp [starts_with, ha]
    | cons b w1 =>
      have := ih w1 rest (fun m => hn (List.mem_cons_of_mem _ m))
        (fun m => hw (List.mem_cons_of_mem _ m))
      show ((a == b) && starts_with (u ++ 34 :: rest) (w1 ++ [34]))
        = decide (a :: u = b :: w1)
      rw [this]
      by_cases hab : a = b
      · by_cases huw : u = w1 <;> simp [hab, huw]
      · simp [hab]

theorem indexOf_after (name rest : List uint8_t) (c : uint8_t) (h : c ∉ name) :
    (name ++ c :: rest).indexOf c = name.length := by
  rw [List.indexOf_append_of_not_mem h]
  simp

/-- The C string that starts `k` bytes into a buffer holding a NUL-free text and then a NUL. -/
theorem c_string_drop (text tail : List uint8_t) (k : Nat) (hnn : ∀ c ∈ text, c ≠ 0)
    (hk : k ≤ text.length) : c_string ((text ++ 0 :: tail).drop k) = text.drop k := by
  rw [List.drop_append_of_le_length hk]
  exact c_string_append_nul _ _ (fun c hc => hnn c (List.mem_of_mem_drop hc))

theorem set_terminator (text tail : List uint8_t) (c : uint8_t) :
    (text ++ c :: tail).set text.length 0 = text ++ 0 :: tail := by
  induction text with
  | nil => rfl
  | cons a u ih => simp [List.set, ih]

/-- The text branch of `handle_complete_message` when every search succeeds: the callback
gets the bytes between the two quotes found after the "on" key and the number parsed after
the colon found after the "value" key. -/
theorem handle_text_found (P : platform) (svc : nly_service_t) (on_key val_key q1 nlen c1 : Nat)
    (hbin : svc.rx_is_binary = 0)
    (h1 : strstr (svc.rx_buf.set svc.rx_len 0) (str "\"on\"") = some on_key)
    (h2 : strstr (svc.rx_buf.set svc.rx_len 0) (str "\"value\"") = some val_key)
    (h3 : strchr ((svc.rx_buf.set svc.rx_len 0).drop (on_key + 4)) 34 = some q1)
    (h4 : strchr ((svc.rx_buf.set svc.rx_len 0).drop (on_key + 4 + q1 + 1)) 34 = some nlen)
    (h5 : nlen < 256)
    (h6 : strchr ((svc.rx_buf.set svc.rx_len 0).drop (val_key + 7)) 58 = some c1) :
    (handle_complete_message P svc).2 = call_slot svc.on_message (fun fn =>
      effect.on_message fn
        (c_string ((memcpy msg_uninit.name 0
          ((svc.rx_buf.set svc.rx_len 0).drop (on_key + 4 + q1 + 1)) nlen).set nlen 0))
        (P.strtod (c_string ((svc.rx_buf.set svc.rx_len 0).drop (val_key + 7 + c1 + 1))))
        svc.ud_message) := by
  have hb : ¬ svc.rx_is_binary ≠ 0 := fun h => h hbin
  unfold handle_complete_message
  rw [if_neg hb]
  simp only [h1, h2, h3, h4, h6, if_pos h5]

/-- The text branch of `handle_complete_message` when a search fails: no callback. -/
theorem handle_text_not_found (P : platform) (svc : nly_service_t)
    (hbin : svc.rx_is_binary = 0)
    (h : strstr (svc.rx_buf.set svc.rx_len 0) (str "\"on\"") = none ∨
      strstr (svc.rx_buf.set svc.rx_len 0) (str "\"value\"") = none) :
    (handle_complete_message P svc).2 = [] := by
  have hb : ¬ svc.rx_is_binary ≠ 0 := fun h => h hbin
  unfold handle_complete_message
  rw [if_neg hb]
  rcases h with h | h
  · simp only [h]
  · simp only [h]
    cases strstr (svc.rx_buf.set svc.rx_len 0) (str "\"on\"") <;> rfl

/-- The name copied into `msg.name`: `nlen` bytes and a NUL. -/
theorem name_copy (name rest : List uint8_t) (hname : ∀ x ∈ name, x ≠ 0)
    (hn : name.length < 256) :
    c_string ((memcpy msg_uninit.name 0 (name ++ rest) name.length).set name.length 0)
      = name := by
  unfold memcpy msg_uninit
  simp only [List.take_zero, List.nil_append, List.take_left', Nat.zero_add]
  have hd : (List.replicate 256 (0 : uint8_t)).drop name.length
      = 0 :: List.replicate (255 - name.length) 0 := by
    rw [List.drop_replicate]
    have : 256 - name.length = (255 - name.length) + 1 := by omega
    rw [this]
    rfl
  rw [hd, set_terminator]
  exact c_string_append_nul _ _ hname

theorem c_string_append_of_no_nul (pre s : List uint8_t) (h : ∀ x ∈ pre, x ≠ 0) :
    c_string (pre ++ s) = pre ++ c_string s := by
  unfold c_string
  induction pre with
  | nil => rfl
  | cons a u ih =>
    have ha : a ≠ 0 := h a (List.mem_cons_self _ _)
    simp only [List.cons_append, List.takeWhile_cons, ha, ne_eq, not_false_eq_true,
      decide_True, if_true]
    rw [ih (fun x hx => h x (List.mem_cons_of_mem _ hx))]

/-- The C `strchr` finds the first occurrence: after a NUL-free stretch without `c`. -/
theorem strchr_at (pre post : List uint8_t) (c : uint8_t) (h0 : ∀ x ∈ pre, x ≠ 0)
    (hc : c ≠ 0) (hpre : c ∉ pre) : strchr (pre ++ c :: post) c = some pre.length := by
  have hcs : c_string (pre ++ c :: post) = pre ++ c :: c_string post := by
    rw [c_string_append_of_no_nul _ _ h0]
    congr 1
    exact c_string_append_of_no_nul [c] post (fun x hx => by
      rw [List.mem_singleton] at hx; rw [hx]; exact hc)
  unfold strchr
  simp only [hcs, indexOf_after pre (c_string post) c hpre]
  rw [if_pos (by simp only [List.length_append, List.length_cons]; omega)]

theorem strstr_from_here (needle s : List uint8_t) (a : uint8_t) (off : Nat)
    (h : starts_with (a :: s) needle = true) : strstr_from needle (a :: s) off = some off := by
  rw [strstr_from, if_pos h]

theorem strstr_from_next (needle s : List uint8_t) (a : uint8_t) (off : Nat)
    (h : starts_with (a :: s) needle = false) :
    strstr_from needle (a :: s) off = strstr_from needle s (off + 1) := by
  rw [strstr_from, if_neg (by rw [h]; exact Bool.false_ne_true)]

/-- Where `strstr` finds the keys in a text of the form `\x7b"on":"<name>","value":...`. -/
theorem text_keys (name rest : List uint8_t) (hq : (34 : uint8_t) ∉ name) :
    strstr_from [34, 111, 110, 34]
      (123 :: 34 :: 111 :: 110 :: 34 :: 58 :: 34 ::
        (name ++ 34 :: 44 :: 34 :: 118 :: 97 :: 108 :: 117 :: 101 :: 34 :: 58 :: rest)) 0
      = some 1 ∧
    strstr_from [34, 118, 97, 108, 117, 101, 34]
      (123 :: 34 :: 111 :: 110 :: 34 :: 58 :: 34 ::
        (name ++ 34 :: 44 :: 34 :: 118 :: 97 :: 108 :: 117 :: 101 :: 34 :: 58 :: rest)) 0
      = some (if name = [118, 97, 108, 117, 101] then 6 else 9 + name.length) := by
  constructor
  · rw [strstr_from_next _ _ _ _ (by simp [starts_with]),
      strstr_from_here _ _ _ _ (by simp [starts_with])]
  · have hw : (34 : uint8_t) ∉ ([118, 97, 108, 117, 101] : List uint8_t) := by decide
    have h6 := starts_with_quoted name [118, 97, 108, 117, 101]
      (44 :: 34 :: 118 :: 97 :: 108 :: 117 :: 101 :: 34 :: 58 :: rest) hq hw
    rw [strstr_from_next _ _ _ _ (by simp [starts_with]),
      strstr_from_next _ _ _ _ (by simp [starts_with]),
      strstr_from_next _ _ _ _ (by simp [starts_with]),
      strstr_from_next _ _ _ _ (by simp [starts_with]),
      strstr_from_next _ _ _ _ (by simp [starts_with]),
      strstr_from_next _ _ _ _ (by simp [starts_with])]
    by_cases hv : name = [118, 97, 108, 117, 101]
    · rw [if_pos hv]
      apply strstr_from_here
      show ((34 : uint8_t) == 34 && starts_with
        (name ++ 34 :: 44 :: 34 :: 118 :: 97 :: 108 :: 117 :: 101 :: 34 :: 58 :: rest)
        ([118, 97, 108, 117, 101] ++ [34])) = true
      rw [h6]
      simp [hv]
    · rw [if_neg hv]
      rw [strstr_from_next _ _ _ _ (by
        show ((34 : uint8_t) == 34 && starts_with
          (name ++ 34 :: 44 :: 34 :: 118 :: 97 :: 108 :: 117 :: 101 :: 34 :: 58 :: rest)
          ([118, 97, 108, 117, 101] ++ [34])) = false
        rw [h6]
        simp [hv])]
      rw [strstr_from_skip 34 _ name _ _ (fun x hx e => hq (by rw [← e]; exact hx)),
        strstr_from_next _ _ _ _ (by simp [starts_with]),
        strstr_from_next _ _ _ _ (by simp [starts_with]),
        strstr_from_here _ _ _ _ (by simp [starts_with])]
      congr 1
      omega

theorem c_string_terminated (m rest : List uint8_t) : c_string (m ++ 0 :: rest) = c_string m := by
  unfold c_string
  induction m with
  | nil => simp [List.takeWhile_cons]
  | cons a u ih =>
    by_cases ha : a = 0
    · simp [List.takeWhile_cons, ha]
    · simp only [List.cons_append, List.takeWhile_cons, ha, ne_eq, not_false_eq_true,
        decide_True, if_true, ih]

/-- The buffer after `rx_buf[rx_len] = 0`, when `rx_len` is inside the buffer: the message
bytes, a NUL, and what followed. -/
theorem terminated_buffer (svc : nly_service_t) (h : svc.rx_len < svc.rx_buf.length) :
    ∃ rest, svc.rx_buf.set svc.rx_len 0 = svc.rx_buf.take svc.rx_len ++ 0 :: rest := by
  cases hd : svc.rx_buf.drop svc.rx_len with
  | nil =>
    have := List.drop_eq_nil_iff.mp hd
    omega
  | cons x rest =>
    refine ⟨rest, ?_⟩
    have hl : (svc.rx_buf.take svc.rx_len).length = svc.rx_len := by
      rw [List.length_take]; omega
    have e : svc.rx_buf = svc.rx_buf.take svc.rx_len ++ x :: rest := by
      rw [← hd, List.take_append_drop]
    have := set_terminator (svc.rx_buf.take svc.rx_len) rest x
    rw [hl, ← e] at this
    exact this

/-- A key that does not occur in the message bytes is not found by `strstr`. -/
theorem strstr_absent (svc : nly_service_t) (needle : List uint8_t)
    (h : svc.rx_len < svc.rx_buf.length)
    (hno : ¬ ∃ pre post, svc.rx_buf.take svc.rx_len = pre ++ needle ++ post) :
    strstr (svc.rx_buf.set svc.rx_len 0) needle = none := by
  obtain ⟨rest, hr⟩ := terminated_buffer svc h
  unfold strstr
  rw [hr, c_string_terminated]
  apply strstr_from_none
  rintro ⟨pre, post, hp⟩
  apply hno
  refine ⟨pre, post ++ (svc.rx_buf.take svc.rx_len).dropWhile (fun c => decide (c ≠ 0)), ?_⟩
  have := List.takeWhile_append_dropWhile (fun c => decide (c ≠ 0)) (svc.rx_buf.take svc.rx_len)
  unfold c_string at hp
  rw [hp] at this
  rw [← List.append_assoc]
  exact this.symm

/-- C13 (text messages): take a connector in text mode whose buffer holds, in its first
`rx_len` bytes, the text `\x7b"on":"<name>","value":<number>\x7d`, with at least one more byte
of room after it, where the name has no double quote and at most 255 bytes and neither the
name nor the number has a NUL. Then `handle_complete_message` invokes the message callback,
when one is registered, exactly once: with the name `<name>` and with the value `strtod`
parses from the text that follows the colon after "value" (the number and the closing brace).
And for any connector in text mode with room after the message, when the quoted key "on" or
the quoted key "value" does not occur in the message, no callback is invoked. -/
theorem text_message_dispatch (P : platform) (svc : nly_service_t)
    (name num tail : List uint8_t) (c : uint8_t)
    (hbin : svc.rx_is_binary = 0)
    (hbuf : svc.rx_buf = (str "\x7b\"on\":\"" ++ name ++ str "\",\"value\":" ++ num
      ++ str "\x7d") ++ c :: tail)
    (hlen : svc.rx_len = (str "\x7b\"on\":\"" ++ name ++ str "\",\"value\":" ++ num
      ++ str "\x7d").length)
    (hname : ∀ x ∈ name, x ≠ 0) (hq : (34 : uint8_t) ∉ name) (hn : name.length ≤ 255)
    (hnum : ∀ x ∈ num, x ≠ 0) :
    (handle_complete_message P svc).2 = call_slot svc.on_message
      (fun fn => effect.on_message fn name (P.strtod (num ++ str "\x7d")) svc.ud_message) ∧
    (∀ fn, svc.on_message = some fn → (handle_complete_message P svc).2
      = [effect.on_message fn name (P.strtod (num ++ str "\x7d")) svc.ud_message]) ∧
    (∀ svc2 : nly_service_t, svc2.rx_is_binary = 0 → svc2.rx_len < svc2.rx_buf.length →
      ((¬ ∃ pre post, svc2.rx_buf.take svc2.rx_len = pre ++ str "\"on\"" ++ post) ∨
        (¬ ∃ pre post, svc2.rx_buf.take svc2.rx_len = pre ++ str "\"value\"" ++ post)) →
      (handle_complete_message P svc2).2 = []) := by
  have main : (handle_complete_message P svc).2 = call_slot svc.on_message
      (fun fn => effect.on_message fn name (P.strtod (num ++ str "\x7d")) svc.ud_message) := by
    have hA : str "\x7b\"on\":\"" = [123, 34, 111, 110, 34, 58, 34] := by decide
    have hB : str "\",\"value\":" = [34, 44, 34, 118, 97, 108, 117, 101, 34, 58] := by decide
    have hC : str "\x7d" = [125] := by decide
    have hN1 : str "\"on\"" = [34, 111, 110, 34] := by decide
    have hN2 : str "\"value\"" = [34, 118, 97, 108, 117, 101, 34] := by decide
    rw [hA, hB, hC] at hbuf hlen
    rw [hC]
    have hjson : svc.rx_buf.set svc.rx_len 0
        = 123 :: 34 :: 111 :: 110 :: 34 :: 58 :: 34 ::
          (name ++ 34 :: 44 :: 34 :: 118 :: 97 :: 108 :: 117 :: 101 :: 34 :: 58 ::
            (num ++ 125 :: 0 :: tail)) := by
      rw [hbuf, hlen, set_terminator]
      simp
    have hnum125 : ∀ x ∈ num ++ [125], x ≠ 0 := by
      intro x hx
      rw [List.mem_append, List.mem_singleton] at hx
      rcases hx with hx | hx
      · exact hnum x hx
      · rw [hx]; decide
    have hcs : c_string (svc.rx_buf.set svc.rx_len 0)
        = 123 :: 34 :: 111 :: 110 :: 34 :: 58 :: 34 ::
          (name ++ 34 :: 44 :: 34 :: 118 :: 97 :: 108 :: 117 :: 101 :: 34 :: 58 ::
            (num ++ [125])) := by
      rw [hjson]
      have e : (123 : uint8_t) :: 34 :: 111 :: 110 :: 34 :: 58 :: 34 ::
          (name ++ 34 :: 44 :: 34 :: 118 :: 97 :: 108 :: 117 :: 101 :: 34 :: 58 ::
            (num ++ 125 :: 0 :: tail))
          = (123 :: 34 :: 111 :: 110 :: 34 :: 58 :: 34 ::
            (name ++ 34 :: 44 :: 34 :: 118 :: 97 :: 108 :: 117 :: 101 :: 34 :: 58 ::
              (num ++ [125]))) ++ 0 :: tail := by simp
      rw [e]
      apply c_string_append_nul
      intro x hx
      simp only [List.mem_cons, List.mem_append] at hx
      rcases hx with hx | hx | hx | hx | hx | hx | hx | hx | hx | hx | hx | hx | hx | hx | hx
        | hx | hx | hx | hx
      all_goals first
        | exact hname x hx
        | exact hnum125 x (by simpa using hx)
        | (rw [hx]; decide)
    obtain ⟨k1, k2⟩ := text_keys name (num ++ [125]) hq
    have h1 : strstr (svc.rx_buf.set svc.rx_len 0) (str "\"on\"") = some 1 := by
      unfold strstr
      rw [hcs, hN1]
      exact k1
    have h2 : strstr (svc.rx_buf.set svc.rx_len 0) (str "\"value\"")
        = some (if name = [118, 97, 108, 117, 101] then 6 else 9 + name.length) := by
      unfold strstr
      rw [hcs, hN2]
      exact k2
    have h3 : strchr ((svc.rx_buf.set svc.rx_len 0).drop (1 + 4)) 34 = some 1 := by
      rw [hjson]
      exact strchr_at [58] _ 34 (by simp) (by decide) (by simp)
    have h4 : strchr ((svc.rx_buf.set svc.rx_len 0).drop (1 + 4 + 1 + 1)) 34
        = some name.length := by
      rw [hjson]
      exact strchr_at name _ 34 hname (by decide) hq
    have hlt : name.length < 256 := by omega
    have hdropn : ∀ (k : Nat) (X : List uint8_t),
        ((123 : uint8_t) :: 34 :: 111 :: 110 :: 34 :: 58 :: 34 :: (name ++ X)).drop
          (name.length + k + 7) = X.drop k := by
      intro k X
      show (name ++ X).drop (name.length + k) = X.drop k
      exact List.drop_append k
    by_cases hv : name = [118, 97, 108, 117, 101]
    · rw [if_pos hv] at h2
      have h6 : strchr ((svc.rx_buf.set svc.rx_len 0).drop (6 + 7)) 58 = some 8 := by
        rw [hjson, hv]
        exact strchr_at [44, 34, 118, 97, 108, 117, 101, 34] _ 58 (by simp) (by decide)
          (by simp)
      rw [handle_text_found P svc 1 6 1 name.length 8 hbin h1 h2 h3 h4 hlt h6]
      have hnm : (svc.rx_buf.set svc.rx_len 0).drop (1 + 4 + 1 + 1)
          = name ++ 34 :: 44 :: 34 :: 118 :: 97 :: 108 :: 117 :: 101 :: 34 :: 58 ::
            (num ++ 125 :: 0 :: tail) := by
        rw [hjson]; rfl
      have hvl : (svc.rx_buf.set svc.rx_len 0).drop (6 + 7 + 8 + 1)
          = (num ++ [125]) ++ 0 :: tail := by
        rw [hjson, hv]
        simp
      rw [hnm, name_copy name _ hname hlt, hvl, c_string_append_nul _ _ hnum125]
    · rw [if_neg hv] at h2
      have h6 : strchr ((svc.rx_buf.set svc.rx_len 0).drop (9 + name.length + 7)) 58
          = some 0 := by
        rw [hjson]
        have e : 9 + name.length + 7 = name.length + 9 + 7 := by omega
        rw [e, hdropn]
        exact strchr_at [] _ 58 (by simp) (by decide) (by simp)
      rw [handle_text_found P svc 1 (9 + name.length) 1 name.length 0 hbin h1 h2 h3 h4 hlt h6]
      have hnm : (svc.rx_buf.set svc.rx_len 0).drop (1 + 4 + 1 + 1)
          = name ++ 34 :: 44 :: 34 :: 118 :: 97 :: 108 :: 117 :: 101 :: 34 :: 58 ::
            (num ++ 125 :: 0 :: tail) := by
        rw [hjson]; rfl
      have hvl : (svc.rx_buf.set svc.rx_len 0).drop (9 + name.length + 7 + 0 + 1)
          = (num ++ [125]) ++ 0 :: tail := by
        rw [hjson]
        have e : 9 + name.length + 7 + 0 + 1 = name.length + 10 + 7 := by omega
        rw [e, hdropn]
        simp
      rw [hnm, name_copy name _ hname hlt, hvl, c_string_append_nul _ _ hnum125]
  refine ⟨main, ?_, ?_⟩
  · intro fn hfn
    rw [main, hfn]
    rfl
  · intro svc2 hb2 hroom habs
    apply handle_text_not_found P svc2 hb2
    rcases habs with h | h
    · exact Or.inl (strstr_absent svc2 _ hroom h)
    · exact Or.inr (strstr_absent svc2 _ hroom h)

/-- Witness of C13: the text `\x7b"on":"x","value":42\x7d` followed by one byte of room, with a
callback registered. -/
theorem text_message_dispatch_witness :
    (handle_complete_message sample_platform
      { nly_service_calloc with
        rx_buf := ((str "\x7b\"on\":\"" ++ str "x" ++ str "\",\"value\":" ++ str "42"
          ++ str "\x7d") ++ 0 :: []),
        rx_len := ((str "\x7b\"on\":\"" ++ str "x" ++ str "\",\"value\":" ++ str "42"
          ++ str "\x7d").length),
        on_message := some 1 }).2
      = [effect.on_message 1 (str "x") (sample_platform.strtod (str "42" ++ str "\x7d")) 0] :=
  (text_message_dispatch sample_platform
    { nly_service_calloc with
      rx_buf := ((str "\x7b\"on\":\"" ++ str "x" ++ str "\",\"value\":" ++ str "42"
        ++ str "\x7d") ++ 0 :: []),
      rx_len := ((str "\x7b\"on\":\"" ++ str "x" ++ str "\",\"value\":" ++ str "42"
        ++ str "\x7d").length),
      on_message := some 1 }
    (str "x") (str "42") [] 0 rfl rfl rfl (by simp [str]; decide) (by simp [str]; decide)
    (Nat.le_of_ble_eq_true rfl) (by simp [str]; decide)).2.1 1 rfl

/-- C14, counterexample: on the text `\x7b"on":5,"value":3\x7d`, where the value of the "on" key
is not a quoted string, `handle_complete_message` invokes the registered message callback:
with the name "value" (the next quoted string in the text) and the number parsed after the
colon that follows it, 3.0 when `strtod` reads "3\x7d" as 3.0. -/
theorem text_on_not_string_invokes :
    (handle_complete_message
      ⟨HostOrder.little, 16, fun _ => [],
        fun s => if s = str "3\x7d" then 4613937818241073152 else 0⟩
      { nly_service_calloc with
        rx_buf := (str "\x7b\"on\":5,\"value\":3\x7d" ++ [0]),
        rx_len := 18,
        on_message := some 1 }).2
      = [effect.on_message 1 (str "value") 4613937818241073152 0] ∧
    (handle_complete_message
      ⟨HostOrder.little, 16, fun _ => [],
        fun s => if s = str "3\x7d" then 4613937818241073152 else 0⟩
      { nly_service_calloc with
        rx_buf := (str "\x7b\"on\":5,\"value\":3\x7d" ++ [0]),
        rx_len := 18,
        on_message := some 1 }).2 ≠ [] := by
  have h : (handle_complete_message
      ⟨HostOrder.little, 16, fun _ => [],
        fun s => if s = str "3\x7d" then 4613937818241073152 else 0⟩
      { nly_service_calloc with
        rx_buf := (str "\x7b\"on\":5,\"value\":3\x7d" ++ [0]),
        rx_len := 18,
        on_message := some 1 }).2
      = [effect.on_message 1 (str "value") 4613937818241073152 0] := by
    rfl
  exact ⟨h, by rw [h]; exact List.cons_ne_nil _ _⟩

/-- C14, amended (the value of "on" is not checked): take a connector in text mode whose
buffer holds the text `\x7b"on":<v>,"value":<number>\x7d` and at least one more byte, where `<v>`
is any text without a double quote (5, true, null), and neither `<v>` nor the number has a
NUL. Then `handle_complete_message` invokes the message callback, when one is registered,
exactly once: with the name "value", the first quoted string after the "on" key, and the
value parsed after the colon that follows it. And for any connector in text mode, when "on"
is found and no double quote follows it, no callback is invoked. -/
theorem text_on_not_quoted (P : platform) (svc : nly_service_t) (v num tail : List uint8_t)
    (c : uint8_t)
    (hbin : svc.rx_is_binary = 0)
    (hbuf : svc.rx_buf = (str "\x7b\"on\":" ++ v ++ str ",\"value\":" ++ num ++ str "\x7d")
      ++ c :: tail)
    (hlen : svc.rx_len = (str "\x7b\"on\":" ++ v ++ str ",\"value\":" ++ num
      ++ str "\x7d").length)
    (hv : ∀ x ∈ v, x ≠ 0) (hq : (34 : uint8_t) ∉ v) (hnum : ∀ x ∈ num, x ≠ 0) :
    (handle_complete_message P svc).2 = call_slot svc.on_message
      (fun fn => effect.on_message fn (str "value") (P.strtod (num ++ str "\x7d"))
        svc.ud_message) ∧
    (∀ fn, svc.on_message = some fn → (handle_complete_message P svc).2
      = [effect.on_message fn (str "value") (P.strtod (num ++ str "\x7d")) svc.ud_message]) ∧
    (∀ (svc2 : nly_service_t) (on_key : Nat), svc2.rx_is_binary = 0 →
      strstr (svc2.rx_buf.set svc2.rx_len 0) (str "\"on\"") = some on_key →
      (34 : uint8_t) ∉ c_string ((svc2.rx_buf.set svc2.rx_len 0).drop (on_key + 4)) →
      (handle_complete_message P svc2).2 = []) := by
  have main : (handle_complete_message P svc).2 = call_slot svc.on_message
      (fun fn => effect.on_message fn (str "value") (P.strtod (num ++ str "\x7d"))
        svc.ud_message) := by
    have hA : str "\x7b\"on\":" = [123, 34, 111, 110, 34, 58] := by decide
    have hB : str ",\"value\":" = [44, 34, 118, 97, 108, 117, 101, 34, 58] := by decide
    have hC : str "\x7d" = [125] := by decide
    have hN1 : str "\"on\"" = [34, 111, 110, 34] := by decide
    have hN2 : str "\"value\"" = [34, 118, 97, 108, 117, 101, 34] := by decide
    have hV : str "value" = [118, 97, 108, 117, 101] := by decide
    rw [hA, hB, hC] at hbuf hlen
    rw [hC, hV]
    have hjson : svc.rx_buf.set svc.rx_len 0
        = 123 :: 34 :: 111 :: 110 :: 34 :: 58 ::
          (v ++ 44 :: 34 :: 118 :: 97 :: 108 :: 117 :: 101 :: 34 :: 58 ::
            (num ++ 125 :: 0 :: tail)) := by
      rw [hbuf, hlen, set_terminator]
      simp
    have hnum125 : ∀ x ∈ num ++ [125], x ≠ 0 := by
      intro x hx
      rw [List.mem_append, List.mem_singleton] at hx
      rcases hx with hx | hx
      · exact hnum x hx
      · rw [hx]; decide
    have hcs : c_string (svc.rx_buf.set svc.rx_len 0)
        = 123 :: 34 :: 111 :: 110 :: 34 :: 58 ::
          (v ++ 44 :: 34 :: 118 :: 97 :: 108 :: 117 :: 101 :: 34 :: 58 :: (num ++ [125])) := by
      rw [hjson]
      have e : (123 : uint8_t) :: 34 :: 111 :: 110 :: 34 :: 58 ::
          (v ++ 44 :: 34 :: 118 :: 97 :: 108 :: 117 :: 101 :: 34 :: 58 ::
            (num ++ 125 :: 0 :: tail))
          = (123 :: 34 :: 111 :: 110 :: 34 :: 58 ::
            (v ++ 44 :: 34 :: 118 :: 97 :: 108 :: 117 :: 101 :: 34 :: 58 :: (num ++ [125])))
            ++ 0 :: tail := by simp
      rw [e]
      apply c_string_append_nul
      intro x hx
      simp only [List.mem_cons, List.mem_append] at hx
      rcases hx with hx | hx | hx | hx | hx | hx | hx | hx | hx | hx | hx | hx | hx | hx | hx
        | hx | hx
      all_goals first
        | exact hv x hx
        | exact hnum125 x (by simpa using hx)
        | (rw [hx]; decide)
    have h1 : strstr (svc.rx_buf.set svc.rx_len 0) (str "\"on\"") = some 1 := by
      unfold strstr
      rw [hcs, hN1, strstr_from_next _ _ _ _ (by simp [starts_with]),
        strstr_from_here _ _ _ _ (by simp [starts_with])]
    have h2 : strstr (svc.rx_buf.set svc.rx_len 0) (str "\"value\"")
        = some (7 + v.length) := by
      unfold strstr
      rw [hcs, hN2, strstr_from_next _ _ _ _ (by simp [starts_with]),
        strstr_from_next _ _ _ _ (by simp [starts_with]),
        strstr_from_next _ _ _ _ (by simp [starts_with]),
        strstr_from_next _ _ _ _ (by simp [starts_with]),
        strstr_from_next _ _ _ _ (by simp [starts_with]),
        strstr_from_next _ _ _ _ (by simp [starts_with]),
        strstr_from_skip 34 _ v _ _ (fun x hx e => hq (by rw [← e]; exact hx)),
        strstr_from_next _ _ _ _ (by simp [starts_with]),
        strstr_from_here _ _ _ _ (by simp [starts_with])]
      congr 1
      omega
    have hdropn : ∀ (k : Nat) (X : List uint8_t),
        ((123 : uint8_t) :: 34 :: 111 :: 110 :: 34 :: 58 :: (v ++ X)).drop
          (v.length + k + 6) = X.drop k := by
      intro k X
      show (v ++ X).drop (v.length + k) = X.drop k
      exact List.drop_append k
    have h3 : strchr ((svc.rx_buf.set svc.rx_len 0).drop (1 + 4)) 34
        = some (v.length + 2) := by
      rw [hjson]
      have e : List.drop (1 + 4) ((123 : uint8_t) :: 34 :: 111 :: 110 :: 34 :: 58 ::
          (v ++ 44 :: 34 :: 118 :: 97 :: 108 :: 117 :: 101 :: 34 :: 58 ::
            (num ++ 125 :: 0 :: tail)))
          = (58 :: (v ++ [44])) ++ 34 :: 118 :: 97 :: 108 :: 117 :: 101 :: 34 :: 58 ::
            (num ++ 125 :: 0 :: tail) := by
        show 58 :: (v ++ _) = _
        simp
      rw [e]
      have := strchr_at (58 :: (v ++ [44]))
        (118 :: 97 :: 108 :: 117 :: 101 :: 34 :: 58 :: (num ++ 125 :: 0 :: tail)) 34
        (by
          intro x hx
          simp only [List.mem_cons, List.mem_append, List.mem_singleton, List.not_mem_nil,
            or_false] at hx
          rcases hx with hx | hx | hx
          · rw [hx]; decide
          · exact hv x hx
          · rw [hx]; decide)
        (by decide)
        (by
          intro hx
          simp only [List.mem_cons, List.mem_append, List.mem_singleton, List.not_mem_nil,
            or_false] at hx
          rcases hx with hx | hx | hx
          · revert hx; decide
          · exact hq hx
          · revert hx; decide)
      rw [this]
      simp
    have h4 : strchr ((svc.rx_buf.set svc.rx_len 0).drop (1 + 4 + (v.length + 2) + 1)) 34
        = some 5 := by
      rw [hjson]
      have e : 1 + 4 + (v.length + 2) + 1 = v.length + 2 + 6 := by omega
      rw [e, hdropn]
      exact strchr_at [118, 97, 108, 117, 101] _ 34 (by simp) (by decide) (by simp)
    have h6 : strchr ((svc.rx_buf.set svc.rx_len 0).drop (7 + v.length + 7)) 58
        = some 0 := by
      rw [hjson]
      have e : 7 + v.length + 7 = v.length + 8 + 6 := by omega
      rw [e, hdropn]
      exact strchr_at [] _ 58 (by simp) (by decide) (by simp)
    rw [handle_text_found P svc 1 (7 + v.length) (v.length + 2) 5 0 hbin h1 h2 h3 h4
      (by omega) h6]
    have hnm : (svc.rx_buf.set svc.rx_len 0).drop (1 + 4 + (v.length + 2) + 1)
        = [118, 97, 108, 117, 101] ++ 34 :: 58 :: (num ++ 125 :: 0 :: tail) := by
      rw [hjson]
      have e : 1 + 4 + (v.length + 2) + 1 = v.length + 2 + 6 := by omega
      rw [e, hdropn]
      rfl
    have hvl : (svc.rx_buf.set svc.rx_len 0).drop (7 + v.length + 7 + 0 + 1)
        = (num ++ [125]) ++ 0 :: tail := by
      rw [hjson]
      have e : 7 + v.length + 7 + 0 + 1 = v.length + 9 + 6 := by omega
      rw [e, hdropn]
      simp
    have hcopy := name_copy [118, 97, 108, 117, 101] (34 :: 58 :: (num ++ 125 :: 0 :: tail))
      (by simp) (by simp)
    rw [hnm, hvl, c_string_append_nul _ _ hnum125]
    rw [show (5 : Nat) = ([118, 97, 108, 117, 101] : List uint8_t).length from rfl, hcopy]
  refine ⟨main, ?_, ?_⟩
  · intro fn hfn
    rw [main, hfn]
    rfl
  · intro svc2 on_key hb2 hon hnone
    have hb : ¬ svc2.rx_is_binary ≠ 0 := fun h => h hb2
    have hs : strchr ((svc2.rx_buf.set svc2.rx_len 0).drop (on_key + 4)) 34 = none := by
      unfold strchr
      have hi := List.indexOf_eq_length.mpr hnone
      simp only [hi, lt_self_iff_false, if_false]
    unfold handle_complete_message
    rw [if_neg hb]
    cases hval : strstr (svc2.rx_buf.set svc2.rx_len 0) (str "\"value\"") with
    | none => simp only [hon, hval]
    | some val_key => simp only [hon, hval, hs]

/-- Witness of the amended C14: the text `\x7b"on":true,"value":3\x7d` followed by one byte of
room, with a callback registered. -/
theorem text_on_not_quoted_witness :
    (handle_complete_message sample_platform
      { nly_service_calloc with
        rx_buf := ((str "\x7b\"on\":" ++ str "true" ++ str ",\"value\":" ++ str "3"
          ++ str "\x7d") ++ 0 :: []),
        rx_len := ((str "\x7b\"on\":" ++ str "true" ++ str ",\"value\":" ++ str "3"
          ++ str "\x7d").length),
        on_message := some 1 }).2
      = [effect.on_message 1 (str "value") (sample_platform.strtod (str "3" ++ str "\x7d")) 0] :=
  (text_on_not_quoted sample_platform
    { nly_service_calloc with
      rx_buf := ((str "\x7b\"on\":" ++ str "true" ++ str ",\"value\":" ++ str "3"
        ++ str "\x7d") ++ 0 :: []),
      rx_len := ((str "\x7b\"on\":" ++ str "true" ++ str ",\"value\":" ++ str "3"
        ++ str "\x7d").length),
      on_message := some 1 }
    (str "true") (str "3") [] 0 rfl rfl rfl (by simp [str]; decide) (by simp [str]; decide)
    (by simp [str]; decide)).2.1 1 rfl

/-! ## Capacity of the registration buffer -/

theorem snprintf_snd (buf : List uint8_t) (off size : Nat) (s : List uint8_t) :
    (snprintf buf off size s).2 = s.length := by
  unfold snprintf
  split <;> rfl

/-- The offset after the loop of `build_registration_json` counts every byte of the text,
written or not: `snprintf` returns the length the text would have. -/
theorem registration_fold_offset (P : platform) (cap : Nat) (l : List (Nat × nly_param_t)) :
    ∀ st : List uint8_t × Nat, (l.foldl (registration_step P cap) st).2
      = st.2 + (l.map (fun ip =>
          (if ip.1 > 0 then str "," else []) ++ registration_entry P ip.2)).flatten.length := by
  induction l with
  | nil => intro st; simp
  | cons ip rest ih =>
    intro st
    rw [List.foldl_cons, ih]
    have hs : (registration_step P cap st ip).2
        = st.2 + ((if ip.1 > 0 then str "," else []) ++ registration_entry P ip.2).length := by
      unfold registration_step
      by_cases h : ip.1 > 0
      · simp only [h, if_true, snprintf_snd, List.length_append]
        omega
      · simp only [h, if_false, snprintf_snd, List.length_append, List.length_nil]
        omega
    rw [hs, List.map_cons, List.flatten_cons]
    simp only [List.length_append]
    omega

set_option maxRecDepth 100000 in
/-- C22, evaluated on the code: the offset that `build_registration_json` keeps is the length
of the whole text, whether it fits the `64 + 128 * count` bytes allocated or not, and so is
the length it returns. With one parameter whose name has 255 bytes and range [0, 0] printed
as "0", the entry has 280 bytes: the offset after the loop is 313 and the returned length is
315, both beyond the capacity 192, and the size `cap - off` of the last `snprintf` wraps
around. -/
theorem registration_capacity_exceeded :
    (∀ (P : platform) (g : Nat → uint8_t) (params : List nly_param_t) (count : Nat),
      ((params.take count).enum.foldl (registration_step P (64 + count * 128))
        ((snprintf ((List.range (64 + count * 128)).map g) 0 (64 + count * 128)
            (str "\x7b\"kind\":\"external\",\"parameters\":[")).1,
          (snprintf ((List.range (64 + count * 128)).map g) 0 (64 + count * 128)
            (str "\x7b\"kind\":\"external\",\"parameters\":[")).2)).2
        = (str "\x7b\"kind\":\"external\",\"parameters\":[" ++
            (((params.take count).enum).map (fun ip =>
              (if ip.1 > 0 then str "," else []) ++ registration_entry P ip.2)).flatten).length ∧
      (build_registration_json P (some g) params count).map Prod.snd
        = some (str "\x7b\"kind\":\"external\",\"parameters\":[" ++
            (((params.take count).enum).map (fun ip =>
              (if ip.1 > 0 then str "," else []) ++ registration_entry P ip.2)).flatten
            ++ str "]\x7d").length) ∧
    (registration_entry sample_platform
      { name := List.replicate 255 97, min := 0, max := 0 }).length = 280 ∧
    ((([{ name := List.replicate 255 97, min := 0, max := 0 }] : List nly_param_t).take
        1).enum.foldl (registration_step sample_platform (64 + 1 * 128))
      ((snprintf ((List.range (64 + 1 * 128)).map (fun _ => (0 : uint8_t))) 0 (64 + 1 * 128)
          (str "\x7b\"kind\":\"external\",\"parameters\":[")).1,
        (snprintf ((List.range (64 + 1 * 128)).map (fun _ => (0 : uint8_t))) 0 (64 + 1 * 128)
          (str "\x7b\"kind\":\"external\",\"parameters\":[")).2)).2 = 313 ∧
    64 + 1 * 128 < 313 ∧
    size_sub (64 + 1 * 128) 313 = 18446744073709551495 ∧
    (build_registration_json sample_platform (some (fun _ => 0))
      [{ name := List.replicate 255 97, min := 0, max := 0 }] 1).map Prod.snd = some 315 := by
  have gen : ∀ (P : platform) (g : Nat → uint8_t) (params : List nly_param_t) (count : Nat),
      ((params.take count).enum.foldl (registration_step P (64 + count * 128))
        ((snprintf ((List.range (64 + count * 128)).map g) 0 (64 + count * 128)
            (str "\x7b\"kind\":\"external\",\"parameters\":[")).1,
          (snprintf ((List.range (64 + count * 128)).map g) 0 (64 + count * 128)
            (str "\x7b\"kind\":\"external\",\"parameters\":[")).2)).2
        = (str "\x7b\"kind\":\"external\",\"parameters\":[" ++
            (((params.take count).enum).map (fun ip =>
              (if ip.1 > 0 then str "," else []) ++ registration_entry P ip.2)).flatten).length ∧
      (build_registration_json P (some g) params count).map Prod.snd
        = some (str "\x7b\"kind\":\"external\",\"parameters\":[" ++
            (((params.take count).enum).map (fun ip =>
              (if ip.1 > 0 then str "," else []) ++ registration_entry P ip.2)).flatten
            ++ str "]\x7d").length := by
    intro P g params count
    have h1 := registration_fold_offset P (64 + count * 128) (params.take count).enum
      ((snprintf ((List.range (64 + count * 128)).map g) 0 (64 + count * 128)
          (str "\x7b\"kind\":\"external\",\"parameters\":[")).1,
        (snprintf ((List.range (64 + count * 128)).map g) 0 (64 + count * 128)
          (str "\x7b\"kind\":\"external\",\"parameters\":[")).2)
    refine ⟨?_, ?_⟩
    · rw [h1, snprintf_snd, List.length_append]
    · unfold build_registration_json
      simp only [malloc_some, Option.map_some']
      rw [h1]
      simp only [snprintf_snd, List.length_append]
  refine ⟨gen, ?_, ?_, ?_, ?_, ?_⟩
  · rfl
  · rfl
  · decide
  · rfl
  · rfl
/-! ## The binary flag of a message -/

theorem rx_append_flag (svc : nly_service_t) (a : alloc_t) (data : List uint8_t) (len : Nat) :
    (rx_append svc a data len).2.rx_is_binary = svc.rx_is_binary := by
  obtain ⟨b, l, c, h⟩ := rx_append_frame svc a data len
  rw [h]

/-- The flag after a fragment that is not final: 1 when the fragment is flagged binary, 0 when
it is a first fragment not flagged binary, unchanged otherwise. -/
theorem receive_flag (P : platform) (svc : nly_service_t) (wsi : Nat)
    (inp : Option (List uint8_t)) (len : Nat) (b fst : Bool) (a : alloc_t) :
    (nly_lws_callback P svc wsi lws_callback_reasons.LWS_CALLBACK_CLIENT_RECEIVE inp len
      ⟨b, fst, false⟩ a).2.1.rx_is_binary
      = if b then 1 else if fst then 0 else svc.rx_is_binary := by
  unfold nly_lws_callback
  cases b <;> cases fst <;> simp [rx_append_flag]

/-- The state on which a final fragment runs `handle_complete_message`: the flag is updated
as for any fragment, the bytes are appended, then the message is dispatched and the buffer
reset. -/
theorem receive_final (P : platform) (svc : nly_service_t) (wsi : Nat)
    (inp : Option (List uint8_t)) (len : Nat) (b fst : Bool) (a : alloc_t) :
    nly_lws_callback P svc wsi lws_callback_reasons.LWS_CALLBACK_CLIENT_RECEIVE inp len
      ⟨b, fst, true⟩ a
      = (0, rx_reset (handle_complete_message P (rx_append
            { svc with rx_is_binary := if b then 1 else if fst then 0 else svc.rx_is_binary }
            a (inp.getD []) len).2).1,
          (handle_complete_message P (rx_append
            { svc with rx_is_binary := if b then 1 else if fst then 0 else svc.rx_is_binary }
            a (inp.getD []) len).2).2) := by
  unfold nly_lws_callback
  cases b <;> cases fst <;> simp

theorem middle_fragments_flag (P : platform) (wsi : Nat)
    (mids : List (Bool × List uint8_t × alloc_t)) :
    ∀ svc : nly_service_t, (run P svc (middle_fragments wsi mids)).1.rx_is_binary
      = if mids.any (fun m => m.1) then 1 else svc.rx_is_binary := by
  induction mids with
  | nil => intro svc; rfl
  | cons m rest ih =>
    intro svc
    have hstep : (do_step P svc (step.callback wsi
        lws_callback_reasons.LWS_CALLBACK_CLIENT_RECEIVE (some m.2.1) m.2.1.length
        ⟨m.1, false, false⟩ m.2.2)).1.rx_is_binary
        = if m.1 then 1 else svc.rx_is_binary := by
      have := receive_flag P svc wsi (some m.2.1) m.2.1.length m.1 false m.2.2
      simpa [do_step] using this
    show (run P svc (step.callback wsi lws_callback_reasons.LWS_CALLBACK_CLIENT_RECEIVE
      (some m.2.1) m.2.1.length ⟨m.1, false, false⟩ m.2.2 :: middle_fragments wsi rest)).1.rx_is_binary
      = _
    rw [run_cons, ih, hstep, List.any_cons]
    cases m.1 <;> cases List.any rest (fun m => m.1) <;> simp

/-- C21, counterexample: the same bytes, a valid binary frame for ("x", 42.0), arrive as two
fragments whose first one is not flagged binary. When the final fragment is flagged binary
the binary decoder runs and the message callback is invoked; when it is not, the text
extractor runs and nothing is invoked. The first fragment has the same flag in both runs. -/
theorem later_fragment_sets_binary :
    (run sample_platform (nly_service_on_message nly_service_calloc (some 1) 0)
      [step.callback 7 lws_callback_reasons.LWS_CALLBACK_CLIENT_RECEIVE (some [1, 120]) 2
        ⟨false, true, false⟩ (some (fun _ => 0)),
       step.callback 7 lws_callback_reasons.LWS_CALLBACK_CLIENT_RECEIVE
        (some [64, 69, 0, 0, 0, 0, 0, 0]) 8 ⟨true, false, true⟩ none]).2
      = [[], [effect.on_message 1 [120] 4631107791820423168 0]] ∧
    (run sample_platform (nly_service_on_message nly_service_calloc (some 1) 0)
      [step.callback 7 lws_callback_reasons.LWS_CALLBACK_CLIENT_RECEIVE (some [1, 120]) 2
        ⟨false, true, false⟩ (some (fun _ => 0)),
       step.callback 7 lws_callback_reasons.LWS_CALLBACK_CLIENT_RECEIVE
        (some [64, 69, 0, 0, 0, 0, 0, 0]) 8 ⟨false, false, true⟩ none]).2
      = [[], []] := by
  constructor
  · rfl
  · rfl

/-- C21, amended (the binary flag of a message): a message arrives as a first fragment, any
number of middle fragments and a final fragment, each with its own binary flag, bytes and
allocation outcome. Before the final fragment the flag of the connector is 1 when the first
or a middle fragment was flagged binary and 0 otherwise. The final fragment runs
`handle_complete_message` on a state whose flag is 1 when some fragment of the message,
the final one included, was flagged binary, and 0 when none was: the binary decoder is
chosen exactly when some fragment is flagged binary. So a first fragment flagged binary
fixes the binary decoder whatever the later flags, and when every fragment carries the flag
of the first one the decoder is the one of the first fragment. A message made of a single
fragment is decoded by its own flag. -/
theorem message_flag_any_fragment (P : platform) (svc : nly_service_t) (wsi : Nat)
    (b0 : Bool) (d0 : List uint8_t) (a0 : alloc_t)
    (mids : List (Bool × List uint8_t × alloc_t))
    (bn : Bool) (dn : List uint8_t) (an : alloc_t) :
    (run P svc (step.callback wsi lws_callback_reasons.LWS_CALLBACK_CLIENT_RECEIVE (some d0)
        d0.length ⟨b0, true, false⟩ a0 :: middle_fragments wsi mids)).1.rx_is_binary
      = (if b0 || mids.any (fun m => m.1) then 1 else 0) ∧
    do_step P (run P svc (step.callback wsi lws_callback_reasons.LWS_CALLBACK_CLIENT_RECEIVE
        (some d0) d0.length ⟨b0, true, false⟩ a0 :: middle_fragments wsi mids)).1
        (step.callback wsi lws_callback_reasons.LWS_CALLBACK_CLIENT_RECEIVE (some dn)
          dn.length ⟨bn, false, true⟩ an)
      = (rx_reset (handle_complete_message P (rx_append
            { (run P svc (step.callback wsi lws_callback_reasons.LWS_CALLBACK_CLIENT_RECEIVE
                (some d0) d0.length ⟨b0, true, false⟩ a0 :: middle_fragments wsi mids)).1 with
              rx_is_binary := if b0 || mids.any (fun m => m.1) || bn then 1 else 0 }
            an dn dn.length).2).1,
          (handle_complete_message P (rx_append
            { (run P svc (step.callback wsi lws_callback_reasons.LWS_CALLBACK_CLIENT_RECEIVE
                (some d0) d0.length ⟨b0, true, false⟩ a0 :: middle_fragments wsi mids)).1 with
              rx_is_binary := if b0 || mids.any (fun m => m.1) || bn then 1 else 0 }
            an dn dn.length).2).2) ∧
    (rx_append
        { (run P svc (step.callback wsi lws_callback_reasons.LWS_CALLBACK_CLIENT_RECEIVE
            (some d0) d0.length ⟨b0, true, false⟩ a0 :: middle_fragments wsi mids)).1 with
          rx_is_binary := if b0 || mids.any (fun m => m.1) || bn then 1 else 0 }
        an dn dn.length).2.rx_is_binary
      = (if b0 || mids.any (fun m => m.1) || bn then 1 else 0) ∧
    (b0 = true → (if b0 || mids.any (fun m => m.1) || bn then (1 : Int) else 0) = 1) ∧
    ((∀ m ∈ mids, m.1 = b0) → bn = b0 →
      (if b0 || mids.any (fun m => m.1) || bn then (1 : Int) else 0) = if b0 then 1 else 0) ∧
    do_step P svc (step.callback wsi lws_callback_reasons.LWS_CALLBACK_CLIENT_RECEIVE (some d0)
        d0.length ⟨b0, true, true⟩ a0)
      = (rx_reset (handle_complete_message P (rx_append
            { svc with rx_is_binary := if b0 then 1 else 0 } a0 d0 d0.length).2).1,
          (handle_complete_message P (rx_append
            { svc with rx_is_binary := if b0 then 1 else 0 } a0 d0 d0.length).2).2) := by
  have h1 : (run P svc (step.callback wsi lws_callback_reasons.LWS_CALLBACK_CLIENT_RECEIVE
      (some d0) d0.length ⟨b0, true, false⟩ a0 :: middle_fragments wsi mids)).1.rx_is_binary
      = (if b0 || mids.any (fun m => m.1) then 1 else 0) := by
    rw [run_cons, middle_fragments_flag]
    have := receive_flag P svc wsi (some d0) d0.length b0 true a0
    simp only [do_step, this]
    cases b0 <;> cases List.any mids (fun m => m.1) <;> simp
  refine ⟨h1, ?_, ?_, ?_, ?_, ?_⟩
  · simp only [do_step, receive_final, h1, Option.getD_some]
    cases b0 <;> cases List.any mids (fun m => m.1) <;> cases bn <;> simp
  · rw [rx_append_flag]
  · intro hb
    simp [hb]
  · intro hm hb
    have hany : mids.any (fun m => m.1) = true → b0 = true := by
      intro h
      obtain ⟨m, hmem, hm1⟩ := List.any_eq_true.mp h
      rw [← hm m hmem]
      exact hm1
    rw [hb]
    cases b0
    · cases hmids : List.any mids (fun m => m.1)
      · simp
      · exact absurd (hany hmids) (by simp)
    · simp
  · simp only [do_step, receive_final, Option.getD_some]
    cases b0 <;> simp
/-! ## The terminator of a text message -/

/-- An `rx_append` that needs no more than the capacity does not call `realloc`. -/
theorem rx_append_fits (svc : nly_service_t) (a : alloc_t) (data : List uint8_t) (len : Nat)
    (h : svc.rx_len + len ≤ svc.rx_cap) :
    rx_append svc a data len
      = (0, { svc with rx_buf := memcpy svc.rx_buf svc.rx_len data len,
                       rx_len := svc.rx_len + len }) := by
  have hn : ¬ svc.rx_len + len > svc.rx_cap := by omega
  unfold rx_append
  simp only [hn, if_false]

/-- C23, evaluated on the code: take a connector whose receive buffer is as `calloc` leaves it
(no block, length 0, capacity 0). (1) An empty text message as the very first message: the
final fragment runs `handle_complete_message` on a state with no block and `rx_len = rx_cap
= 0`, so `rx_buf[rx_len] = 0` writes through a null pointer. (2) A text message in two
fragments, the first of 1 to 256 bytes and both of 512 bytes together: the first fragment
allocates 512 bytes, the second fits without growth, and `handle_complete_message` runs with
`rx_len = rx_cap = 512` on a block of 512 bytes, so the terminator is written one byte past
the block. -/
theorem terminator_outside_buffer (P : platform) (svc : nly_service_t) (wsi : Nat)
    (d1 d2 : List uint8_t) (g1 : Nat → uint8_t) (a a2 : alloc_t)
    (hbuf : svc.rx_buf = []) (hlen : svc.rx_len = 0) (hcap : svc.rx_cap = 0)
    (h1 : 0 < d1.length) (h1b : d1.length ≤ 256) (h2 : d1.length + d2.length = 512) :
    (nly_lws_callback P svc wsi lws_callback_reasons.LWS_CALLBACK_CLIENT_RECEIVE (some []) 0
        ⟨false, true, true⟩ a
      = (0, rx_reset (handle_complete_message P
            (rx_append { svc with rx_is_binary := 0 } a [] 0).2).1,
          (handle_complete_message P (rx_append { svc with rx_is_binary := 0 } a [] 0).2).2) ∧
      (rx_append { svc with rx_is_binary := 0 } a [] 0).2.rx_is_binary = 0 ∧
      (rx_append { svc with rx_is_binary := 0 } a [] 0).2.rx_buf = [] ∧
      (rx_append { svc with rx_is_binary := 0 } a [] 0).2.rx_len = 0 ∧
      (rx_append { svc with rx_is_binary := 0 } a [] 0).2.rx_cap = 0) ∧
    ((nly_lws_callback P svc wsi lws_callback_reasons.LWS_CALLBACK_CLIENT_RECEIVE (some d1)
        d1.length ⟨false, true, false⟩ (some g1)).2.1.rx_cap = 512 ∧
      nly_lws_callback P
          (nly_lws_callback P svc wsi lws_callback_reasons.LWS_CALLBACK_CLIENT_RECEIVE (some d1)
            d1.length ⟨false, true, false⟩ (some g1)).2.1
          wsi lws_callback_reasons.LWS_CALLBACK_CLIENT_RECEIVE (some d2) d2.length
          ⟨false, false, true⟩ a2
        = (0, rx_reset (handle_complete_message P (rx_append
              (nly_lws_callback P svc wsi lws_callback_reasons.LWS_CALLBACK_CLIENT_RECEIVE
                (some d1) d1.length ⟨false, true, false⟩ (some g1)).2.1 a2 d2 d2.length).2).1,
            (handle_complete_message P (rx_append
              (nly_lws_callback P svc wsi lws_callback_reasons.LWS_CALLBACK_CLIENT_RECEIVE
                (some d1) d1.length ⟨false, true, false⟩ (some g1)).2.1 a2 d2 d2.length).2).2) ∧
      (rx_append
        (nly_lws_callback P svc wsi lws_callback_reasons.LWS_CALLBACK_CLIENT_RECEIVE
          (some d1) d1.length ⟨false, true, false⟩ (some g1)).2.1 a2 d2 d2.length).2.rx_is_binary
        = 0 ∧
      (rx_append
        (nly_lws_callback P svc wsi lws_callback_reasons.LWS_CALLBACK_CLIENT_RECEIVE
          (some d1) d1.length ⟨false, true, false⟩ (some g1)).2.1 a2 d2 d2.length).2.rx_len
        = 512 ∧
      (rx_append
        (nly_lws_callback P svc wsi lws_callback_reasons.LWS_CALLBACK_CLIENT_RECEIVE
          (some d1) d1.length ⟨false, true, false⟩ (some g1)).2.1 a2 d2 d2.length).2.rx_cap
        = 512 ∧
      (rx_append
        (nly_lws_callback P svc wsi lws_callback_reasons.LWS_CALLBACK_CLIENT_RECEIVE
          (some d1) d1.length ⟨false, true, false⟩ (some g1)).2.1 a2 d2 d2.length).2.rx_buf.length
        = 512 ∧
      (rx_append
        (nly_lws_callback P svc wsi lws_callback_reasons.LWS_CALLBACK_CLIENT_RECEIVE
          (some d1) d1.length ⟨false, true, false⟩ (some g1)).2.1 a2 d2 d2.length).2.rx_buf.take
          512 = d1 ++ d2) := by
  constructor
  · have hfit : ({ svc with rx_is_binary := 0 } : nly_service_t).rx_len + 0
        ≤ ({ svc with rx_is_binary := 0 } : nly_service_t).rx_cap := by
      show svc.rx_len + 0 ≤ svc.rx_cap
      omega
    refine ⟨?_, ?_, ?_, ?_, ?_⟩
    · have := receive_final P svc wsi (some []) 0 false true a
      simpa using this
    · rw [rx_append_flag]
    · rw [rx_append_fits _ _ _ _ hfit]
      show memcpy svc.rx_buf svc.rx_len [] 0 = []
      rw [hbuf, hlen]
      rfl
    · rw [rx_append_fits _ _ _ _ hfit]
      show svc.rx_len + 0 = 0
      omega
    · rw [rx_append_fits _ _ _ _ hfit]
      exact hcap
  · have hst : (nly_lws_callback P svc wsi lws_callback_reasons.LWS_CALLBACK_CLIENT_RECEIVE
        (some d1) d1.length ⟨false, true, false⟩ (some g1)).2.1
        = (rx_append { svc with rx_is_binary := 0 } (some g1) d1 d1.length).2 := by
      unfold nly_lws_callback
      simp
    rw [hst]
    obtain ⟨_, e2, e3, _, e5, e6, _⟩ := rx_append_ok { svc with rx_is_binary := 0 } g1 d1
      d1.length (Nat.le_refl _)
      (by show svc.rx_buf.length = svc.rx_cap; rw [hbuf, hcap]; rfl)
      (by show svc.rx_len ≤ svc.rx_cap; omega)
    have e0 : (rx_append { svc with rx_is_binary := 0 } (some g1) d1 d1.length).2.rx_is_binary
        = 0 := by
      rw [rx_append_flag]
    clear hst
    generalize (rx_append { svc with rx_is_binary := 0 } (some g1) d1 d1.length).2 = X at *
    change X.rx_len = svc.rx_len + d1.length at e2
    change X.rx_buf.take (svc.rx_len + d1.length)
      = svc.rx_buf.take svc.rx_len ++ d1.take d1.length at e5
    change X.rx_cap = (if svc.rx_len + d1.length > svc.rx_cap
      then max (2 * (svc.rx_len + d1.length)) 512 else svc.rx_cap) at e6
    rw [hlen, Nat.zero_add] at e2
    rw [hlen, hcap, if_pos (by omega), Nat.zero_add] at e6
    have e6b : X.rx_cap = 512 := by rw [e6]; omega
    rw [hlen, hbuf, Nat.zero_add, List.take_length] at e5
    have e5b : X.rx_buf.take d1.length = d1 := by simpa using e5
    have hfit : X.rx_len + d2.length ≤ X.rx_cap := by
      rw [e2, e6b]
      omega
    have hm := memcpy_within X.rx_buf d2 X.rx_len d2.length
      (by rw [e3, e6b, e2]; omega) (Nat.le_refl _)
    refine ⟨e6b, ?_, ?_, ?_, ?_, ?_, ?_⟩
    · have := receive_final P X wsi (some d2) d2.length false false a2
      simpa using this
    · rw [rx_append_flag, e0]
    · rw [rx_append_fits _ _ _ _ hfit]
      show X.rx_len + d2.length = 512
      rw [e2]
      exact h2
    · rw [rx_append_fits _ _ _ _ hfit]
      exact e6b
    · rw [rx_append_fits _ _ _ _ hfit]
      show (memcpy X.rx_buf X.rx_len d2 d2.length).length = 512
      rw [hm.1, e3, e6b]
    · rw [rx_append_fits _ _ _ _ hfit]
      show (memcpy X.rx_buf X.rx_len d2 d2.length).take 512 = d1 ++ d2
      have := hm.2
      rw [e2, h2, e5b, List.take_length] at this
      rw [e2]
      exact this

/-- Witness of C23: the fresh connector, a first fragment of 1 byte and a final fragment of
511 bytes. -/
theorem terminator_outside_buffer_witness :
    (rx_append
      (nly_lws_callback sample_platform nly_service_calloc 7
        lws_callback_reasons.LWS_CALLBACK_CLIENT_RECEIVE (some [123]) ([123] : List uint8_t).length
        ⟨false, true, false⟩ (some (fun _ => 0))).2.1 none (List.replicate 511 125)
        (List.replicate 511 (125 : uint8_t)).length).2.rx_len = 512 ∧
    (rx_append
      (nly_lws_callback sample_platform nly_service_calloc 7
        lws_callback_reasons.LWS_CALLBACK_CLIENT_RECEIVE (some [123]) ([123] : List uint8_t).length
        ⟨false, true, false⟩ (some (fun _ => 0))).2.1 none (List.replicate 511 125)
        (List.replicate 511 (125 : uint8_t)).length).2.rx_cap = 512 :=
  ⟨(terminator_outside_buffer sample_platform nly_service_calloc 7 [123]
      (List.replicate 511 125) (fun _ => 0) none none rfl rfl rfl (by decide) (by decide)
      (by rw [List.length_replicate]; rfl)).2.2.2.2.1,
    (terminator_outside_buffer sample_platform nly_service_calloc 7 [123]
      (List.replicate 511 125) (fun _ => 0) none none rfl rfl rfl (by decide) (by decide)
      (by rw [List.length_replicate]; rfl)).2.2.2.2.2.1⟩

end Nallely
